import Mathlib

/-!
Shallow embedding of the coverage instrumentation and aggregation utilities of
`src/tests/test_utils.py` (chipflow-digital-ip).  The Python code walks an
Amaranth design tree (fragments holding per-domain statement lists), assigns
coverage identities, splices shadow-signal writes into statement lists, and
merges per-run outcome counters.

Modelling conventions:
* Python tuples `(parent_path, domain, coverage_id)` become the `CovId`
  structure; `parent_path` components may be `None` (hence `Option String`).
* Object memory addresses (Python `id(...)`) are modelled as explicit `addr`
  fields carried by every node; the tagging and naming code never reads them
  (which is exactly what the determinism claims are about).
* Mutable attributes that the Python code sets on tree nodes
  (`_coverage_id`, `_coverage_name`, `_coverage_type`, `_coverage_case_ids`,
  `_coverage_injected`, `_assert_id`, `_block_cov_ids`, `_expr_coverage_id`)
  become optional fields of the node constructors, and the mutating
  traversals become tree-to-tree functions threading the counter state.
* `dict` values with insertion order become association lists; `Counter`
  objects become total functions with default 0.
* Fallible code (`raise ValueError`) returns `Except String _`.
-/

/-- Coverage identity: the Python tuple `(parent_path, domain, coverage_id)`. -/
structure CovId where
  path : List (Option String)
  domain : String
  serial : Nat
deriving DecidableEq, Repr

abbrev HPath := List (Option String)

/-- Source location `(filename, lineno)`; Python code treats a missing or
falsy `src_loc` as absent, modelled by `Option SrcLoc`. -/
structure SrcLoc where
  file : String
  line : Nat
deriving DecidableEq, Repr

/-- A Switch case pattern as accepted by `_match_case`: an AST constant, a
Python integer, or a pattern string. -/
inductive Pat where
  | pconst (value : Int) (width : Nat)
  | pint (n : Int)
  | pstr (s : String)
deriving DecidableEq, Repr

/-- The kind of a formal directive (`assert` / `assume` / `cover`), the
result of `_assert_node_kind`. -/
inductive FKind where
  | fassert
  | fassume
  | fcover
deriving DecidableEq, Repr

/-- Amaranth value AST nodes reachable from the statements the utilities
walk.  `addr` models the object's memory address (`id(e)`), `ecov` the
`_expr_coverage_id` attribute set by the expression tagger. -/
inductive Expr where
  | signal (addr : Nat) (ecov : Option CovId) (sname : String) (width : Nat)
  | econst (addr : Nat) (ecov : Option CovId) (value : Int) (width : Nat)
  | slice (addr : Nat) (ecov : Option CovId) (value : Expr) (start sstop : Nat)
  | opNot (addr : Nat) (ecov : Option CovId) (a : Expr)
  | opAnd (addr : Nat) (ecov : Option CovId) (a b : Expr)
  | opOr (addr : Nat) (ecov : Option CovId) (a b : Expr)
  | opEq (addr : Nat) (ecov : Option CovId) (a b : Expr)
  | opNe (addr : Nat) (ecov : Option CovId) (a b : Expr)
deriving DecidableEq, Repr

namespace Expr

/-- Width of the value, as `expr.shape().width` computes it. -/
def width : Expr → Nat
  | .signal _ _ _ w => w
  | .econst _ _ _ w => w
  | .slice _ _ _ start sstop => sstop - start
  | .opNot _ _ a => a.width
  | .opAnd _ _ a b => max a.width b.width
  | .opOr _ _ a b => max a.width b.width
  | .opEq _ _ _ _ => 1
  | .opNe _ _ _ _ => 1

end Expr

/-- `_ANCHOR` of the source file. -/
def _ANCHOR : String := "chipflow-digital-ip"

/-- Index of the first occurrence of `needle` in `hay`
(Python `str.find`), or `none`. -/
def findSubIdx : List Char → List Char → Option Nat
  | _, [] => some 0
  | [], _ => none
  | c :: rest, needle =>
    if needle.isPrefixOf (c :: rest) then some 0
    else (findSubIdx rest needle).map (· + 1)

/-- `_shorten_filename`: `filename[idx:]` from the first occurrence of the
anchor, else `filename.split("/")[-1]` (the part after the last slash). -/
def _shorten_filename (filename : String) : String :=
  if filename = "" then "unknown"
  else
    match findSubIdx filename.data _ANCHOR.data with
    | some i => String.mk (filename.data.drop i)
    | none => String.mk ((filename.data.reverse.takeWhile (fun c => c ≠ '/')).reverse)

/-- `_short_loc`. -/
def _short_loc (srcLoc : Option SrcLoc) : String :=
  match srcLoc with
  | none => "unknown"
  | some loc =>
    let f := _shorten_filename loc.file
    let l := loc.line
    s!"{f}:{l}"

/-- `_safe_path_str`. -/
def _safe_path_str (parentPath : HPath) : String :=
  match parentPath with
  | [] => "top"
  | _ =>
    let comp : Option String → String := fun p =>
      match p with
      | none => "anon"
      | some "" => "anon"
      | some s => s
    String.intercalate "/" (parentPath.map comp)

/-- Structural `repr`/`str` of an expression, standing in for Amaranth's
`Value.__repr__`.  It is total and reads no memory address, so the
`f"<expr@{id(expr):x}>"` fallback of `_expr_name` (reached only when
`str(expr)` raises) is dead code and is not modelled. -/
def reprExpr : Expr → String
  | .signal _ _ n _ => s!"(sig {n})"
  | .econst _ _ v w => s!"(const {w}'d{v})"
  | .slice _ _ v a b =>
    let vs := reprExpr v
    s!"(slice {vs} {a}:{b})"
  | .opNot _ _ a =>
    let as_ := reprExpr a
    s!"(~ {as_})"
  | .opAnd _ _ a b =>
    let as_ := reprExpr a
    let bs := reprExpr b
    s!"(& {as_} {bs})"
  | .opOr _ _ a b =>
    let as_ := reprExpr a
    let bs := reprExpr b
    s!"(| {as_} {bs})"
  | .opEq _ _ a b =>
    let as_ := reprExpr a
    let bs := reprExpr b
    s!"(== {as_} {bs})"
  | .opNe _ _ a b =>
    let as_ := reprExpr a
    let bs := reprExpr b
    s!"(!= {as_} {bs})"

/-- `_expr_name`: slices first (they have `value`/`start`/`stop`), then named
signals, then constants (`str(expr.value)`), then `str(expr)`. -/
def _expr_name : Expr → String
  | .slice _ _ v start sstop =>
    let base := _expr_name v
    if start = sstop - 1 then s!"{base}[{start}]" else s!"{base}[{start}:{sstop}]"
  | .signal _ _ n _ => n
  | .econst _ _ v _ => s!"{v}"
  | e => reprExpr e

/-- `_cov_signal_name`: note that unlike `_safe_path_str` this maps only a
`None` component to `"anon"` and keeps empty strings. -/
def _cov_signal_name (pre : String) (parentPath : HPath) (domain : String)
    (serial : Nat) (extra : List String) : String :=
  let path :=
    match parentPath with
    | [] => "top"
    | _ =>
      let comp : Option String → String := fun p =>
        match p with
        | none => "anon"
        | some s => s
      String.intercalate "_" (parentPath.map comp)
  let suffix := String.intercalate "_" extra
  if extra.isEmpty then s!"{pre}_{path}_{domain}_{serial}"
  else s!"{pre}_{path}_{domain}_{suffix}_{serial}"

/-- `str(src_loc)` as interpolated into the switch coverage name
(`f"{domain}:switch at {stmt.src_loc}"`): the tuple's repr, or `"None"`. -/
def reprSrcLocOpt : Option SrcLoc → String
  | none => "None"
  | some loc => "('" ++ loc.file ++ "', " ++ toString loc.line ++ ")"

/-- `repr` of one case pattern, as `str(patterns)` renders tuple elements. -/
def reprPat : Pat → String
  | .pconst v w => s!"(const {w}'d{v})"
  | .pint n => toString n
  | .pstr s => "'" ++ s ++ "'"

/-- `str(patterns)` for a pattern tuple (Python tuple repr, including the
trailing comma of a 1-tuple). -/
def reprPatterns (ps : List Pat) : String :=
  match ps with
  | [] => "()"
  | [p] => "(" ++ reprPat p ++ ",)"
  | _ => "(" ++ String.intercalate ", " (ps.map reprPat) ++ ")"

/-- Statements of the design tree.  Fields mirror the Amaranth AST node
attributes plus the mutable coverage attributes the utilities set:
`covId = _coverage_id`, `covName = _coverage_name`,
`covType = _coverage_type`, `covInjected = _coverage_injected`,
`caseIds = _coverage_case_ids`, `blockCovIds = _block_cov_ids`,
`assertId/assertName/assertType = _assert_id/_assert_name/_assert_type`.
A Switch case is the Python tuple `(patterns, sub_stmts, case_src_loc)`
with an extra `Nat` in second position modelling `id(sub_stmts)` (the body
list's address, used as a key by the block facet). -/
inductive Stmt where
  | assign (addr : Nat) (srcLoc : Option SrcLoc) (lhs rhs : Expr)
      (covId : Option CovId) (covName covType : Option String) (covInjected : Bool)
  | switch (addr : Nat) (srcLoc : Option SrcLoc) (test : Expr)
      (cases : List (Option (List Pat) × Nat × List Stmt × Option SrcLoc))
      (covId : Option CovId) (covName covType : Option String)
      (caseIds : Option (List CovId)) (blockCovIds : List (Nat × CovId))
      (covInjected : Bool)
  | formal (addr : Nat) (srcLoc : Option SrcLoc) (kind : FKind) (cond : Expr)
      (assertId : Option CovId) (assertName assertType : Option String)

/-- One Switch case: `(patterns, id(sub_stmts), sub_stmts, case_src_loc)`. -/
abbrev SwCase := Option (List Pat) × Nat × List Stmt × Option SrcLoc

/-- A design fragment: per-domain statement lists (an ordered dict, each
list carrying its address `id(stmts)`), named subfragments, and the
`_block_cov_ids` attribute appended to by the block tagger. -/
inductive Fragment where
  | mk (statements : List (String × Nat × List Stmt))
      (subfragments : List (Fragment × Option String))
      (blockCovIds : List (Nat × CovId))

def Fragment.statements : Fragment → List (String × Nat × List Stmt)
  | .mk s _ _ => s

def Fragment.subfragments : Fragment → List (Fragment × Option String)
  | .mk _ s _ => s

def Fragment.blockCovIds : Fragment → List (Nat × CovId)
  | .mk _ _ b => b

/-- `(name, type)` pairs keyed by identity: the `stmtid_to_info` /
`blockid_to_info` / `assertid_to_info` / `exprid_to_info` dictionaries,
in insertion order. -/
abbrev InfoMap := List (CovId × String × String)

/-- `get_assign_name`. -/
def get_assign_name (domain : String) (srcLoc : Option SrcLoc) (lhs rhs : Expr) :
    String :=
  let loc := _short_loc srcLoc
  let l := _expr_name lhs
  let r := _expr_name rhs
  s!"{loc} | {domain}:{l} = {r}"

/-- `get_switch_case_name`: the case location falls back to the switch's,
the parent path is read from the switch's already-assigned
`_coverage_id`. -/
def get_switch_case_name (domain : String) (swCovId : Option CovId)
    (swSrcLoc : Option SrcLoc) (patterns : Option (List Pat))
    (srcLoc : Option SrcLoc) : String :=
  let loc := _short_loc (srcLoc.or swSrcLoc)
  let pp : HPath := match swCovId with | some c => c.path | none => []
  let pathStr := _safe_path_str pp
  let patternsStr := match patterns with | none => "default" | some ps => reprPatterns ps
  s!"{loc} | {pathStr} | {domain}:switch_case({patternsStr})"

/-- The inline `f"{domain}:switch at {getattr(stmt, 'src_loc', 'unknown')}"`
of `tag_all_statements`. -/
def switch_cov_name (domain : String) (srcLoc : Option SrcLoc) : String :=
  let sl := reprSrcLocOpt srcLoc
  s!"{domain}:switch at {sl}"

/-- Identities and info entries assigned to the cases of one Switch
(the first loop over `stmt.cases` in `tag_all_states`' Switch branch):
consecutive serials starting at `k`, under the same path and domain. -/
def switch_case_infos (pp : HPath) (domain : String) (swCovId : Option CovId)
    (swSrcLoc : Option SrcLoc) : Nat → List SwCase → List CovId × InfoMap
  | _, [] => ([], [])
  | k, (pats, _, _, csl) :: rest =>
    let cid : CovId := ⟨pp, domain, k⟩
    let nm := get_switch_case_name domain swCovId swSrcLoc pats csl
    let r := switch_case_infos pp domain swCovId swSrcLoc (k + 1) rest
    (cid :: r.1, (cid, nm, "switch_case") :: r.2)

mutual

/-- `tag_all_statements`' per-statement work: an already-tagged statement is
skipped wholesale (`continue`); an untagged Assign or Switch receives the
next serial; a Switch additionally numbers its cases consecutively and then
recurses into the case bodies (the Python code wraps each body statement in
a temporary one-statement fragment, which is exactly sequential recursion
over the body under the same parent path and domain). -/
def tag_stmt_one (pp : HPath) (domain : String) (k : Nat) :
    Stmt → Stmt × Nat × InfoMap
  | .assign a sl lhs rhs covId cn ct inj =>
    match covId with
    | some cid => (.assign a sl lhs rhs (some cid) cn ct inj, k, [])
    | none =>
      let cid : CovId := ⟨pp, domain, k⟩
      let nm := get_assign_name domain sl lhs rhs
      (.assign a sl lhs rhs (some cid) (some nm) (some "assign") inj, k + 1,
        [(cid, nm, "assign")])
  | .switch a sl test cases covId cn ct caseIds bci inj =>
    match covId with
    | some cid => (.switch a sl test cases (some cid) cn ct caseIds bci inj, k, [])
    | none =>
      let cid : CovId := ⟨pp, domain, k⟩
      let nm := switch_cov_name domain sl
      let ci := switch_case_infos pp domain (some cid) sl (k + 1) cases
      let rcases := tag_case_list pp domain (k + 1 + cases.length) cases
      (.switch a sl test rcases.1 (some cid) (some nm) (some "switch") (some ci.1) bci inj,
        rcases.2.1, (cid, nm, "switch") :: (ci.2 ++ rcases.2.2))
  | .formal a sl kind cond aid an at_ => (.formal a sl kind cond aid an at_, k, [])

/-- Sequential tagging of a statement list, threading the counter. -/
def tag_stmt_list (pp : HPath) (domain : String) (k : Nat) :
    List Stmt → List Stmt × Nat × InfoMap
  | [] => ([], k, [])
  | s :: rest =>
    let r1 := tag_stmt_one pp domain k s
    let r2 := tag_stmt_list pp domain r1.2.1 rest
    (r1.1 :: r2.1, r2.2.1, r1.2.2 ++ r2.2.2)

/-- Recursion into the case bodies of a Switch, in case order. -/
def tag_case_list (pp : HPath) (domain : String) (k : Nat) :
    List SwCase → List SwCase × Nat × InfoMap
  | [] => ([], k, [])
  | (pats, baddr, body, csl) :: rest =>
    let rb := tag_stmt_list pp domain k body
    let rr := tag_case_list pp domain rb.2.1 rest
    ((pats, baddr, rb.1, csl) :: rr.1, rr.2.1, rb.2.2 ++ rr.2.2)

end

mutual

/-- `tag_all_statements(fragment, coverage_id, parent_path)`: own domains
first (in declaration order), then subfragments. -/
def tag_all_statements : Fragment → Nat → HPath → Fragment × Nat × InfoMap
  | .mk stmts subs bci, k, pp =>
    let rd := tag_stmt_domains pp k stmts
    let rs := tag_stmt_subfrags pp rd.2.1 subs
    (.mk rd.1 rs.1 bci, rs.2.1, rd.2.2 ++ rs.2.2)

def tag_stmt_domains (pp : HPath) (k : Nat) :
    List (String × Nat × List Stmt) → List (String × Nat × List Stmt) × Nat × InfoMap
  | [] => ([], k, [])
  | (dom, la, l) :: rest =>
    let r1 := tag_stmt_list pp dom k l
    let r2 := tag_stmt_domains pp r1.2.1 rest
    ((dom, la, r1.1) :: r2.1, r2.2.1, r1.2.2 ++ r2.2.2)

def tag_stmt_subfrags (pp : HPath) (k : Nat) :
    List (Fragment × Option String) →
      List (Fragment × Option String) × Nat × InfoMap
  | [] => ([], k, [])
  | (f, nm) :: rest =>
    let r1 := tag_all_statements f k (pp ++ [nm])
    let r2 := tag_stmt_subfrags pp r1.2.1 rest
    ((r1.1, nm) :: r2.1, r2.2.1, r1.2.2 ++ r2.2.2)

end

/-- The `coverage_signals` dict of `insert_coverage_signals`: identity to
created shadow signal, in creation order. -/
abbrev SigMap := List (CovId × Expr)

def sig_lookup (m : SigMap) (cid : CovId) : Option Expr :=
  (m.find? (fun e => e.1 == cid)).map (·.2)

/-- `Signal(name=..., init=0)`: a fresh 1-bit signal.  The fresh object's
address is not observable by any of the modelled code, so it is fixed
at 0. -/
def mk_cov_signal (nm : String) : Expr := .signal 0 none nm 1

/-- `Const(1)`. -/
def const1 : Expr := .econst 0 none 1 1

/-- The spliced `Assign(sig, Const(1))` shadow write (a fresh, untagged
statement). -/
def mk_shadow_assign (sig : Expr) : Stmt := .assign 0 none sig const1 none none none false

/-- `coverage_signals.get(cov_id)` with creation on miss, as done for both
statement and case shadow signals (the name suffix is the statement's
`_coverage_type`, or `"switch_case"` for case signals). -/
def get_or_make_sig (sigs : SigMap) (cid : CovId) (typ : String) : SigMap × Expr :=
  match sig_lookup sigs cid with
  | some s => (sigs, s)
  | none =>
    let s := mk_cov_signal (_cov_signal_name "cov" cid.path cid.domain cid.serial [typ])
    (sigs ++ [(cid, s)], s)

mutual

/-- `inject_in_stmt_list`: rebuild the list, emitting the shadow write for a
tagged, not-yet-injected statement immediately BEFORE the statement itself
(`new.append(Assign(sig, Const(1)))` precedes `new.append(stmt)`), and
instrumenting Switch case bodies. -/
def inject_in_stmt_list (sigs : SigMap) : List Stmt → SigMap × List Stmt
  | [] => (sigs, [])
  | s :: rest =>
    let r1 := inject_stmt_one sigs s
    let r2 := inject_in_stmt_list r1.1 rest
    (r2.1, r1.2 ++ r2.2)

def inject_stmt_one (sigs : SigMap) : Stmt → SigMap × List Stmt
  | .assign a sl lhs rhs covId cn ct inj =>
    match covId, inj with
    | some cid, false =>
      let typ := ct.getD "unknown"
      let pr := get_or_make_sig sigs cid typ
      (pr.1, [mk_shadow_assign pr.2, .assign a sl lhs rhs (some cid) cn ct true])
    | _, _ => (sigs, [.assign a sl lhs rhs covId cn ct inj])
  | .switch a sl test cases covId cn ct caseIds bci inj =>
    match covId, inj with
    | some cid, false =>
      let typ := ct.getD "unknown"
      let pr := get_or_make_sig sigs cid typ
      let rc := inject_case_list pr.1 (caseIds.getD []) cases
      (rc.1, [mk_shadow_assign pr.2,
        .switch a sl test rc.2 (some cid) cn ct caseIds bci true])
    | _, _ =>
      let rc := inject_case_list sigs (caseIds.getD []) cases
      (rc.1, [.switch a sl test rc.2 covId cn ct caseIds bci inj])
  | .formal a sl kind cond aid an at_ => (sigs, [.formal a sl kind cond aid an at_])

/-- Case-body instrumentation: while `idx < len(case_ids)` (modelled by the
id list still being nonempty), the case shadow `case_shadow := 1` is placed
at the head of the body (`sub_stmts[:0] = [Assign(case_sig, Const(1))]`);
every body is then recursively instrumented.  The Python code runs the
recursion on the body with the case shadow already at its head; since that
shadow is a fresh untagged Assign the recursive pass forwards it unchanged,
so the model recurses on the original body and conses the shadow on. -/
def inject_case_list (sigs : SigMap) : List CovId → List SwCase → SigMap × List SwCase
  | cids, [] =>
    match cids with
    | _ => (sigs, [])
  | ccid :: cidrest, (pats, baddr, body, csl) :: rest =>
    let pr := get_or_make_sig sigs ccid "switch_case"
    let rb := inject_in_stmt_list pr.1 body
    let rr := inject_case_list rb.1 cidrest rest
    (rr.1, (pats, baddr, mk_shadow_assign pr.2 :: rb.2, csl) :: rr.2)
  | [], (pats, baddr, body, csl) :: rest =>
    let rb := inject_in_stmt_list sigs body
    let rr := inject_case_list rb.1 [] rest
    (rr.1, (pats, baddr, rb.2, csl) :: rr.2)

end

mutual

def insert_walk_fragment (sigs : SigMap) : Fragment → SigMap × Fragment
  | .mk stmts subs bci =>
    let rd := insert_walk_domains sigs stmts
    let rs := insert_walk_subfrags rd.1 subs
    (rs.1, .mk rd.2 rs.2 bci)

def insert_walk_domains (sigs : SigMap) :
    List (String × Nat × List Stmt) → SigMap × List (String × Nat × List Stmt)
  | [] => (sigs, [])
  | (dom, la, l) :: rest =>
    let r1 := inject_in_stmt_list sigs l
    let r2 := insert_walk_domains r1.1 rest
    (r2.1, (dom, la, r1.2) :: r2.2)

def insert_walk_subfrags (sigs : SigMap) :
    List (Fragment × Option String) → SigMap × List (Fragment × Option String)
  | [] => (sigs, [])
  | (f, nm) :: rest =>
    let r1 := insert_walk_fragment sigs f
    let r2 := insert_walk_subfrags r1.1 rest
    (r2.1, (r1.2, nm) :: r2.2)

end

/-- `insert_coverage_signals(fragment)`: walk every domain list of every
fragment, starting from an empty signal dict. -/
def insert_coverage_signals (fr : Fragment) : SigMap × Fragment :=
  insert_walk_fragment [] fr

/-! ### Spec-side characterization of the statement-facet injector -/

mutual

/-- The `(identity, type-suffix)` pairs for which the injector creates
shadow signals, in traversal order: one per tagged not-yet-injected
statement, one per Switch case backed by a `_coverage_case_ids` entry. -/
def inject_entries_one : Stmt → List (CovId × String)
  | .assign _ _ _ _ covId _ ct inj =>
    match covId, inj with
    | some cid, false => [(cid, ct.getD "unknown")]
    | _, _ => []
  | .switch _ _ _ cases covId _ ct caseIds _ inj =>
    match covId, inj with
    | some cid, false => (cid, ct.getD "unknown") :: inject_entries_cases (caseIds.getD []) cases
    | _, _ => inject_entries_cases (caseIds.getD []) cases
  | .formal .. => []

def inject_entries_list : List Stmt → List (CovId × String)
  | [] => []
  | s :: rest => inject_entries_one s ++ inject_entries_list rest

def inject_entries_cases : List CovId → List SwCase → List (CovId × String)
  | _, [] => []
  | ccid :: cidrest, (_, _, body, _) :: rest =>
    (ccid, "switch_case") :: (inject_entries_list body ++ inject_entries_cases cidrest rest)
  | [], (_, _, body, _) :: rest =>
    inject_entries_list body ++ inject_entries_cases [] rest

end

/-- The signal the injector creates for an entry. -/
def entry_sig (e : CovId × String) : Expr :=
  mk_cov_signal (_cov_signal_name "cov" e.1.path e.1.domain e.1.serial [e.2])

def mk_sig_entries (es : List (CovId × String)) : SigMap :=
  es.map (fun e => (e.1, entry_sig e))

mutual

/-- Local placement spec for the injector: each statement contributes its
own block of output statements, with the shadow write (when the statement
is tagged and not yet injected) placed immediately PRECEDING the statement,
and each identity-backed Switch case body receiving its case shadow at its
head. -/
def instrument_one : Stmt → List Stmt
  | .assign a sl lhs rhs covId cn ct inj =>
    match covId, inj with
    | some cid, false =>
      [mk_shadow_assign (entry_sig (cid, ct.getD "unknown")),
        .assign a sl lhs rhs (some cid) cn ct true]
    | _, _ => [.assign a sl lhs rhs covId cn ct inj]
  | .switch a sl test cases covId cn ct caseIds bci inj =>
    match covId, inj with
    | some cid, false =>
      [mk_shadow_assign (entry_sig (cid, ct.getD "unknown")),
        .switch a sl test (instrument_cases (caseIds.getD []) cases) (some cid) cn ct
          caseIds bci true]
    | _, _ =>
      [.switch a sl test (instrument_cases (caseIds.getD []) cases) covId cn ct
        caseIds bci inj]
  | .formal a sl kind cond aid an at_ => [.formal a sl kind cond aid an at_]

def instrument_list : List Stmt → List Stmt
  | [] => []
  | s :: rest => instrument_one s ++ instrument_list rest

def instrument_cases : List CovId → List SwCase → List SwCase
  | _, [] => []
  | ccid :: cidrest, (pats, baddr, body, csl) :: rest =>
    (pats, baddr, mk_shadow_assign (entry_sig (ccid, "switch_case")) :: instrument_list body, csl)
      :: instrument_cases cidrest rest
  | [], (pats, baddr, body, csl) :: rest =>
    (pats, baddr, instrument_list body, csl) :: instrument_cases [] rest

end

lemma sig_lookup_eq_none {m : SigMap} {cid : CovId} (h : cid ∉ m.map Prod.fst) :
    sig_lookup m cid = none := by
  unfold sig_lookup
  rw [List.find?_eq_none.mpr, Option.map_none']
  intro e he
  simp only [beq_iff_eq]
  intro hc
  exact h (hc ▸ List.mem_map_of_mem Prod.fst he)

lemma get_or_make_sig_miss {m : SigMap} {cid : CovId} (typ : String)
    (h : cid ∉ m.map Prod.fst) :
    get_or_make_sig m cid typ = (m ++ [(cid, entry_sig (cid, typ))], entry_sig (cid, typ)) := by
  unfold get_or_make_sig
  rw [sig_lookup_eq_none h]
  rfl

lemma mk_sig_entries_keys (es : List (CovId × String)) :
    (mk_sig_entries es).map Prod.fst = es.map Prod.fst := by
  simp [mk_sig_entries]

lemma mk_sig_entries_append (a b : List (CovId × String)) :
    mk_sig_entries (a ++ b) = mk_sig_entries a ++ mk_sig_entries b := by
  simp [mk_sig_entries]

mutual

theorem inject_one_eq : ∀ (s : Stmt) (sigs : SigMap),
    List.Disjoint ((inject_entries_one s).map Prod.fst) (sigs.map Prod.fst) →
    ((inject_entries_one s).map Prod.fst).Nodup →
    inject_stmt_one sigs s = (sigs ++ mk_sig_entries (inject_entries_one s), instrument_one s)
  | .assign a sl lhs rhs covId cn ct inj, sigs, hd, _ => by
    match covId, inj with
    | none, inj =>
      simp [inject_stmt_one, inject_entries_one, instrument_one, mk_sig_entries]
    | some cid, true =>
      simp [inject_stmt_one, inject_entries_one, instrument_one, mk_sig_entries]
    | some cid, false =>
      have hmem : cid ∉ sigs.map Prod.fst := fun hc =>
        hd (by simp [inject_entries_one]) hc
      simp only [inject_stmt_one, inject_entries_one, instrument_one, mk_sig_entries,
        get_or_make_sig_miss _ hmem, List.map_cons, List.map_nil, entry_sig]
  | .switch a sl test cases covId cn ct caseIds bci inj, sigs, hd, hn => by
    match covId, inj with
    | none, inj =>
      simp only [inject_stmt_one, inject_entries_one, instrument_one]
      rw [inject_cases_eq (caseIds.getD []) cases sigs
        (by simpa [inject_entries_one] using hd) (by simpa [inject_entries_one] using hn)]
    | some cid, true =>
      simp only [inject_stmt_one, inject_entries_one, instrument_one]
      rw [inject_cases_eq (caseIds.getD []) cases sigs
        (by simpa [inject_entries_one] using hd) (by simpa [inject_entries_one] using hn)]
    | some cid, false =>
      have hes : inject_entries_one (.switch a sl test cases (some cid) cn ct caseIds bci false)
          = (cid, ct.getD "unknown") :: inject_entries_cases (caseIds.getD []) cases := by
        simp [inject_entries_one]
      rw [hes] at hd hn
      have hmem : cid ∉ sigs.map Prod.fst := fun hc =>
        hd (by simp) hc
      have hn' := hn
      rw [List.map_cons, List.nodup_cons] at hn'
      have hd2 : List.Disjoint
          ((inject_entries_cases (caseIds.getD []) cases).map Prod.fst)
          ((sigs ++ [(cid, entry_sig (cid, ct.getD "unknown"))]).map Prod.fst) := by
        intro x hx hx'
        rw [List.map_append] at hx'
        rcases List.mem_append.mp hx' with h1 | h1
        · exact hd (by simp [hx]) h1
        · simp at h1
          exact hn'.1 (h1 ▸ hx)
      simp only [inject_stmt_one, instrument_one]
      rw [get_or_make_sig_miss _ hmem,
        inject_cases_eq (caseIds.getD []) cases _ hd2 hn'.2]
      rw [hes]
      simp [mk_sig_entries, entry_sig]
  | .formal a sl kind cond aid an at_, sigs, _, _ => by
    simp [inject_stmt_one, inject_entries_one, instrument_one, mk_sig_entries]

theorem inject_list_eq : ∀ (l : List Stmt) (sigs : SigMap),
    List.Disjoint ((inject_entries_list l).map Prod.fst) (sigs.map Prod.fst) →
    ((inject_entries_list l).map Prod.fst).Nodup →
    inject_in_stmt_list sigs l = (sigs ++ mk_sig_entries (inject_entries_list l), instrument_list l)
  | [], sigs, _, _ => by
    simp [inject_in_stmt_list, inject_entries_list, instrument_list, mk_sig_entries]
  | s :: rest, sigs, hd, hn => by
    have hsplit : inject_entries_list (s :: rest)
        = inject_entries_one s ++ inject_entries_list rest := by
      simp [inject_entries_list]
    rw [hsplit] at hd hn
    rw [List.map_append] at hd hn
    rw [List.nodup_append] at hn
    have hd1 : List.Disjoint ((inject_entries_one s).map Prod.fst) (sigs.map Prod.fst) :=
      fun x hx hx' => hd (List.mem_append.mpr (Or.inl hx)) hx'
    have hd2 : List.Disjoint ((inject_entries_list rest).map Prod.fst)
        ((sigs ++ mk_sig_entries (inject_entries_one s)).map Prod.fst) := by
      intro x hx hx'
      rw [List.map_append, mk_sig_entries_keys] at hx'
      rcases List.mem_append.mp hx' with h1 | h1
      · exact hd (List.mem_append.mpr (Or.inr hx)) h1
      · exact hn.2.2 h1 hx
    simp only [inject_in_stmt_list]
    rw [inject_one_eq s sigs hd1 hn.1, inject_list_eq rest _ hd2 hn.2.1, hsplit]
    simp [instrument_list, mk_sig_entries_append, List.append_assoc]

theorem inject_cases_eq : ∀ (cids : List CovId) (cases : List SwCase) (sigs : SigMap),
    List.Disjoint ((inject_entries_cases cids cases).map Prod.fst) (sigs.map Prod.fst) →
    ((inject_entries_cases cids cases).map Prod.fst).Nodup →
    inject_case_list sigs cids cases
      = (sigs ++ mk_sig_entries (inject_entries_cases cids cases), instrument_cases cids cases)
  | cids, [], sigs, _, _ => by
    cases cids <;>
      simp [inject_case_list, inject_entries_cases, instrument_cases, mk_sig_entries]
  | ccid :: cidrest, (pats, baddr, body, csl) :: rest, sigs, hd, hn => by
    have hsplit : inject_entries_cases (ccid :: cidrest) ((pats, baddr, body, csl) :: rest)
        = (ccid, "switch_case") ::
          (inject_entries_list body ++ inject_entries_cases cidrest rest) := by
      simp [inject_entries_cases]
    rw [hsplit] at hd hn
    rw [List.map_cons, List.map_append] at hd hn
    rw [List.nodup_cons, List.nodup_append] at hn
    have hmem : ccid ∉ sigs.map Prod.fst := fun hc => hd (by simp) hc
    have hd1 : List.Disjoint ((inject_entries_list body).map Prod.fst)
        ((sigs ++ [(ccid, entry_sig (ccid, "switch_case"))]).map Prod.fst) := by
      intro x hx hx'
      rw [List.map_append] at hx'
      rcases List.mem_append.mp hx' with h1 | h1
      · exact hd (by simp [hx]) h1
      · simp at h1
        subst h1
        exact hn.1 (by simp [hx])
    have hd2 : List.Disjoint ((inject_entries_cases cidrest rest).map Prod.fst)
        ((sigs ++ [(ccid, entry_sig (ccid, "switch_case"))]
          ++ mk_sig_entries (inject_entries_list body)).map Prod.fst) := by
      intro x hx hx'
      rw [List.map_append, List.map_append, mk_sig_entries_keys] at hx'
      rcases List.mem_append.mp hx' with h1 | h1
      · rcases List.mem_append.mp h1 with h2 | h2
        · exact hd (by simp [hx]) h2
        · simp at h2
          subst h2
          exact hn.1 (by simp [hx])
      · exact hn.2.2.2 h1 hx
    simp only [inject_case_list]
    rw [get_or_make_sig_miss _ hmem,
      inject_list_eq body _ hd1 hn.2.1,
      inject_cases_eq cidrest rest _ hd2 hn.2.2.1, hsplit]
    simp [instrument_cases, mk_sig_entries, mk_sig_entries_append, List.append_assoc,
      entry_sig]
  | [], (pats, baddr, body, csl) :: rest, sigs, hd, hn => by
    have hsplit : inject_entries_cases [] ((pats, baddr, body, csl) :: rest)
        = inject_entries_list body ++ inject_entries_cases [] rest := by
      simp [inject_entries_cases]
    rw [hsplit] at hd hn
    rw [List.map_append] at hd hn
    rw [List.nodup_append] at hn
    have hd1 : List.Disjoint ((inject_entries_list body).map Prod.fst) (sigs.map Prod.fst) :=
      fun x hx hx' => hd (List.mem_append.mpr (Or.inl hx)) hx'
    have hd2 : List.Disjoint ((inject_entries_cases [] rest).map Prod.fst)
        ((sigs ++ mk_sig_entries (inject_entries_list body)).map Prod.fst) := by
      intro x hx hx'
      rw [List.map_append, mk_sig_entries_keys] at hx'
      rcases List.mem_append.mp hx' with h1 | h1
      · exact hd (List.mem_append.mpr (Or.inr hx)) h1
      · exact hn.2.2 h1 hx
    simp only [inject_case_list]
    rw [inject_list_eq body _ hd1 hn.1,
      inject_cases_eq [] rest _ hd2 hn.2.1, hsplit]
    simp [instrument_cases, mk_sig_entries_append, List.append_assoc]

end

mutual

def inject_entries_frag : Fragment → List (CovId × String)
  | .mk stmts subs _ => inject_entries_domains stmts ++ inject_entries_subfrags subs

def inject_entries_domains : List (String × Nat × List Stmt) → List (CovId × String)
  | [] => []
  | (_, _, l) :: rest => inject_entries_list l ++ inject_entries_domains rest

def inject_entries_subfrags : List (Fragment × Option String) → List (CovId × String)
  | [] => []
  | (f, _) :: rest => inject_entries_frag f ++ inject_entries_subfrags rest

end

mutual

def instrument_frag : Fragment → Fragment
  | .mk stmts subs bci => .mk (instrument_domains stmts) (instrument_subfrags subs) bci

def instrument_domains : List (String × Nat × List Stmt) → List (String × Nat × List Stmt)
  | [] => []
  | (dom, la, l) :: rest => (dom, la, instrument_list l) :: instrument_domains rest

def instrument_subfrags : List (Fragment × Option String) → List (Fragment × Option String)
  | [] => []
  | (f, nm) :: rest => (instrument_frag f, nm) :: instrument_subfrags rest

end

mutual

theorem inject_frag_eq : ∀ (fr : Fragment) (sigs : SigMap),
    List.Disjoint ((inject_entries_frag fr).map Prod.fst) (sigs.map Prod.fst) →
    ((inject_entries_frag fr).map Prod.fst).Nodup →
    insert_walk_fragment sigs fr
      = (sigs ++ mk_sig_entries (inject_entries_frag fr), instrument_frag fr)
  | .mk stmts subs bci, sigs, hd, hn => by
    have hsplit : inject_entries_frag (.mk stmts subs bci)
        = inject_entries_domains stmts ++ inject_entries_subfrags subs := by
      simp [inject_entries_frag]
    rw [hsplit] at hd hn
    rw [List.map_append] at hd hn
    rw [List.nodup_append] at hn
    have hd1 : List.Disjoint ((inject_entries_domains stmts).map Prod.fst) (sigs.map Prod.fst) :=
      fun x hx hx' => hd (List.mem_append.mpr (Or.inl hx)) hx'
    have hd2 : List.Disjoint ((inject_entries_subfrags subs).map Prod.fst)
        ((sigs ++ mk_sig_entries (inject_entries_domains stmts)).map Prod.fst) := by
      intro x hx hx'
      rw [List.map_append, mk_sig_entries_keys] at hx'
      rcases List.mem_append.mp hx' with h1 | h1
      · exact hd (List.mem_append.mpr (Or.inr hx)) h1
      · exact hn.2.2 h1 hx
    simp only [insert_walk_fragment]
    rw [inject_domains_eq stmts sigs hd1 hn.1,
      inject_subfrags_eq subs _ hd2 hn.2.1, hsplit]
    simp [instrument_frag, mk_sig_entries_append, List.append_assoc]

theorem inject_domains_eq : ∀ (ds : List (String × Nat × List Stmt)) (sigs : SigMap),
    List.Disjoint ((inject_entries_domains ds).map Prod.fst) (sigs.map Prod.fst) →
    ((inject_entries_domains ds).map Prod.fst).Nodup →
    insert_walk_domains sigs ds
      = (sigs ++ mk_sig_entries (inject_entries_domains ds), instrument_domains ds)
  | [], sigs, _, _ => by
    simp [insert_walk_domains, inject_entries_domains, instrument_domains, mk_sig_entries]
  | (dom, la, l) :: rest, sigs, hd, hn => by
    have hsplit : inject_entries_domains ((dom, la, l) :: rest)
        = inject_entries_list l ++ inject_entries_domains rest := by
      simp [inject_entries_domains]
    rw [hsplit] at hd hn
    rw [List.map_append] at hd hn
    rw [List.nodup_append] at hn
    have hd1 : List.Disjoint ((inject_entries_list l).map Prod.fst) (sigs.map Prod.fst) :=
      fun x hx hx' => hd (List.mem_append.mpr (Or.inl hx)) hx'
    have hd2 : List.Disjoint ((inject_entries_domains rest).map Prod.fst)
        ((sigs ++ mk_sig_entries (inject_entries_list l)).map Prod.fst) := by
      intro x hx hx'
      rw [List.map_append, mk_sig_entries_keys] at hx'
      rcases List.mem_append.mp hx' with h1 | h1
      · exact hd (List.mem_append.mpr (Or.inr hx)) h1
      · exact hn.2.2 h1 hx
    simp only [insert_walk_domains]
    rw [inject_list_eq l sigs hd1 hn.1,
      inject_domains_eq rest _ hd2 hn.2.1, hsplit]
    simp [instrument_domains, mk_sig_entries_append, List.append_assoc]

theorem inject_subfrags_eq : ∀ (ss : List (Fragment × Option String)) (sigs : SigMap),
    List.Disjoint ((inject_entries_subfrags ss).map Prod.fst) (sigs.map Prod.fst) →
    ((inject_entries_subfrags ss).map Prod.fst).Nodup →
    insert_walk_subfrags sigs ss
      = (sigs ++ mk_sig_entries (inject_entries_subfrags ss), instrument_subfrags ss)
  | [], sigs, _, _ => by
    simp [insert_walk_subfrags, inject_entries_subfrags, instrument_subfrags, mk_sig_entries]
  | (f, nm) :: rest, sigs, hd, hn => by
    have hsplit : inject_entries_subfrags ((f, nm) :: rest)
        = inject_entries_frag f ++ inject_entries_subfrags rest := by
      simp [inject_entries_subfrags]
    rw [hsplit] at hd hn
    rw [List.map_append] at hd hn
    rw [List.nodup_append] at hn
    have hd1 : List.Disjoint ((inject_entries_frag f).map Prod.fst) (sigs.map Prod.fst) :=
      fun x hx hx' => hd (List.mem_append.mpr (Or.inl hx)) hx'
    have hd2 : List.Disjoint ((inject_entries_subfrags rest).map Prod.fst)
        ((sigs ++ mk_sig_entries (inject_entries_frag f)).map Prod.fst) := by
      intro x hx hx'
      rw [List.map_append, mk_sig_entries_keys] at hx'
      rcases List.mem_append.mp hx' with h1 | h1
      · exact hd (List.mem_append.mpr (Or.inr hx)) h1
      · exact hn.2.2 h1 hx
    simp only [insert_walk_subfrags]
    rw [inject_frag_eq f sigs hd1 hn.1,
      inject_subfrags_eq rest _ hd2 hn.2.1, hsplit]
    simp [instrument_subfrags, mk_sig_entries_append, List.append_assoc]

end

/-- C1: the claim states that `insert_coverage_signals` places the shadow
write `shadow := 1` immediately FOLLOWING the tagged statement.  On a list
holding one tagged Assign, the claimed output would be
`[assign, shadow-write]`; the injector actually emits the shadow write
immediately BEFORE the statement, producing `[shadow-write, assign]`.  This
theorem evaluates the injector at that input and shows the claimed
placement is false. -/
theorem c1_counterexample :
    (inject_in_stmt_list []
        [Stmt.assign 20 none (.signal 10 none "a" 1) (.signal 11 none "b" 1)
          (some ⟨[], "comb", 0⟩) (some "nm") (some "assign") false]).2
      = [mk_shadow_assign (entry_sig (⟨[], "comb", 0⟩, "assign")),
          Stmt.assign 20 none (.signal 10 none "a" 1) (.signal 11 none "b" 1)
            (some ⟨[], "comb", 0⟩) (some "nm") (some "assign") true]
    ∧ (inject_in_stmt_list []
        [Stmt.assign 20 none (.signal 10 none "a" 1) (.signal 11 none "b" 1)
          (some ⟨[], "comb", 0⟩) (some "nm") (some "assign") false]).2
      ≠ [Stmt.assign 20 none (.signal 10 none "a" 1) (.signal 11 none "b" 1)
            (some ⟨[], "comb", 0⟩) (some "nm") (some "assign") true,
          mk_shadow_assign (entry_sig (⟨[], "comb", 0⟩, "assign"))] := by
  refine ⟨rfl, ?_⟩
  intro h
  rw [show (inject_in_stmt_list []
      [Stmt.assign 20 none (.signal 10 none "a" 1) (.signal 11 none "b" 1)
        (some ⟨[], "comb", 0⟩) (some "nm") (some "assign") false]).2
      = [mk_shadow_assign (entry_sig (⟨[], "comb", 0⟩, "assign")),
          Stmt.assign 20 none (.signal 10 none "a" 1) (.signal 11 none "b" 1)
            (some ⟨[], "comb", 0⟩) (some "nm") (some "assign") true] from rfl] at h
  simp [mk_shadow_assign, entry_sig, mk_cov_signal] at h

/-- C1 (amended): for every design tree whose tagged coverage identities
(statement ids and `_coverage_case_ids`) are pairwise distinct, the
statement-facet injector rewrites every statement list as the concatenation
of per-statement blocks in which the shadow write `shadow := 1` appears
immediately PRECEDING the tagged Assignment or Dispatch it observes (not
following it, as claimed), and every identity-carrying Case body of a
Dispatch receives `case_shadow := 1` at its head (`instrument_one` /
`instrument_cases` spell out these placements); the signal dict contains
exactly one fresh shadow signal per such identity in traversal order. -/
theorem c1_shadow_write_precedes (fr : Fragment)
    (hn : ((inject_entries_frag fr).map Prod.fst).Nodup) :
    insert_coverage_signals fr
      = (mk_sig_entries (inject_entries_frag fr), instrument_frag fr) := by
  unfold insert_coverage_signals
  rw [inject_frag_eq fr [] (by intro x _ hx'; simp at hx') hn]
  simp

/-- Witness for `c1_shadow_write_precedes`: a fragment with one tagged
Assign and one tagged Switch whose single identity-carrying case body holds
a tagged Assign. -/
theorem c1_shadow_write_precedes_witness :
    ((inject_entries_frag (.mk [("comb", 50,
        [Stmt.assign 20 none (.signal 10 none "a" 1) (.signal 11 none "b" 1)
          (some ⟨[], "comb", 0⟩) (some "nm") (some "assign") false,
         Stmt.switch 21 none (.signal 10 none "a" 1)
          [(some [.pstr "1"], 60,
            [Stmt.assign 22 none (.signal 11 none "b" 1) (.signal 10 none "a" 1)
              (some ⟨[], "comb", 3⟩) (some "nm3") (some "assign") false], none)]
          (some ⟨[], "comb", 1⟩) (some "nm1") (some "switch")
          (some [⟨[], "comb", 2⟩]) [] false])] [] [])).map Prod.fst).Nodup
    ∧ insert_coverage_signals (.mk [("comb", 50,
        [Stmt.assign 20 none (.signal 10 none "a" 1) (.signal 11 none "b" 1)
          (some ⟨[], "comb", 0⟩) (some "nm") (some "assign") false,
         Stmt.switch 21 none (.signal 10 none "a" 1)
          [(some [.pstr "1"], 60,
            [Stmt.assign 22 none (.signal 11 none "b" 1) (.signal 10 none "a" 1)
              (some ⟨[], "comb", 3⟩) (some "nm3") (some "assign") false], none)]
          (some ⟨[], "comb", 1⟩) (some "nm1") (some "switch")
          (some [⟨[], "comb", 2⟩]) [] false])] [] [])
      = (mk_sig_entries (inject_entries_frag (.mk [("comb", 50,
        [Stmt.assign 20 none (.signal 10 none "a" 1) (.signal 11 none "b" 1)
          (some ⟨[], "comb", 0⟩) (some "nm") (some "assign") false,
         Stmt.switch 21 none (.signal 10 none "a" 1)
          [(some [.pstr "1"], 60,
            [Stmt.assign 22 none (.signal 11 none "b" 1) (.signal 10 none "a" 1)
              (some ⟨[], "comb", 3⟩) (some "nm3") (some "assign") false], none)]
          (some ⟨[], "comb", 1⟩) (some "nm1") (some "switch")
          (some [⟨[], "comb", 2⟩]) [] false])] [] [])),
        instrument_frag (.mk [("comb", 50,
        [Stmt.assign 20 none (.signal 10 none "a" 1) (.signal 11 none "b" 1)
          (some ⟨[], "comb", 0⟩) (some "nm") (some "assign") false,
         Stmt.switch 21 none (.signal 10 none "a" 1)
          [(some [.pstr "1"], 60,
            [Stmt.assign 22 none (.signal 11 none "b" 1) (.signal 10 none "a" 1)
              (some ⟨[], "comb", 3⟩) (some "nm3") (some "assign") false], none)]
          (some ⟨[], "comb", 1⟩) (some "nm1") (some "switch")
          (some [⟨[], "comb", 2⟩]) [] false])] [] [])) :=
  ⟨by decide, c1_shadow_write_precedes _ (by decide)⟩

/-! ### Untagged-tree and case-numbering predicates (statement facet) -/

mutual

/-- No statement reachable in the list carries a `_coverage_id` yet (a fresh
tree, as produced by elaboration). -/
def untaggedStmt : Stmt → Bool
  | .assign _ _ _ _ covId _ _ _ => covId.isNone
  | .switch _ _ _ cases covId _ _ _ _ _ => covId.isNone && untaggedCases cases
  | .formal .. => true

def untaggedList : List Stmt → Bool
  | [] => true
  | s :: rest => untaggedStmt s && untaggedList rest

def untaggedCases : List SwCase → Bool
  | [] => true
  | (_, _, body, _) :: rest => untaggedList body && untaggedCases rest

end

mutual

def untaggedFrag : Fragment → Bool
  | .mk stmts subs _ => untaggedDomains stmts && untaggedSubfrags subs

def untaggedDomains : List (String × Nat × List Stmt) → Bool
  | [] => true
  | (_, _, l) :: rest => untaggedList l && untaggedDomains rest

def untaggedSubfrags : List (Fragment × Option String) → Bool
  | [] => true
  | (f, _) :: rest => untaggedFrag f && untaggedSubfrags rest

end

mutual

/-- Every Switch in the list carries a `_coverage_id` `(p, d, k)` together
with `_coverage_case_ids` equal to `(p, d, k+1), (p, d, k+2), ...` — one id
per case, numerically adjacent to and strictly greater than the Switch's
own serial, under the same parent path and domain. -/
def caseNumberingOkStmt : Stmt → Bool
  | .assign .. => true
  | .formal .. => true
  | .switch _ _ _ cases covId _ _ caseIds _ _ =>
    (match covId, caseIds with
      | some cid, some cids =>
        decide (cids = (List.range cases.length).map
          (fun i => (⟨cid.path, cid.domain, cid.serial + 1 + i⟩ : CovId)))
      | _, _ => false)
    && caseNumberingOkCases cases

def caseNumberingOkList : List Stmt → Bool
  | [] => true
  | s :: rest => caseNumberingOkStmt s && caseNumberingOkList rest

def caseNumberingOkCases : List SwCase → Bool
  | [] => true
  | (_, _, body, _) :: rest => caseNumberingOkList body && caseNumberingOkCases rest

end

mutual

def caseNumberingOkFrag : Fragment → Bool
  | .mk stmts subs _ => caseNumberingOkDomains stmts && caseNumberingOkSubfrags subs

def caseNumberingOkDomains : List (String × Nat × List Stmt) → Bool
  | [] => true
  | (_, _, l) :: rest => caseNumberingOkList l && caseNumberingOkDomains rest

def caseNumberingOkSubfrags : List (Fragment × Option String) → Bool
  | [] => true
  | (f, _) :: rest => caseNumberingOkFrag f && caseNumberingOkSubfrags rest

end

lemma switch_case_infos_fst (pp : HPath) (dom : String) (swCovId : Option CovId)
    (swSl : Option SrcLoc) :
    ∀ (cs : List SwCase) (k : Nat),
      (switch_case_infos pp dom swCovId swSl k cs).1
        = (List.range cs.length).map (fun i => (⟨pp, dom, k + i⟩ : CovId)) := by
  intro cs
  induction cs with
  | nil => intro k; simp [switch_case_infos]
  | cons c rest ih =>
    intro k
    obtain ⟨pats, baddr, body, csl⟩ := c
    rw [show (switch_case_infos pp dom swCovId swSl k ((pats, baddr, body, csl) :: rest)).1
        = (⟨pp, dom, k⟩ : CovId) :: (switch_case_infos pp dom swCovId swSl (k + 1) rest).1
      from rfl]
    have hfun : (fun i => (⟨pp, dom, k + 1 + i⟩ : CovId))
        = (fun i => (⟨pp, dom, k + i⟩ : CovId)) ∘ Nat.succ := by
      funext i
      simp only [Function.comp_apply]
      have h : k + 1 + i = k + (i + 1) := by omega
      rw [h]
    rw [ih (k + 1), List.length_cons, List.range_succ_eq_map, List.map_cons,
      List.map_map, hfun]
    simp

lemma tag_case_list_length (pp : HPath) (dom : String) :
    ∀ (cs : List SwCase) (k : Nat), (tag_case_list pp dom k cs).1.length = cs.length := by
  intro cs
  induction cs with
  | nil => intro k; simp [tag_case_list]
  | cons c rest ih =>
    intro k
    obtain ⟨pats, baddr, body, csl⟩ := c
    simp only [tag_case_list, List.length_cons]
    rw [ih]

mutual

theorem tag_one_numbering : ∀ (s : Stmt) (pp : HPath) (dom : String) (k : Nat),
    untaggedStmt s = true → caseNumberingOkStmt (tag_stmt_one pp dom k s).1 = true
  | .assign a sl lhs rhs covId cn ct inj, pp, dom, k, _ => by
    cases covId <;> simp [tag_stmt_one, caseNumberingOkStmt]
  | .formal a sl kind cond aid an at_, pp, dom, k, _ => by
    simp [tag_stmt_one, caseNumberingOkStmt]
  | .switch a sl test cases covId cn ct caseIds bci inj, pp, dom, k, h => by
    simp only [untaggedStmt, Bool.and_eq_true, Option.isNone_iff_eq_none] at h
    obtain ⟨hnone, hcases⟩ := h
    subst hnone
    simp only [tag_stmt_one, caseNumberingOkStmt]
    rw [Bool.and_eq_true]
    constructor
    · rw [switch_case_infos_fst, tag_case_list_length]
      simp
    · exact tag_cases_numbering cases pp dom (k + 1 + cases.length) hcases

theorem tag_list_numbering : ∀ (l : List Stmt) (pp : HPath) (dom : String) (k : Nat),
    untaggedList l = true → caseNumberingOkList (tag_stmt_list pp dom k l).1 = true
  | [], _, _, _, _ => by simp [tag_stmt_list, caseNumberingOkList]
  | s :: rest, pp, dom, k, h => by
    simp only [untaggedList, Bool.and_eq_true] at h
    simp only [tag_stmt_list, caseNumberingOkList, Bool.and_eq_true]
    exact ⟨tag_one_numbering s pp dom k h.1,
      tag_list_numbering rest pp dom (tag_stmt_one pp dom k s).2.1 h.2⟩

theorem tag_cases_numbering : ∀ (cs : List SwCase) (pp : HPath) (dom : String) (k : Nat),
    untaggedCases cs = true → caseNumberingOkCases (tag_case_list pp dom k cs).1 = true
  | [], _, _, _, _ => by simp [tag_case_list, caseNumberingOkCases]
  | (pats, baddr, body, csl) :: rest, pp, dom, k, h => by
    simp only [untaggedCases, Bool.and_eq_true] at h
    simp only [tag_case_list, caseNumberingOkCases, Bool.and_eq_true]
    exact ⟨tag_list_numbering body pp dom k h.1,
      tag_cases_numbering rest pp dom (tag_stmt_list pp dom k body).2.1 h.2⟩

end

mutual

theorem tag_frag_numbering : ∀ (fr : Fragment) (k : Nat) (pp : HPath),
    untaggedFrag fr = true → caseNumberingOkFrag (tag_all_statements fr k pp).1 = true
  | .mk stmts subs bci, k, pp, h => by
    simp only [untaggedFrag, Bool.and_eq_true] at h
    simp only [tag_all_statements, caseNumberingOkFrag, Bool.and_eq_true]
    exact ⟨tag_domains_numbering stmts pp k h.1,
      tag_subfrags_numbering subs pp (tag_stmt_domains pp k stmts).2.1 h.2⟩

theorem tag_domains_numbering : ∀ (ds : List (String × Nat × List Stmt)) (pp : HPath) (k : Nat),
    untaggedDomains ds = true → caseNumberingOkDomains (tag_stmt_domains pp k ds).1 = true
  | [], _, _, _ => by simp [tag_stmt_domains, caseNumberingOkDomains]
  | (dom, la, l) :: rest, pp, k, h => by
    simp only [untaggedDomains, Bool.and_eq_true] at h
    simp only [tag_stmt_domains, caseNumberingOkDomains, Bool.and_eq_true]
    exact ⟨tag_list_numbering l pp dom k h.1,
      tag_domains_numbering rest pp (tag_stmt_list pp dom k l).2.1 h.2⟩

theorem tag_subfrags_numbering : ∀ (ss : List (Fragment × Option String)) (pp : HPath) (k : Nat),
    untaggedSubfrags ss = true → caseNumberingOkSubfrags (tag_stmt_subfrags pp k ss).1 = true
  | [], _, _, _ => by simp [tag_stmt_subfrags, caseNumberingOkSubfrags]
  | (f, nm) :: rest, pp, k, h => by
    simp only [untaggedSubfrags, Bool.and_eq_true] at h
    simp only [tag_stmt_subfrags, caseNumberingOkSubfrags, Bool.and_eq_true]
    exact ⟨tag_frag_numbering f k (pp ++ [nm]) h.1,
      tag_subfrags_numbering rest pp (tag_all_statements f k (pp ++ [nm])).2.1 h.2⟩

end

/-- C5: tagging a fresh (untagged) design tree with the statement-facet
tagger leaves every Dispatch carrying a `_coverage_id` `(p, d, k)` and
`_coverage_case_ids` equal to `(p, d, k+1), (p, d, k+2), ...`: the first
Case id is the Dispatch's serial plus one, subsequent Cases take
consecutive numbers, and all Case identities share the Dispatch's parent
path and domain (case bodies do not extend the path) — the property
checked by `caseNumberingOkFrag`. -/
theorem c5_dispatch_case_ids_adjacent (fr : Fragment) (k : Nat) (pp : HPath)
    (h : untaggedFrag fr = true) :
    caseNumberingOkFrag (tag_all_statements fr k pp).1 = true :=
  tag_frag_numbering fr k pp h

/-- Witness for `c5_dispatch_case_ids_adjacent`: an untagged fragment with
one Dispatch of two cases (the second the default) following an Assign. -/
theorem c5_dispatch_case_ids_adjacent_witness :
    untaggedFrag (.mk [("comb", 50,
        [Stmt.assign 20 none (.signal 10 none "a" 1) (.signal 11 none "b" 1)
          none none none false,
         Stmt.switch 21 none (.signal 10 none "a" 1)
          [(some [.pstr "1"], 60,
            [Stmt.assign 22 none (.signal 11 none "b" 1) (.signal 10 none "a" 1)
              none none none false], none),
           (none, 61, [], none)]
          none none none none [] false])] [] []) = true
    ∧ caseNumberingOkFrag (tag_all_statements (.mk [("comb", 50,
        [Stmt.assign 20 none (.signal 10 none "a" 1) (.signal 11 none "b" 1)
          none none none false,
         Stmt.switch 21 none (.signal 10 none "a" 1)
          [(some [.pstr "1"], 60,
            [Stmt.assign 22 none (.signal 11 none "b" 1) (.signal 10 none "a" 1)
              none none none false], none),
           (none, 61, [], none)]
          none none none none [] false])] [] []) 0 []).1 = true :=
  ⟨by decide, c5_dispatch_case_ids_adjacent _ 0 [] (by decide)⟩

/-! ### Idempotence of the statement tagger -/

/-- A statement that `tag_all_statements` will skip (`continue`): every
Assign/Switch already carries `_coverage_id`.  Only the top level of a list
matters, since a tagged Switch is skipped wholesale. -/
def taggedTopStmt : Stmt → Bool
  | .assign _ _ _ _ covId _ _ _ => covId.isSome
  | .switch _ _ _ _ covId _ _ _ _ _ => covId.isSome
  | .formal .. => true

def taggedTopList (l : List Stmt) : Bool := l.all taggedTopStmt

mutual

def taggedTopFrag : Fragment → Bool
  | .mk stmts subs _ => taggedTopDomains stmts && taggedTopSubfrags subs

def taggedTopDomains : List (String × Nat × List Stmt) → Bool
  | [] => true
  | (_, _, l) :: rest => taggedTopList l && taggedTopDomains rest

def taggedTopSubfrags : List (Fragment × Option String) → Bool
  | [] => true
  | (f, _) :: rest => taggedTopFrag f && taggedTopSubfrags rest

end

lemma tag_one_taggedTop (pp : HPath) (dom : String) (k : Nat) (s : Stmt) :
    taggedTopStmt (tag_stmt_one pp dom k s).1 = true := by
  cases s with
  | assign a sl lhs rhs covId cn ct inj =>
    cases covId <;> simp [tag_stmt_one, taggedTopStmt]
  | switch a sl test cases covId cn ct caseIds bci inj =>
    cases covId <;> simp [tag_stmt_one, taggedTopStmt]
  | formal a sl kind cond aid an at_ => simp [tag_stmt_one, taggedTopStmt]

lemma tag_list_taggedTop (pp : HPath) (dom : String) :
    ∀ (l : List Stmt) (k : Nat), taggedTopList (tag_stmt_list pp dom k l).1 = true := by
  intro l
  induction l with
  | nil => intro k; simp [tag_stmt_list, taggedTopList]
  | cons s rest ih =>
    intro k
    simp only [tag_stmt_list, taggedTopList, List.all_cons, Bool.and_eq_true]
    exact ⟨tag_one_taggedTop pp dom k s, ih _⟩

lemma tag_one_noop (pp : HPath) (dom : String) (k : Nat) (s : Stmt)
    (h : taggedTopStmt s = true) : tag_stmt_one pp dom k s = (s, k, []) := by
  cases s with
  | assign a sl lhs rhs covId cn ct inj =>
    cases covId with
    | none => simp [taggedTopStmt] at h
    | some cid => simp [tag_stmt_one]
  | switch a sl test cases covId cn ct caseIds bci inj =>
    cases covId with
    | none => simp [taggedTopStmt] at h
    | some cid => simp [tag_stmt_one]
  | formal a sl kind cond aid an at_ => simp [tag_stmt_one]

lemma tag_list_noop (pp : HPath) (dom : String) :
    ∀ (l : List Stmt) (k : Nat), taggedTopList l = true →
      tag_stmt_list pp dom k l = (l, k, []) := by
  intro l
  induction l with
  | nil => intro k _; simp [tag_stmt_list]
  | cons s rest ih =>
    intro k h
    simp only [taggedTopList, List.all_cons, Bool.and_eq_true] at h
    simp only [tag_stmt_list]
    rw [tag_one_noop pp dom k s h.1]
    rw [ih k h.2]
    rfl

mutual

theorem tag_frag_taggedTop : ∀ (fr : Fragment) (k : Nat) (pp : HPath),
    taggedTopFrag (tag_all_statements fr k pp).1 = true
  | .mk stmts subs bci, k, pp => by
    simp only [tag_all_statements, taggedTopFrag, Bool.and_eq_true]
    exact ⟨tag_domains_taggedTop stmts pp k,
      tag_subfrags_taggedTop subs pp (tag_stmt_domains pp k stmts).2.1⟩

theorem tag_domains_taggedTop : ∀ (ds : List (String × Nat × List Stmt)) (pp : HPath) (k : Nat),
    taggedTopDomains (tag_stmt_domains pp k ds).1 = true
  | [], _, _ => by simp [tag_stmt_domains, taggedTopDomains]
  | (dom, la, l) :: rest, pp, k => by
    simp only [tag_stmt_domains, taggedTopDomains, Bool.and_eq_true]
    exact ⟨tag_list_taggedTop pp dom l k,
      tag_domains_taggedTop rest pp (tag_stmt_list pp dom k l).2.1⟩

theorem tag_subfrags_taggedTop : ∀ (ss : List (Fragment × Option String)) (pp : HPath) (k : Nat),
    taggedTopSubfrags (tag_stmt_subfrags pp k ss).1 = true
  | [], _, _ => by simp [tag_stmt_subfrags, taggedTopSubfrags]
  | (f, nm) :: rest, pp, k => by
    simp only [tag_stmt_subfrags, taggedTopSubfrags, Bool.and_eq_true]
    exact ⟨tag_frag_taggedTop f k (pp ++ [nm]),
      tag_subfrags_taggedTop rest pp (tag_all_statements f k (pp ++ [nm])).2.1⟩

end

mutual

theorem tag_frag_noop : ∀ (fr : Fragment) (k : Nat) (pp : HPath),
    taggedTopFrag fr = true → tag_all_statements fr k pp = (fr, k, [])
  | .mk stmts subs bci, k, pp, h => by
    simp only [taggedTopFrag, Bool.and_eq_true] at h
    simp only [tag_all_statements]
    rw [tag_domains_noop stmts pp k h.1]
    rw [tag_subfrags_noop subs pp k h.2]
    rfl

theorem tag_domains_noop : ∀ (ds : List (String × Nat × List Stmt)) (pp : HPath) (k : Nat),
    taggedTopDomains ds = true → tag_stmt_domains pp k ds = (ds, k, [])
  | [], _, _, _ => by simp [tag_stmt_domains]
  | (dom, la, l) :: rest, pp, k, h => by
    simp only [taggedTopDomains, Bool.and_eq_true] at h
    simp only [tag_stmt_domains]
    rw [tag_list_noop pp dom l k h.1]
    rw [tag_domains_noop rest pp k h.2]
    rfl

theorem tag_subfrags_noop : ∀ (ss : List (Fragment × Option String)) (pp : HPath) (k : Nat),
    taggedTopSubfrags ss = true → tag_stmt_subfrags pp k ss = (ss, k, [])
  | [], _, _, _ => by simp [tag_stmt_subfrags]
  | (f, nm) :: rest, pp, k, h => by
    simp only [taggedTopSubfrags, Bool.and_eq_true] at h
    simp only [tag_stmt_subfrags]
    rw [tag_frag_noop f k (pp ++ [nm]) h.1]
    rw [tag_subfrags_noop rest pp k h.2]
    rfl

end

/-! ### Block facet tagger -/

def Stmt.srcLocOf : Stmt → Option SrcLoc
  | .assign _ sl .. => sl
  | .switch _ sl .. => sl
  | .formal _ sl .. => sl

/-- `get_block_name`. -/
def get_block_name (domain : String) (pp : HPath) (tag : String)
    (srcLoc : Option SrcLoc) : String :=
  let loc := _short_loc srcLoc
  let pathStr := _safe_path_str pp
  s!"{loc} | {pathStr} | {domain}:block({tag})"

/-- First loop of `tag_all_blocks`: one root block identity per domain list,
keyed by the list's address and named from the first statement's source
location (or `None` for an empty list); the pairs are appended to the
fragment's `_block_cov_ids`. -/
def tag_root_blocks (pp : HPath) (k : Nat) :
    List (String × Nat × List Stmt) → List (Nat × CovId) × Nat × InfoMap
  | [] => ([], k, [])
  | (dom, la, l) :: rest =>
    let firstSrc := match l with | [] => none | s :: _ => s.srcLocOf
    let cid : CovId := ⟨pp, dom, k⟩
    let r := tag_root_blocks pp (k + 1) rest
    ((la, cid) :: r.1, r.2.1, (cid, get_block_name dom pp "root" firstSrc, "block") :: r.2.2)

/-- Per-case block identities of one Switch (second loop of
`tag_all_blocks`), keyed by the case body's address. -/
def case_block_pairs (pp : HPath) (dom : String) (k : Nat) :
    List SwCase → List (Nat × CovId) × Nat × InfoMap
  | [] => ([], k, [])
  | (pats, baddr, _, csl) :: rest =>
    let cid : CovId := ⟨pp, dom, k⟩
    let patStr := match pats with | none => "default" | some ps => reprPatterns ps
    let tag := s!"case:{patStr}"
    let nm := get_block_name dom pp tag csl
    let r := case_block_pairs pp dom (k + 1) rest
    ((baddr, cid) :: r.1, r.2.1, (cid, nm, "block") :: r.2.2)

/-- Second loop of `tag_all_blocks` over one domain's top-level statements:
every Switch appends the pairs for its case bodies to its own
`_block_cov_ids` (nested Switches inside case bodies are not visited). -/
def tag_case_blocks_list (pp : HPath) (dom : String) (k : Nat) :
    List Stmt → List Stmt × Nat × InfoMap
  | [] => ([], k, [])
  | .switch a sl test cases covId cn ct caseIds bci inj :: rest =>
    let rc := case_block_pairs pp dom k cases
    let rr := tag_case_blocks_list pp dom rc.2.1 rest
    (.switch a sl test cases covId cn ct caseIds (bci ++ rc.1) inj :: rr.1,
      rr.2.1, rc.2.2 ++ rr.2.2)
  | s :: rest =>
    let rr := tag_case_blocks_list pp dom k rest
    (s :: rr.1, rr.2.1, rr.2.2)

def tag_case_blocks_domains (pp : HPath) (k : Nat) :
    List (String × Nat × List Stmt) → List (String × Nat × List Stmt) × Nat × InfoMap
  | [] => ([], k, [])
  | (dom, la, l) :: rest =>
    let r1 := tag_case_blocks_list pp dom k l
    let r2 := tag_case_blocks_domains pp r1.2.1 rest
    ((dom, la, r1.1) :: r2.1, r2.2.1, r1.2.2 ++ r2.2.2)

mutual

/-- `tag_all_blocks(fragment, coverage_id, parent_path)`: root blocks of
every domain first, then Switch-case blocks, then subfragments. -/
def tag_all_blocks : Fragment → Nat → HPath → Fragment × Nat × InfoMap
  | .mk stmts subs bci, k, pp =>
    let r1 := tag_root_blocks pp k stmts
    let r2 := tag_case_blocks_domains pp r1.2.1 stmts
    let r3 := tag_blocks_subfrags pp r2.2.1 subs
    (.mk r2.1 r3.1 (bci ++ r1.1), r3.2.1, r1.2.2 ++ (r2.2.2 ++ r3.2.2))

def tag_blocks_subfrags (pp : HPath) (k : Nat) :
    List (Fragment × Option String) → List (Fragment × Option String) × Nat × InfoMap
  | [] => ([], k, [])
  | (f, nm) :: rest =>
    let r1 := tag_all_blocks f k (pp ++ [nm])
    let r2 := tag_blocks_subfrags pp r1.2.1 rest
    ((r1.1, nm) :: r2.1, r2.2.1, r1.2.2 ++ r2.2.2)

end

/-! ### Erasing `_block_cov_ids` (what the block tagger writes) -/

mutual

def stripBStmt : Stmt → Stmt
  | .assign a sl lhs rhs covId cn ct inj => .assign a sl lhs rhs covId cn ct inj
  | .switch a sl test cases covId cn ct caseIds _ inj =>
    .switch a sl test (stripBCases cases) covId cn ct caseIds [] inj
  | .formal a sl kind cond aid an at_ => .formal a sl kind cond aid an at_

def stripBList : List Stmt → List Stmt
  | [] => []
  | s :: rest => stripBStmt s :: stripBList rest

def stripBCases : List SwCase → List SwCase
  | [] => []
  | (pats, baddr, body, csl) :: rest => (pats, baddr, stripBList body, csl) :: stripBCases rest

end

mutual

def stripBFrag : Fragment → Fragment
  | .mk stmts subs _ => .mk (stripBDomains stmts) (stripBSubfrags subs) []

def stripBDomains : List (String × Nat × List Stmt) → List (String × Nat × List Stmt)
  | [] => []
  | (dom, la, l) :: rest => (dom, la, stripBList l) :: stripBDomains rest

def stripBSubfrags : List (Fragment × Option String) → List (Fragment × Option String)
  | [] => []
  | (f, nm) :: rest => (stripBFrag f, nm) :: stripBSubfrags rest

end

mutual

/-- All block identities recorded anywhere on the tree (fragment-level and
Switch-level `_block_cov_ids`). -/
def blockIdsFrag : Fragment → List CovId
  | .mk stmts subs bci => bci.map Prod.snd ++ blockIdsDomains stmts ++ blockIdsSubfrags subs

def blockIdsDomains : List (String × Nat × List Stmt) → List CovId
  | [] => []
  | (_, _, l) :: rest => blockIdsList l ++ blockIdsDomains rest

def blockIdsList : List Stmt → List CovId
  | [] => []
  | .switch _ _ _ cases _ _ _ _ bci _ :: rest =>
    bci.map Prod.snd ++ blockIdsCases cases ++ blockIdsList rest
  | _ :: rest => blockIdsList rest

def blockIdsCases : List SwCase → List CovId
  | [] => []
  | (_, _, body, _) :: rest => blockIdsList body ++ blockIdsCases rest

def blockIdsSubfrags : List (Fragment × Option String) → List CovId
  | [] => []
  | (f, _) :: rest => blockIdsFrag f ++ blockIdsSubfrags rest

end

lemma stripBStmt_srcLocOf (s : Stmt) : (stripBStmt s).srcLocOf = s.srcLocOf := by
  cases s <;> simp [stripBStmt, Stmt.srcLocOf]

lemma tag_root_blocks_strip (pp : HPath) :
    ∀ (ds : List (String × Nat × List Stmt)) (k : Nat),
      tag_root_blocks pp k (stripBDomains ds) = tag_root_blocks pp k ds := by
  intro ds
  induction ds with
  | nil => intro k; rfl
  | cons d rest ih =>
    intro k
    obtain ⟨dom, la, l⟩ := d
    simp only [stripBDomains, tag_root_blocks]
    rw [ih (k + 1)]
    cases l with
    | nil => rfl
    | cons s body => simp [stripBList, stripBStmt_srcLocOf]

lemma case_block_pairs_strip (pp : HPath) (dom : String) :
    ∀ (cs : List SwCase) (k : Nat),
      case_block_pairs pp dom k (stripBCases cs) = case_block_pairs pp dom k cs := by
  intro cs
  induction cs with
  | nil => intro k; rfl
  | cons c rest ih =>
    intro k
    obtain ⟨pats, baddr, body, csl⟩ := c
    simp only [stripBCases, case_block_pairs]
    rw [ih (k + 1)]

lemma tag_case_blocks_list_strip (pp : HPath) (dom : String) :
    ∀ (l : List Stmt) (k : Nat),
      (tag_case_blocks_list pp dom k (stripBList l)).2
        = (tag_case_blocks_list pp dom k l).2 := by
  intro l
  induction l with
  | nil => intro k; rfl
  | cons s rest ih =>
    intro k
    cases s with
    | assign a sl lhs rhs covId cn ct inj =>
      simp only [stripBList, stripBStmt, tag_case_blocks_list]
      rw [ih k]
    | formal a sl kind cond aid an at_ =>
      simp only [stripBList, stripBStmt, tag_case_blocks_list]
      rw [ih k]
    | switch a sl test cases covId cn ct caseIds bci inj =>
      simp only [stripBList, stripBStmt, tag_case_blocks_list]
      rw [case_block_pairs_strip pp dom cases k]
      rw [ih (case_block_pairs pp dom k cases).2.1]

lemma tag_case_blocks_domains_strip (pp : HPath) :
    ∀ (ds : List (String × Nat × List Stmt)) (k : Nat),
      (tag_case_blocks_domains pp k (stripBDomains ds)).2
        = (tag_case_blocks_domains pp k ds).2 := by
  intro ds
  induction ds with
  | nil => intro k; rfl
  | cons d rest ih =>
    intro k
    obtain ⟨dom, la, l⟩ := d
    simp only [stripBDomains, tag_case_blocks_domains]
    have h1 := tag_case_blocks_list_strip pp dom l k
    rw [show (tag_case_blocks_list pp dom k (stripBList l)).2.1
        = (tag_case_blocks_list pp dom k l).2.1 by rw [h1]]
    rw [ih (tag_case_blocks_list pp dom k l).2.1]
    rw [show (tag_case_blocks_list pp dom k (stripBList l)).2.2
        = (tag_case_blocks_list pp dom k l).2.2 by rw [h1]]

mutual

theorem tag_all_blocks_strip : ∀ (fr : Fragment) (k : Nat) (pp : HPath),
    (tag_all_blocks (stripBFrag fr) k pp).2 = (tag_all_blocks fr k pp).2
  | .mk stmts subs bci, k, pp => by
    simp only [stripBFrag, tag_all_blocks]
    rw [tag_root_blocks_strip pp stmts k]
    have h2 := tag_case_blocks_domains_strip pp stmts (tag_root_blocks pp k stmts).2.1
    rw [show (tag_case_blocks_domains pp (tag_root_blocks pp k stmts).2.1 (stripBDomains stmts)).2.1
        = (tag_case_blocks_domains pp (tag_root_blocks pp k stmts).2.1 stmts).2.1 by rw [h2]]
    rw [tag_blocks_subfrags_strip subs
      (tag_case_blocks_domains pp (tag_root_blocks pp k stmts).2.1 stmts).2.1 pp]
    rw [show (tag_case_blocks_domains pp (tag_root_blocks pp k stmts).2.1 (stripBDomains stmts)).2.2
        = (tag_case_blocks_domains pp (tag_root_blocks pp k stmts).2.1 stmts).2.2 by rw [h2]]

theorem tag_blocks_subfrags_strip : ∀ (ss : List (Fragment × Option String)) (k : Nat) (pp : HPath),
    (tag_blocks_subfrags pp k (stripBSubfrags ss)).2 = (tag_blocks_subfrags pp k ss).2
  | [], _, _ => rfl
  | (f, nm) :: rest, k, pp => by
    simp only [stripBSubfrags, tag_blocks_subfrags]
    have h1 := tag_all_blocks_strip f k (pp ++ [nm])
    rw [show (tag_all_blocks (stripBFrag f) k (pp ++ [nm])).2.1
        = (tag_all_blocks f k (pp ++ [nm])).2.1 by rw [h1]]
    rw [tag_blocks_subfrags_strip rest (tag_all_blocks f k (pp ++ [nm])).2.1 pp]
    rw [show (tag_all_blocks (stripBFrag f) k (pp ++ [nm])).2.2
        = (tag_all_blocks f k (pp ++ [nm])).2.2 by rw [h1]]

end

lemma tag_case_blocks_list_stripB (pp : HPath) (dom : String) :
    ∀ (l : List Stmt) (k : Nat),
      stripBList (tag_case_blocks_list pp dom k l).1 = stripBList l := by
  intro l
  induction l with
  | nil => intro k; rfl
  | cons s rest ih =>
    intro k
    cases s with
    | assign a sl lhs rhs covId cn ct inj =>
      simp only [tag_case_blocks_list, stripBList]
      rw [ih k]
    | formal a sl kind cond aid an at_ =>
      simp only [tag_case_blocks_list, stripBList]
      rw [ih k]
    | switch a sl test cases covId cn ct caseIds bci inj =>
      simp only [tag_case_blocks_list, stripBList, stripBStmt]
      rw [ih (case_block_pairs pp dom k cases).2.1]

lemma tag_case_blocks_domains_stripB (pp : HPath) :
    ∀ (ds : List (String × Nat × List Stmt)) (k : Nat),
      stripBDomains (tag_case_blocks_domains pp k ds).1 = stripBDomains ds := by
  intro ds
  induction ds with
  | nil => intro k; rfl
  | cons d rest ih =>
    intro k
    obtain ⟨dom, la, l⟩ := d
    simp only [tag_case_blocks_domains, stripBDomains]
    rw [tag_case_blocks_list_stripB pp dom l k]
    rw [ih (tag_case_blocks_list pp dom k l).2.1]

mutual

theorem tag_all_blocks_stripB : ∀ (fr : Fragment) (k : Nat) (pp : HPath),
    stripBFrag (tag_all_blocks fr k pp).1 = stripBFrag fr
  | .mk stmts subs bci, k, pp => by
    simp only [tag_all_blocks, stripBFrag]
    rw [tag_case_blocks_domains_stripB pp stmts (tag_root_blocks pp k stmts).2.1]
    rw [tag_blocks_subfrags_stripB subs
      (tag_case_blocks_domains pp (tag_root_blocks pp k stmts).2.1 stmts).2.1 pp]

theorem tag_blocks_subfrags_stripB : ∀ (ss : List (Fragment × Option String)) (k : Nat) (pp : HPath),
    stripBSubfrags (tag_blocks_subfrags pp k ss).1 = stripBSubfrags ss
  | [], _, _ => rfl
  | (f, nm) :: rest, k, pp => by
    simp only [tag_blocks_subfrags, stripBSubfrags]
    rw [tag_all_blocks_stripB f k (pp ++ [nm])]
    rw [tag_blocks_subfrags_stripB rest (tag_all_blocks f k (pp ++ [nm])).2.1 pp]

end

lemma tag_root_blocks_keys (pp : HPath) :
    ∀ (ds : List (String × Nat × List Stmt)) (k : Nat),
      (tag_root_blocks pp k ds).1.map Prod.snd
        = (tag_root_blocks pp k ds).2.2.map Prod.fst := by
  intro ds
  induction ds with
  | nil => intro k; rfl
  | cons d rest ih =>
    intro k
    obtain ⟨dom, la, l⟩ := d
    simp only [tag_root_blocks, List.map_cons]
    rw [ih (k + 1)]

lemma case_block_pairs_keys (pp : HPath) (dom : String) :
    ∀ (cs : List SwCase) (k : Nat),
      (case_block_pairs pp dom k cs).1.map Prod.snd
        = (case_block_pairs pp dom k cs).2.2.map Prod.fst := by
  intro cs
  induction cs with
  | nil => intro k; rfl
  | cons c rest ih =>
    intro k
    obtain ⟨pats, baddr, body, csl⟩ := c
    simp only [case_block_pairs, List.map_cons]
    rw [ih (k + 1)]

lemma tag_case_blocks_list_mem (pp : HPath) (dom : String) :
    ∀ (l : List Stmt) (k : Nat) (x : CovId),
      x ∈ blockIdsList (tag_case_blocks_list pp dom k l).1
        ↔ x ∈ blockIdsList l ∨ x ∈ (tag_case_blocks_list pp dom k l).2.2.map Prod.fst := by
  intro l
  induction l with
  | nil => intro k x; simp [tag_case_blocks_list, blockIdsList]
  | cons s rest ih =>
    intro k x
    cases s with
    | assign a sl lhs rhs covId cn ct inj =>
      simp only [tag_case_blocks_list, blockIdsList]
      exact ih k x
    | formal a sl kind cond aid an at_ =>
      simp only [tag_case_blocks_list, blockIdsList]
      exact ih k x
    | switch a sl test cases covId cn ct caseIds bci inj =>
      simp only [tag_case_blocks_list, blockIdsList, List.map_append, List.mem_append]
      rw [ih (case_block_pairs pp dom k cases).2.1 x]
      have hk := case_block_pairs_keys pp dom cases k
      constructor
      · rintro (((h | h) | h) | h) 
        · exact Or.inl (Or.inl (Or.inl h))
        · exact Or.inr (Or.inl (hk ▸ h))
        · exact Or.inl (Or.inl (Or.inr h))
        · rcases h with h | h
          · exact Or.inl (Or.inr h)
          · exact Or.inr (Or.inr h)
      · rintro ((((h | h) | h)) | (h | h))
        · exact Or.inl (Or.inl (Or.inl h))
        · exact Or.inl (Or.inr h)
        · exact Or.inr (Or.inl h)
        · exact Or.inl (Or.inl (Or.inr (hk ▸ h)))
        · exact Or.inr (Or.inr h)

lemma tag_case_blocks_domains_mem (pp : HPath) :
    ∀ (ds : List (String × Nat × List Stmt)) (k : Nat) (x : CovId),
      x ∈ blockIdsDomains (tag_case_blocks_domains pp k ds).1
        ↔ x ∈ blockIdsDomains ds ∨ x ∈ (tag_case_blocks_domains pp k ds).2.2.map Prod.fst := by
  intro ds
  induction ds with
  | nil => intro k x; simp [tag_case_blocks_domains, blockIdsDomains]
  | cons d rest ih =>
    intro k x
    obtain ⟨dom, la, l⟩ := d
    simp only [tag_case_blocks_domains, blockIdsDomains, List.map_append, List.mem_append]
    rw [tag_case_blocks_list_mem pp dom l k x,
      ih (tag_case_blocks_list pp dom k l).2.1 x]
    tauto

mutual

theorem tag_all_blocks_mem : ∀ (fr : Fragment) (k : Nat) (pp : HPath) (x : CovId),
    x ∈ blockIdsFrag (tag_all_blocks fr k pp).1
      ↔ x ∈ blockIdsFrag fr ∨ x ∈ (tag_all_blocks fr k pp).2.2.map Prod.fst
  | .mk stmts subs bci, k, pp, x => by
    simp only [tag_all_blocks, blockIdsFrag, List.map_append, List.mem_append]
    rw [tag_case_blocks_domains_mem pp stmts (tag_root_blocks pp k stmts).2.1 x]
    rw [tag_blocks_subfrags_mem subs
      (tag_case_blocks_domains pp (tag_root_blocks pp k stmts).2.1 stmts).2.1 pp x]
    have hk := tag_root_blocks_keys pp stmts k
    rw [hk]
    tauto

theorem tag_blocks_subfrags_mem : ∀ (ss : List (Fragment × Option String)) (k : Nat) (pp : HPath) (x : CovId),
    x ∈ blockIdsSubfrags (tag_blocks_subfrags pp k ss).1
      ↔ x ∈ blockIdsSubfrags ss ∨ x ∈ (tag_blocks_subfrags pp k ss).2.2.map Prod.fst
  | [], _, _, x => by simp [tag_blocks_subfrags, blockIdsSubfrags]
  | (f, nm) :: rest, k, pp, x => by
    simp only [tag_blocks_subfrags, blockIdsSubfrags, List.map_append, List.mem_append]
    rw [tag_all_blocks_mem f k (pp ++ [nm]) x]
    rw [tag_blocks_subfrags_mem rest (tag_all_blocks f k (pp ++ [nm])).2.1 pp x]
    tauto

end

/-! ### Assertion facet tagger -/

/-- `_assert_node_kind` on a formal directive node. -/
def fkindStr : FKind → String
  | .fassert => "assert"
  | .fassume => "assume"
  | .fcover => "cover"

/-- `get_assert_name` (at tagging time `_assert_type` has just been set, so
`typ` is the kind's string). -/
def get_assert_name (domain : String) (pp : HPath) (srcLoc : Option SrcLoc)
    (typ : String) (cond : Expr) : String :=
  let loc := _short_loc srcLoc
  let pathStr := _safe_path_str pp
  let cs := _expr_name cond
  s!"{loc} | {pathStr} | {domain}:{typ}({cs})"

mutual

/-- The effect of `_walk_stmt(root, visit)` in `tag_all_asserts`: visit the
node, tag it if it is assert-like and has no `_assert_id` yet, and recurse
into child objects — which for a Switch reaches the case bodies (via the
`cases` attribute) and for other nodes reaches no further statements.  The
Python walk also carries a `seen` set keyed by `id(obj)`; on an object tree
(no aliasing between statements) it never skips anything and is modelled by
the graph embedding `walkStmtFuel` below instead. -/
def walk_tag_assert_one (pp : HPath) (dom : String) (k : Nat) :
    Stmt → Stmt × Nat × InfoMap
  | .assign a sl lhs rhs covId cn ct inj => (.assign a sl lhs rhs covId cn ct inj, k, [])
  | .switch a sl test cases covId cn ct caseIds bci inj =>
    let rc := walk_tag_assert_cases pp dom k cases
    (.switch a sl test rc.1 covId cn ct caseIds bci inj, rc.2.1, rc.2.2)
  | .formal a sl kind cond aid an at_ =>
    match aid with
    | some cid => (.formal a sl kind cond (some cid) an at_, k, [])
    | none =>
      let cid : CovId := ⟨pp, dom, k⟩
      let typ := fkindStr kind
      let nm := get_assert_name dom pp sl typ cond
      (.formal a sl kind cond (some cid) (some nm) (some typ), k + 1, [(cid, nm, typ)])

def walk_tag_assert_list (pp : HPath) (dom : String) (k : Nat) :
    List Stmt → List Stmt × Nat × InfoMap
  | [] => ([], k, [])
  | s :: rest =>
    let r1 := walk_tag_assert_one pp dom k s
    let r2 := walk_tag_assert_list pp dom r1.2.1 rest
    (r1.1 :: r2.1, r2.2.1, r1.2.2 ++ r2.2.2)

def walk_tag_assert_cases (pp : HPath) (dom : String) (k : Nat) :
    List SwCase → List SwCase × Nat × InfoMap
  | [] => ([], k, [])
  | (pats, baddr, body, csl) :: rest =>
    let rb := walk_tag_assert_list pp dom k body
    let rr := walk_tag_assert_cases pp dom rb.2.1 rest
    ((pats, baddr, rb.1, csl) :: rr.1, rr.2.1, rb.2.2 ++ rr.2.2)

end

mutual

/-- `tag_all_asserts(fragment, coverage_id, parent_path)`: walk every root
statement of every domain, then subfragments.  The `_iter_formal_roots`
scan yields nothing on Amaranth fragments (they have no attribute named
`asserts`/`assumes`/`covers`/`*formal*`), so it contributes no nodes. -/
def tag_all_asserts : Fragment → Nat → HPath → Fragment × Nat × InfoMap
  | .mk stmts subs bci, k, pp =>
    let rd := tag_assert_domains pp k stmts
    let rs := tag_assert_subfrags pp rd.2.1 subs
    (.mk rd.1 rs.1 bci, rs.2.1, rd.2.2 ++ rs.2.2)

def tag_assert_domains (pp : HPath) (k : Nat) :
    List (String × Nat × List Stmt) → List (String × Nat × List Stmt) × Nat × InfoMap
  | [] => ([], k, [])
  | (dom, la, l) :: rest =>
    let r1 := walk_tag_assert_list pp dom k l
    let r2 := tag_assert_domains pp r1.2.1 rest
    ((dom, la, r1.1) :: r2.1, r2.2.1, r1.2.2 ++ r2.2.2)

def tag_assert_subfrags (pp : HPath) (k : Nat) :
    List (Fragment × Option String) → List (Fragment × Option String) × Nat × InfoMap
  | [] => ([], k, [])
  | (f, nm) :: rest =>
    let r1 := tag_all_asserts f k (pp ++ [nm])
    let r2 := tag_assert_subfrags pp r1.2.1 rest
    ((r1.1, nm) :: r2.1, r2.2.1, r1.2.2 ++ r2.2.2)

end

mutual

/-- Every formal directive reachable from the list carries an `_assert_id`. -/
def assertTaggedStmt : Stmt → Bool
  | .assign .. => true
  | .switch _ _ _ cases _ _ _ _ _ _ => assertTaggedCases cases
  | .formal _ _ _ _ aid _ _ => aid.isSome

def assertTaggedList : List Stmt → Bool
  | [] => true
  | s :: rest => assertTaggedStmt s && assertTaggedList rest

def assertTaggedCases : List SwCase → Bool
  | [] => true
  | (_, _, body, _) :: rest => assertTaggedList body && assertTaggedCases rest

end

mutual

def assertTaggedFrag : Fragment → Bool
  | .mk stmts subs _ => assertTaggedDomains stmts && assertTaggedSubfrags subs

def assertTaggedDomains : List (String × Nat × List Stmt) → Bool
  | [] => true
  | (_, _, l) :: rest => assertTaggedList l && assertTaggedDomains rest

def assertTaggedSubfrags : List (Fragment × Option String) → Bool
  | [] => true
  | (f, _) :: rest => assertTaggedFrag f && assertTaggedSubfrags rest

end

mutual

theorem walk_assert_one_tagged : ∀ (s : Stmt) (pp : HPath) (dom : String) (k : Nat),
    assertTaggedStmt (walk_tag_assert_one pp dom k s).1 = true
  | .assign a sl lhs rhs covId cn ct inj, _, _, _ => by
    simp [walk_tag_assert_one, assertTaggedStmt]
  | .switch a sl test cases covId cn ct caseIds bci inj, pp, dom, k => by
    simp only [walk_tag_assert_one, assertTaggedStmt]
    exact walk_assert_cases_tagged cases pp dom k
  | .formal a sl kind cond aid an at_, pp, dom, k => by
    cases aid <;> simp [walk_tag_assert_one, assertTaggedStmt]

theorem walk_assert_list_tagged : ∀ (l : List Stmt) (pp : HPath) (dom : String) (k : Nat),
    assertTaggedList (walk_tag_assert_list pp dom k l).1 = true
  | [], _, _, _ => by simp [walk_tag_assert_list, assertTaggedList]
  | s :: rest, pp, dom, k => by
    simp only [walk_tag_assert_list, assertTaggedList, Bool.and_eq_true]
    exact ⟨walk_assert_one_tagged s pp dom k,
      walk_assert_list_tagged rest pp dom (walk_tag_assert_one pp dom k s).2.1⟩

theorem walk_assert_cases_tagged : ∀ (cs : List SwCase) (pp : HPath) (dom : String) (k : Nat),
    assertTaggedCases (walk_tag_assert_cases pp dom k cs).1 = true
  | [], _, _, _ => by simp [walk_tag_assert_cases, assertTaggedCases]
  | (pats, baddr, body, csl) :: rest, pp, dom, k => by
    simp only [walk_tag_assert_cases, assertTaggedCases, Bool.and_eq_true]
    exact ⟨walk_assert_list_tagged body pp dom k,
      walk_assert_cases_tagged rest pp dom (walk_tag_assert_list pp dom k body).2.1⟩

end

mutual

theorem tag_assert_frag_tagged : ∀ (fr : Fragment) (k : Nat) (pp : HPath),
    assertTaggedFrag (tag_all_asserts fr k pp).1 = true
  | .mk stmts subs bci, k, pp => by
    simp only [tag_all_asserts, assertTaggedFrag, Bool.and_eq_true]
    exact ⟨tag_assert_domains_tagged stmts pp k,
      tag_assert_subfrags_tagged subs pp (tag_assert_domains pp k stmts).2.1⟩

theorem tag_assert_domains_tagged : ∀ (ds : List (String × Nat × List Stmt)) (pp : HPath) (k : Nat),
    assertTaggedDomains (tag_assert_domains pp k ds).1 = true
  | [], _, _ => by simp [tag_assert_domains, assertTaggedDomains]
  | (dom, la, l) :: rest, pp, k => by
    simp only [tag_assert_domains, assertTaggedDomains, Bool.and_eq_true]
    exact ⟨walk_assert_list_tagged l pp dom k,
      tag_assert_domains_tagged rest pp (walk_tag_assert_list pp dom k l).2.1⟩

theorem tag_assert_subfrags_tagged : ∀ (ss : List (Fragment × Option String)) (pp : HPath) (k : Nat),
    assertTaggedSubfrags (tag_assert_subfrags pp k ss).1 = true
  | [], _, _ => by simp [tag_assert_subfrags, assertTaggedSubfrags]
  | (f, nm) :: rest, pp, k => by
    simp only [tag_assert_subfrags, assertTaggedSubfrags, Bool.and_eq_true]
    exact ⟨tag_assert_frag_tagged f k (pp ++ [nm]),
      tag_assert_subfrags_tagged rest pp (tag_all_asserts f k (pp ++ [nm])).2.1⟩

end

mutual

theorem walk_assert_one_noop : ∀ (s : Stmt) (pp : HPath) (dom : String) (k : Nat),
    assertTaggedStmt s = true → walk_tag_assert_one pp dom k s = (s, k, [])
  | .assign a sl lhs rhs covId cn ct inj, _, _, _, _ => by
    simp [walk_tag_assert_one]
  | .switch a sl test cases covId cn ct caseIds bci inj, pp, dom, k, h => by
    simp only [assertTaggedStmt] at h
    simp only [walk_tag_assert_one]
    rw [walk_assert_cases_noop cases pp dom k h]
  | .formal a sl kind cond aid an at_, pp, dom, k, h => by
    cases aid with
    | none => simp [assertTaggedStmt] at h
    | some cid => simp [walk_tag_assert_one]

theorem walk_assert_list_noop : ∀ (l : List Stmt) (pp : HPath) (dom : String) (k : Nat),
    assertTaggedList l = true → walk_tag_assert_list pp dom k l = (l, k, [])
  | [], _, _, _, _ => by simp [walk_tag_assert_list]
  | s :: rest, pp, dom, k, h => by
    simp only [assertTaggedList, Bool.and_eq_true] at h
    simp only [walk_tag_assert_list]
    rw [walk_assert_one_noop s pp dom k h.1]
    rw [walk_assert_list_noop rest pp dom k h.2]
    rfl

theorem walk_assert_cases_noop : ∀ (cs : List SwCase) (pp : HPath) (dom : String) (k : Nat),
    assertTaggedCases cs = true → walk_tag_assert_cases pp dom k cs = (cs, k, [])
  | [], _, _, _, _ => by simp [walk_tag_assert_cases]
  | (pats, baddr, body, csl) :: rest, pp, dom, k, h => by
    simp only [assertTaggedCases, Bool.and_eq_true] at h
    simp only [walk_tag_assert_cases]
    rw [walk_assert_list_noop body pp dom k h.1]
    rw [walk_assert_cases_noop rest pp dom k h.2]
    rfl

end

mutual

theorem tag_assert_frag_noop : ∀ (fr : Fragment) (k : Nat) (pp : HPath),
    assertTaggedFrag fr = true → tag_all_asserts fr k pp = (fr, k, [])
  | .mk stmts subs bci, k, pp, h => by
    simp only [assertTaggedFrag, Bool.and_eq_true] at h
    simp only [tag_all_asserts]
    rw [tag_assert_domains_noop stmts pp k h.1]
    rw [tag_assert_subfrags_noop subs pp k h.2]
    rfl

theorem tag_assert_domains_noop : ∀ (ds : List (String × Nat × List Stmt)) (pp : HPath) (k : Nat),
    assertTaggedDomains ds = true → tag_assert_domains pp k ds = (ds, k, [])
  | [], _, _, _ => by simp [tag_assert_domains]
  | (dom, la, l) :: rest, pp, k, h => by
    simp only [assertTaggedDomains, Bool.and_eq_true] at h
    simp only [tag_assert_domains]
    rw [walk_assert_list_noop l pp dom k h.1]
    rw [tag_assert_domains_noop rest pp k h.2]
    rfl

theorem tag_assert_subfrags_noop : ∀ (ss : List (Fragment × Option String)) (pp : HPath) (k : Nat),
    assertTaggedSubfrags ss = true → tag_assert_subfrags pp k ss = (ss, k, [])
  | [], _, _, _ => by simp [tag_assert_subfrags]
  | (f, nm) :: rest, pp, k, h => by
    simp only [assertTaggedSubfrags, Bool.and_eq_true] at h
    simp only [tag_assert_subfrags]
    rw [tag_assert_frag_noop f k (pp ++ [nm]) h.1]
    rw [tag_assert_subfrags_noop rest pp k h.2]
    rfl

end

/-! ### Pattern parsing: `_pattern_to_mask_value` and `_match_case` -/

/-- `_is_bool_width`. -/
def _is_bool_width (e : Expr) : Bool := e.width == 1

/-- Digits of a Python integer literal after the first digit: digits with
single underscores allowed between digits. -/
def pyDigits : List Char → Nat → Option Nat
  | [], acc => some acc
  | '_' :: c :: rest, acc =>
    if c.isDigit then pyDigits rest (acc * 10 + (c.toNat - '0'.toNat)) else none
  | c :: rest, acc =>
    if c.isDigit then pyDigits rest (acc * 10 + (c.toNat - '0'.toNat)) else none

/-- Python `int(s)` on a string: an optional sign followed by digits with
single separating underscores.  (Surrounding whitespace and a leading `+`,
also accepted by Python, cannot occur in the pattern strings this model is
applied to and are not modelled.) -/
def pyIntParse (s : String) : Option Int :=
  match s.data with
  | [] => none
  | '-' :: c :: rest =>
    if c.isDigit then (pyDigits rest (c.toNat - '0'.toNat)).map (fun n => -(n : Int))
    else none
  | c :: rest =>
    if c.isDigit then (pyDigits rest (c.toNat - '0'.toNat)).map (fun n => (n : Int))
    else none

/-- `re.fullmatch(r"[01-]+", s)`: nonempty, and every character is `0`, `1`
or `-`. -/
def fullmatch01dash (s : String) : Bool :=
  !s.data.isEmpty && s.data.all (fun c => c == '0' || c == '1' || c == '-')

/-- One shift-and-or step of the `_pattern_to_mask_value` loop.  The final
`else: raise` arm for other characters is unreachable behind the fullmatch
guard and has no modelled behaviour. -/
def maskValueStep (mv : Nat × Nat) (c : Char) : Nat × Nat :=
  let m := mv.1 * 2
  let v := mv.2 * 2
  if c = '-' then (m, v)
  else if c = '0' then (m + 1, v)
  else if c = '1' then (m + 1, v + 1)
  else (m, v)

/-- `_pattern_to_mask_value(pattern_str, width)`. -/
def _pattern_to_mask_value (pattern_str : String) (width : Nat) :
    Except String (Nat × Nat) :=
  if !fullmatch01dash pattern_str then
    .error "Unsupported switch pattern string"
  else if pattern_str.length ≠ width then
    .error "Pattern width mismatch"
  else
    .ok (pattern_str.data.foldl maskValueStep (0, 0))

/-- `Const(n, shape=test.shape())`: the value truncated to the test's
(unsigned) width. -/
def const_for (test : Expr) (n : Int) : Expr :=
  .econst 0 none (n % ((2 : Int) ^ test.width)) test.width

/-- `_match_case(test, p)`: an AST constant compares directly; a pattern
that parses as a Python `int` (which includes any decimal-digit string)
becomes a truncated constant comparison; only a remaining string goes
through `_pattern_to_mask_value`, whose `ValueError` propagates. -/
def _match_case (test : Expr) (p : Pat) : Except String Expr :=
  match p with
  | .pconst v w => .ok (.opEq 0 none test (.econst 0 none v w))
  | .pint n => .ok (.opEq 0 none test (const_for test n))
  | .pstr s =>
    match pyIntParse s with
    | some n => .ok (.opEq 0 none test (const_for test n))
    | none =>
      match _pattern_to_mask_value s test.width with
      | .error e => .error e
      | .ok (m, v) =>
        .ok (.opEq 0 none (.opAnd 0 none test (.econst 0 none (m : Int) test.width))
          (.econst 0 none (v : Int) test.width))

/-- `reduce(or_, eqs)` after `_match_case` over one case's pattern tuple;
an empty pattern tuple hits `eqs[0]` and raises `IndexError`. -/
def case_match_expr (test : Expr) : List Pat → Except String Expr
  | [] => .error "IndexError: empty pattern tuple"
  | p :: ps =>
    match _match_case test p with
    | .error e => .error e
    | .ok e0 => go e0 ps
where
  go (acc : Expr) : List Pat → Except String Expr
    | [] => .ok acc
    | p :: ps =>
      match _match_case test p with
      | .error e => .error e
      | .ok e => go (.opOr 0 none acc e) ps

/-- `_boolean_exprs_from_switch`: one `("case", expr, patterns)` triple per
non-default case, then `("default", ~any_match, None)` when at least one
non-default case exists.  All built expressions are fresh objects. -/
def _boolean_exprs_from_switch (test : Expr) (cases : List SwCase) :
    Except String (List (String × Expr × Option (List Pat))) :=
  go cases none
where
  go : List SwCase → Option Expr → Except String (List (String × Expr × Option (List Pat)))
    | [], anyMatch =>
      match anyMatch with
      | none => .ok []
      | some am => .ok [("default", .opNot 0 none am, none)]
    | (pats, _, _, _) :: rest, anyMatch =>
      match pats with
      | none => go rest anyMatch
      | some ps =>
        match case_match_expr test ps with
        | .error e => .error e
        | .ok ec =>
          let anyMatch' := match anyMatch with
            | none => some ec
            | some am => some (.opOr 0 none am ec)
          (go rest anyMatch').map (fun bex => ("case", ec, pats) :: bex)

/-! ### Expression facet tagger -/

/-- Info name for a tagged boolean subexpression of an Assign. -/
def expr_cov_name (src dom : String) (e : Expr) : String :=
  let nm := _expr_name e
  s!"{src} | {dom}:expr({nm})"

/-- The effect of iterating `_iter_boolean_subexpressions_from_assign` and
tagging each yielded untagged boolean-width node, rebuilt as a recursive
traversal.  The Python generator is a stack loop (`stack.pop()` from the
end, children pushed via `stack.extend`), i.e. a right-to-left pre-order
walk: the node itself is yielded first, then the subtree of its last
child, and so on.  Its `seen` set, keyed by `id(e)`, only deduplicates
aliased sub-objects and never skips anything on an object tree.  Children
pushed per attribute: `operands` for operators, `value` for slices (a
constant's `value` is a Python `int`, which yields nothing). -/
def tag_expr_tree (src dom : String) (pp : HPath) : Nat → Expr → Expr × Nat × InfoMap
  | k, .signal a ec n w =>
    if w == 1 then
      match ec with
      | none =>
        let cid : CovId := ⟨pp, dom, k⟩
        (.signal a (some cid) n w, k + 1, [(cid, expr_cov_name src dom (.signal a ec n w), "expr")])
      | some c => (.signal a (some c) n w, k, [])
    else (.signal a ec n w, k, [])
  | k, .econst a ec v w =>
    if w == 1 then
      match ec with
      | none =>
        let cid : CovId := ⟨pp, dom, k⟩
        (.econst a (some cid) v w, k + 1, [(cid, expr_cov_name src dom (.econst a ec v w), "expr")])
      | some c => (.econst a (some c) v w, k, [])
    else (.econst a ec v w, k, [])
  | k, .slice a ec val s t =>
    let r0 :=
      if (t - s) == 1 then
        match ec with
        | none =>
          let cid : CovId := ⟨pp, dom, k⟩
          ((some (some cid)), k + 1,
            [(cid, expr_cov_name src dom (.slice a ec val s t), "expr")])
        | some c => ((some (some c)), k, ([] : InfoMap))
      else (none, k, [])
    let ec' := r0.1.getD ec
    let rv := tag_expr_tree src dom pp r0.2.1 val
    (.slice a ec' rv.1 s t, rv.2.1, r0.2.2 ++ rv.2.2)
  | k, .opNot a ec x =>
    let r0 :=
      if x.width == 1 then
        match ec with
        | none =>
          let cid : CovId := ⟨pp, dom, k⟩
          ((some (some cid)), k + 1,
            [(cid, expr_cov_name src dom (.opNot a ec x), "expr")])
        | some c => ((some (some c)), k, ([] : InfoMap))
      else (none, k, [])
    let ec' := r0.1.getD ec
    let rx := tag_expr_tree src dom pp r0.2.1 x
    (.opNot a ec' rx.1, rx.2.1, r0.2.2 ++ rx.2.2)
  | k, .opAnd a ec x y =>
    let r0 :=
      if (max x.width y.width) == 1 then
        match ec with
        | none =>
          let cid : CovId := ⟨pp, dom, k⟩
          ((some (some cid)), k + 1,
            [(cid, expr_cov_name src dom (.opAnd a ec x y), "expr")])
        | some c => ((some (some c)), k, ([] : InfoMap))
      else (none, k, [])
    let ec' := r0.1.getD ec
    let ry := tag_expr_tree src dom pp r0.2.1 y
    let rx := tag_expr_tree src dom pp ry.2.1 x
    (.opAnd a ec' rx.1 ry.1, rx.2.1, r0.2.2 ++ ry.2.2 ++ rx.2.2)
  | k, .opOr a ec x y =>
    let r0 :=
      if (max x.width y.width) == 1 then
        match ec with
        | none =>
          let cid : CovId := ⟨pp, dom, k⟩
          ((some (some cid)), k + 1,
            [(cid, expr_cov_name src dom (.opOr a ec x y), "expr")])
        | some c => ((some (some c)), k, ([] : InfoMap))
      else (none, k, [])
    let ec' := r0.1.getD ec
    let ry := tag_expr_tree src dom pp r0.2.1 y
    let rx := tag_expr_tree src dom pp ry.2.1 x
    (.opOr a ec' rx.1 ry.1, rx.2.1, r0.2.2 ++ ry.2.2 ++ rx.2.2)
  | k, .opEq a ec x y =>
    let r0 :=
      match ec with
      | none =>
        let cid : CovId := ⟨pp, dom, k⟩
        ((some (some cid)), k + 1,
          [(cid, expr_cov_name src dom (.opEq a ec x y), "expr")])
      | some c => ((some (some c)), k, ([] : InfoMap))
    let ec' := r0.1.getD ec
    let ry := tag_expr_tree src dom pp r0.2.1 y
    let rx := tag_expr_tree src dom pp ry.2.1 x
    (.opEq a ec' rx.1 ry.1, rx.2.1, r0.2.2 ++ ry.2.2 ++ rx.2.2)
  | k, .opNe a ec x y =>
    let r0 :=
      match ec with
      | none =>
        let cid : CovId := ⟨pp, dom, k⟩
        ((some (some cid)), k + 1,
          [(cid, expr_cov_name src dom (.opNe a ec x y), "expr")])
      | some c => ((some (some c)), k, ([] : InfoMap))
    let ec' := r0.1.getD ec
    let ry := tag_expr_tree src dom pp r0.2.1 y
    let rx := tag_expr_tree src dom pp ry.2.1 x
    (.opNe a ec' rx.1 ry.1, rx.2.1, r0.2.2 ++ ry.2.2 ++ rx.2.2)

/-- Info entries for the fresh boolean expressions built from a Switch
(these are new objects, so the `hasattr` guard never skips them; the built
expressions themselves are discarded, only the entries and the counter
remain). -/
def switch_expr_infos (src dom : String) (pp : HPath) :
    Nat → List (String × Expr × Option (List Pat)) → Nat × InfoMap
  | k, [] => (k, [])
  | k, (role, _built, patterns) :: rest =>
    let cid : CovId := ⟨pp, dom, k⟩
    let pattStr := match patterns with | none => "default" | some ps => reprPatterns ps
    let nm := s!"{src} | {dom}:switch_{role}({pattStr})"
    let r := switch_expr_infos src dom pp (k + 1) rest
    (r.1, (cid, nm, "expr") :: r.2)

/-- `tag_all_expressions` over one domain's statement list: Assign
right-hand sides are walked and tagged in place; Switches contribute
entries for their freshly built case-match expressions but are left
unchanged; any pattern error from `_match_case` propagates. -/
def tag_exprs_list (pp : HPath) (dom : String) :
    Nat → List Stmt → Except String (List Stmt × Nat × InfoMap)
  | k, [] => .ok ([], k, [])
  | k, .assign a sl lhs rhs covId cn ct inj :: rest =>
    let src := _short_loc sl
    let r1 := tag_expr_tree src dom pp k rhs
    match tag_exprs_list pp dom r1.2.1 rest with
    | .error e => .error e
    | .ok r2 =>
      .ok (.assign a sl lhs r1.1 covId cn ct inj :: r2.1, r2.2.1, r1.2.2 ++ r2.2.2)
  | k, .switch a sl test cases covId cn ct caseIds bci inj :: rest =>
    match _boolean_exprs_from_switch test cases with
    | .error e => .error e
    | .ok bexprs =>
      let src := _short_loc sl
      let r1 := switch_expr_infos src dom pp k bexprs
      match tag_exprs_list pp dom r1.1 rest with
      | .error e => .error e
      | .ok r2 =>
        .ok (.switch a sl test cases covId cn ct caseIds bci inj :: r2.1,
          r2.2.1, r1.2 ++ r2.2.2)
  | k, .formal a sl kind cond aid an at_ :: rest =>
    match tag_exprs_list pp dom k rest with
    | .error e => .error e
    | .ok r2 => .ok (.formal a sl kind cond aid an at_ :: r2.1, r2.2.1, r2.2.2)

mutual

/-- `tag_all_expressions(fragment, coverage_id, parent_path)`. -/
def tag_all_expressions : Fragment → Nat → HPath → Except String (Fragment × Nat × InfoMap)
  | .mk stmts subs bci, k, pp =>
    match tag_exprs_domains pp k stmts with
    | .error e => .error e
    | .ok rd =>
      match tag_exprs_subfrags pp rd.2.1 subs with
      | .error e => .error e
      | .ok rs => .ok (.mk rd.1 rs.1 bci, rs.2.1, rd.2.2 ++ rs.2.2)

def tag_exprs_domains (pp : HPath) (k : Nat) :
    List (String × Nat × List Stmt) →
      Except String (List (String × Nat × List Stmt) × Nat × InfoMap)
  | [] => .ok ([], k, [])
  | (dom, la, l) :: rest =>
    match tag_exprs_list pp dom k l with
    | .error e => .error e
    | .ok r1 =>
      match tag_exprs_domains pp r1.2.1 rest with
      | .error e => .error e
      | .ok r2 => .ok ((dom, la, r1.1) :: r2.1, r2.2.1, r1.2.2 ++ r2.2.2)

def tag_exprs_subfrags (pp : HPath) (k : Nat) :
    List (Fragment × Option String) →
      Except String (List (Fragment × Option String) × Nat × InfoMap)
  | [] => .ok ([], k, [])
  | (f, nm) :: rest =>
    match tag_all_expressions f k (pp ++ [nm]) with
    | .error e => .error e
    | .ok r1 =>
      match tag_exprs_subfrags pp r1.2.1 rest with
      | .error e => .error e
      | .ok r2 => .ok ((r1.1, nm) :: r2.1, r2.2.1, r1.2.2 ++ r2.2.2)

end

/-- Every boolean-width node of the expression tree carries an
`_expr_coverage_id`. -/
def exprTaggedE : Expr → Bool
  | .signal _ ec _ w => w != 1 || ec.isSome
  | .econst _ ec _ w => w != 1 || ec.isSome
  | .slice _ ec val s t => ((t - s) != 1 || ec.isSome) && exprTaggedE val
  | .opNot _ ec x => (x.width != 1 || ec.isSome) && exprTaggedE x
  | .opAnd _ ec x y => ((max x.width y.width) != 1 || ec.isSome) && exprTaggedE x && exprTaggedE y
  | .opOr _ ec x y => ((max x.width y.width) != 1 || ec.isSome) && exprTaggedE x && exprTaggedE y
  | .opEq _ ec x y => ec.isSome && exprTaggedE x && exprTaggedE y
  | .opNe _ ec x y => ec.isSome && exprTaggedE x && exprTaggedE y

lemma tag_expr_tree_width (src dom : String) (pp : HPath) :
    ∀ (e : Expr) (k : Nat), (tag_expr_tree src dom pp k e).1.width = e.width := by
  intro e
  induction e with
  | signal a ec n w =>
    intro k
    rcases ec with _ | c <;> by_cases hw : (w == 1) = true <;>
      simp [tag_expr_tree, Expr.width, hw]
  | econst a ec v w =>
    intro k
    rcases ec with _ | c <;> by_cases hw : (w == 1) = true <;>
      simp [tag_expr_tree, Expr.width, hw]
  | slice a ec val s t ih =>
    intro k
    rcases ec with _ | c <;> by_cases hw : ((t - s) == 1) = true <;>
      simp [tag_expr_tree, Expr.width, hw]
  | opNot a ec x ih =>
    intro k
    rcases ec with _ | c <;> by_cases hw : (x.width == 1) = true <;>
      simp [tag_expr_tree, Expr.width, hw, ih]
  | opAnd a ec x y ihx ihy =>
    intro k
    rcases ec with _ | c <;> by_cases hw : ((max x.width y.width) == 1) = true <;>
      simp [tag_expr_tree, Expr.width, hw, ihx, ihy]
  | opOr a ec x y ihx ihy =>
    intro k
    rcases ec with _ | c <;> by_cases hw : ((max x.width y.width) == 1) = true <;>
      simp [tag_expr_tree, Expr.width, hw, ihx, ihy]
  | opEq a ec x y ihx ihy =>
    intro k
    rcases ec with _ | c <;> simp [tag_expr_tree, Expr.width]
  | opNe a ec x y ihx ihy =>
    intro k
    rcases ec with _ | c <;> simp [tag_expr_tree, Expr.width]

lemma tag_expr_tree_tagged (src dom : String) (pp : HPath) :
    ∀ (e : Expr) (k : Nat), exprTaggedE (tag_expr_tree src dom pp k e).1 = true := by
  intro e
  induction e with
  | signal a ec n w =>
    intro k
    rcases ec with _ | c <;> by_cases hw : (w == 1) = true <;>
      simp_all [tag_expr_tree, exprTaggedE]
  | econst a ec v w =>
    intro k
    rcases ec with _ | c <;> by_cases hw : (w == 1) = true <;>
      simp_all [tag_expr_tree, exprTaggedE]
  | slice a ec val s t ih =>
    intro k
    rcases ec with _ | c <;> by_cases hw : ((t - s) == 1) = true <;>
      simp_all [tag_expr_tree, exprTaggedE]
  | opNot a ec x ih =>
    intro k
    rcases ec with _ | c <;> by_cases hw : (x.width == 1) = true <;>
      simp_all [tag_expr_tree, exprTaggedE, tag_expr_tree_width]
  | opAnd a ec x y ihx ihy =>
    intro k
    rcases ec with _ | c <;> by_cases hw : ((max x.width y.width) == 1) = true <;>
      simp_all [tag_expr_tree, exprTaggedE, tag_expr_tree_width]
  | opOr a ec x y ihx ihy =>
    intro k
    rcases ec with _ | c <;> by_cases hw : ((max x.width y.width) == 1) = true <;>
      simp_all [tag_expr_tree, exprTaggedE, tag_expr_tree_width]
  | opEq a ec x y ihx ihy =>
    intro k
    rcases ec with _ | c <;> simp_all [tag_expr_tree, exprTaggedE]
  | opNe a ec x y ihx ihy =>
    intro k
    rcases ec with _ | c <;> simp_all [tag_expr_tree, exprTaggedE]

lemma tag_expr_tree_noop (src dom : String) (pp : HPath) :
    ∀ (e : Expr) (k : Nat), exprTaggedE e = true → tag_expr_tree src dom pp k e = (e, k, []) := by
  intro e
  induction e with
  | signal a ec n w =>
    intro k h
    rcases ec with _ | c <;> by_cases hw : (w == 1) = true <;>
      simp_all [tag_expr_tree, exprTaggedE]
  | econst a ec v w =>
    intro k h
    rcases ec with _ | c <;> by_cases hw : (w == 1) = true <;>
      simp_all [tag_expr_tree, exprTaggedE]
  | slice a ec val s t ih =>
    intro k h
    rcases ec with _ | c <;> by_cases hw : ((t - s) == 1) = true <;>
      simp_all [tag_expr_tree, exprTaggedE]
  | opNot a ec x ih =>
    intro k h
    rcases ec with _ | c <;> by_cases hw : (x.width == 1) = true <;>
      simp_all [tag_expr_tree, exprTaggedE]
  | opAnd a ec x y ihx ihy =>
    intro k h
    rcases ec with _ | c <;> by_cases hw : ((max x.width y.width) == 1) = true <;>
      simp_all [tag_expr_tree, exprTaggedE]
  | opOr a ec x y ihx ihy =>
    intro k h
    rcases ec with _ | c <;> by_cases hw : ((max x.width y.width) == 1) = true <;>
      simp_all [tag_expr_tree, exprTaggedE]
  | opEq a ec x y ihx ihy =>
    intro k h
    rcases ec with _ | c <;> simp_all [tag_expr_tree, exprTaggedE]
  | opNe a ec x y ihx ihy =>
    intro k h
    rcases ec with _ | c <;> simp_all [tag_expr_tree, exprTaggedE]

lemma tag_exprs_list_idem (pp : HPath) (dom : String) :
    ∀ (l : List Stmt) (k k1 : Nat) (i1 : InfoMap) (l1 : List Stmt),
      tag_exprs_list pp dom k l = .ok (l1, k1, i1) →
      ∀ k', ∃ k2 i2, tag_exprs_list pp dom k' l1 = .ok (l1, k2, i2) := by
  intro l
  induction l with
  | nil =>
    intro k k1 i1 l1 h k'
    simp only [tag_exprs_list, Except.ok.injEq, Prod.mk.injEq] at h
    obtain ⟨h1, _, _⟩ := h
    subst h1
    exact ⟨k', [], rfl⟩
  | cons s rest ih =>
    intro k k1 i1 l1 h k'
    cases s with
    | assign a sl lhs rhs covId cn ct inj =>
      simp only [tag_exprs_list] at h
      cases h2 : tag_exprs_list pp dom
          (tag_expr_tree (_short_loc sl) dom pp k rhs).2.1 rest with
      | error e => rw [h2] at h; exact absurd h (by simp)
      | ok r2 =>
        rw [h2] at h
        simp only [Except.ok.injEq, Prod.mk.injEq] at h
        obtain ⟨h1, _, _⟩ := h
        subst h1
        obtain ⟨k2, i2, h3⟩ := ih _ _ _ _ h2 k'
        refine ⟨k2, i2, ?_⟩
        simp only [tag_exprs_list]
        rw [tag_expr_tree_noop (_short_loc sl) dom pp _ k'
          (tag_expr_tree_tagged (_short_loc sl) dom pp rhs k)]
        rw [h3]
        simp
    | switch a sl test cases covId cn ct caseIds bci inj =>
      simp only [tag_exprs_list] at h
      split at h
      · exact absurd h (by simp)
      · rename_i bexprs hb
        split at h
        · exact absurd h (by simp)
        · rename_i r2 h2
          simp only [Except.ok.injEq, Prod.mk.injEq] at h
          obtain ⟨h1, _, _⟩ := h
          subst h1
          obtain ⟨k2, i2, h3⟩ := ih _ _ _ _ h2
            ((switch_expr_infos (_short_loc sl) dom pp k' bexprs).1)
          refine ⟨k2, (switch_expr_infos (_short_loc sl) dom pp k' bexprs).2 ++ i2, ?_⟩
          simp only [tag_exprs_list, hb]
          rw [h3]
    | formal a sl kind cond aid an at_ =>
      simp only [tag_exprs_list] at h
      cases h2 : tag_exprs_list pp dom k rest with
      | error e => rw [h2] at h; exact absurd h (by simp)
      | ok r2 =>
        rw [h2] at h
        simp only [Except.ok.injEq, Prod.mk.injEq] at h
        obtain ⟨h1, _, _⟩ := h
        subst h1
        obtain ⟨k2, i2, h3⟩ := ih _ _ _ _ h2 k'
        refine ⟨k2, i2, ?_⟩
        simp only [tag_exprs_list]
        rw [h3]

mutual

theorem tag_all_expressions_idem : ∀ (fr : Fragment) (k k1 : Nat) (i1 : InfoMap) (fr1 : Fragment),
    tag_all_expressions fr k [] = .ok (fr1, k1, i1) →
    ∀ k', ∃ k2 i2, tag_all_expressions fr1 k' [] = .ok (fr1, k2, i2) := by
  intro fr
  exact tag_all_expressions_idem_at fr []

theorem tag_all_expressions_idem_at : ∀ (fr : Fragment) (pp : HPath) (k k1 : Nat) (i1 : InfoMap) (fr1 : Fragment),
    tag_all_expressions fr k pp = .ok (fr1, k1, i1) →
    ∀ k', ∃ k2 i2, tag_all_expressions fr1 k' pp = .ok (fr1, k2, i2)
  | .mk stmts subs bci, pp, k, k1, i1, fr1, h, k' => by
    simp only [tag_all_expressions] at h
    split at h
    · exact absurd h (by simp)
    · rename_i rd hd
      split at h
      · exact absurd h (by simp)
      · rename_i rs hs
        simp only [Except.ok.injEq, Prod.mk.injEq] at h
        obtain ⟨h1, _, _⟩ := h
        subst h1
        obtain ⟨kd2, id2, hd2⟩ := tag_exprs_domains_idem stmts pp _ _ _ _ hd k'
        obtain ⟨ks2, is2, hs2⟩ := tag_exprs_subfrags_idem subs pp _ _ _ _ hs kd2
        refine ⟨ks2, id2 ++ is2, ?_⟩
        simp only [tag_all_expressions]
        rw [hd2]
        simp only [hs2]

theorem tag_exprs_domains_idem : ∀ (ds : List (String × Nat × List Stmt)) (pp : HPath)
      (k k1 : Nat) (i1 : InfoMap) (ds1 : List (String × Nat × List Stmt)),
    tag_exprs_domains pp k ds = .ok (ds1, k1, i1) →
    ∀ k', ∃ k2 i2, tag_exprs_domains pp k' ds1 = .ok (ds1, k2, i2)
  | [], pp, k, k1, i1, ds1, h, k' => by
    simp only [tag_exprs_domains, Except.ok.injEq, Prod.mk.injEq] at h
    obtain ⟨h1, _, _⟩ := h
    subst h1
    exact ⟨k', [], rfl⟩
  | (dom, la, l) :: rest, pp, k, k1, i1, ds1, h, k' => by
    simp only [tag_exprs_domains] at h
    split at h
    · exact absurd h (by simp)
    · rename_i r1 h1'
      split at h
      · exact absurd h (by simp)
      · rename_i r2 h2'
        simp only [Except.ok.injEq, Prod.mk.injEq] at h
        obtain ⟨h1, _, _⟩ := h
        subst h1
        obtain ⟨ka, ia, ha⟩ := tag_exprs_list_idem pp dom l _ _ _ _ h1' k'
        obtain ⟨kb, ib, hb2⟩ := tag_exprs_domains_idem rest pp _ _ _ _ h2' ka
        refine ⟨kb, ia ++ ib, ?_⟩
        simp only [tag_exprs_domains]
        rw [ha]
        simp only [hb2]

theorem tag_exprs_subfrags_idem : ∀ (ss : List (Fragment × Option String)) (pp : HPath)
      (k k1 : Nat) (i1 : InfoMap) (ss1 : List (Fragment × Option String)),
    tag_exprs_subfrags pp k ss = .ok (ss1, k1, i1) →
    ∀ k', ∃ k2 i2, tag_exprs_subfrags pp k' ss1 = .ok (ss1, k2, i2)
  | [], pp, k, k1, i1, ss1, h, k' => by
    simp only [tag_exprs_subfrags, Except.ok.injEq, Prod.mk.injEq] at h
    obtain ⟨h1, _, _⟩ := h
    subst h1
    exact ⟨k', [], rfl⟩
  | (f, nm) :: rest, pp, k, k1, i1, ss1, h, k' => by
    simp only [tag_exprs_subfrags] at h
    split at h
    · exact absurd h (by simp)
    · rename_i r1 h1'
      split at h
      · exact absurd h (by simp)
      · rename_i r2 h2'
        simp only [Except.ok.injEq, Prod.mk.injEq] at h
        obtain ⟨h1, _, _⟩ := h
        subst h1
        obtain ⟨ka, ia, ha⟩ := tag_all_expressions_idem_at f (pp ++ [nm]) _ _ _ _ h1' k'
        obtain ⟨kb, ib, hb2⟩ := tag_exprs_subfrags_idem rest pp _ _ _ _ h2' ka
        refine ⟨kb, ia ++ ib, ?_⟩
        simp only [tag_exprs_subfrags]
        rw [ha]
        simp only [hb2]

end

/-- C2: re-tagging an already-tagged tree is a no-op on identity
assignment, for each facet's tagger.  Statement and assertion taggers skip
every already-tagged construct, returning the tree unchanged with an
unadvanced counter and an empty info dict; the expression tagger leaves the
once-tagged tree unchanged on a second pass (its counter does advance over
the freshly rebuilt, transient Switch case-match expressions, which are
not part of the tree); the block tagger re-traverses deterministically
from the same starting counter, so its second pass produces the identical
(counter, info) output and the set of block identities recorded on the
tree is unchanged. -/
theorem c2_retagging_is_noop (fr : Fragment) :
    (tag_all_statements (tag_all_statements fr 0 []).1 0 []
        = ((tag_all_statements fr 0 []).1, 0, []))
    ∧ (tag_all_asserts (tag_all_asserts fr 0 []).1 0 []
        = ((tag_all_asserts fr 0 []).1, 0, []))
    ∧ (∀ (fr1 : Fragment) (k1 : Nat) (i1 : InfoMap),
        tag_all_expressions fr 0 [] = .ok (fr1, k1, i1) →
        ∃ k2 i2, tag_all_expressions fr1 0 [] = .ok (fr1, k2, i2))
    ∧ ((tag_all_blocks (tag_all_blocks fr 0 []).1 0 []).2 = (tag_all_blocks fr 0 []).2
      ∧ ∀ x : CovId,
          x ∈ blockIdsFrag (tag_all_blocks (tag_all_blocks fr 0 []).1 0 []).1
            ↔ x ∈ blockIdsFrag (tag_all_blocks fr 0 []).1) := by
  have hinfo : (tag_all_blocks (tag_all_blocks fr 0 []).1 0 []).2
      = (tag_all_blocks fr 0 []).2 := by
    have e1 := tag_all_blocks_stripB fr 0 []
    have e2 := tag_all_blocks_strip (tag_all_blocks fr 0 []).1 0 []
    have e3 := tag_all_blocks_strip fr 0 []
    calc (tag_all_blocks (tag_all_blocks fr 0 []).1 0 []).2
        = (tag_all_blocks (stripBFrag (tag_all_blocks fr 0 []).1) 0 []).2 := e2.symm
      _ = (tag_all_blocks (stripBFrag fr) 0 []).2 := by rw [e1]
      _ = (tag_all_blocks fr 0 []).2 := e3
  refine ⟨?_, ?_, ?_, hinfo, ?_⟩
  · exact tag_frag_noop _ 0 [] (tag_frag_taggedTop fr 0 [])
  · exact tag_assert_frag_noop _ 0 [] (tag_assert_frag_tagged fr 0 [])
  · intro fr1 k1 i1 h
    exact tag_all_expressions_idem fr 0 k1 i1 fr1 h 0
  · intro x
    rw [tag_all_blocks_mem (tag_all_blocks fr 0 []).1 0 [] x]
    have hkeys : (tag_all_blocks (tag_all_blocks fr 0 []).1 0 []).2.2
        = (tag_all_blocks fr 0 []).2.2 := by rw [hinfo]
    constructor
    · rintro (h | h)
      · exact h
      · rw [hkeys] at h
        exact (tag_all_blocks_mem fr 0 [] x).mpr (Or.inr h)
    · intro h
      exact Or.inl h

/-- Witness for `c2_retagging_is_noop`: the expression-facet conjunct
applied to a one-assign fragment, with the first tagging pass evaluated. -/
theorem c2_retagging_is_noop_witness :
    tag_all_expressions (.mk [("comb", 50,
        [Stmt.assign 20 none (.signal 10 none "a" 1) (.signal 11 none "b" 1)
          none none none false])] [] []) 0 []
      = .ok (.mk [("comb", 50,
          [Stmt.assign 20 none (.signal 10 none "a" 1)
            (.signal 11 (some ⟨[], "comb", 0⟩) "b" 1) none none none false])] [] [],
        1, [(⟨[], "comb", 0⟩, "unknown | comb:expr(b)", "expr")])
    ∧ (∃ k2 i2, tag_all_expressions (.mk [("comb", 50,
        [Stmt.assign 20 none (.signal 10 none "a" 1)
          (.signal 11 (some ⟨[], "comb", 0⟩) "b" 1) none none none false])] [] []) 0 []
      = .ok (.mk [("comb", 50,
          [Stmt.assign 20 none (.signal 10 none "a" 1)
            (.signal 11 (some ⟨[], "comb", 0⟩) "b" 1) none none none false])] [] [],
        k2, i2)) :=
  ⟨rfl,
    (c2_retagging_is_noop (.mk [("comb", 50,
        [Stmt.assign 20 none (.signal 10 none "a" 1) (.signal 11 none "b" 1)
          none none none false])] [] [])).2.2.1
      (.mk [("comb", 50,
        [Stmt.assign 20 none (.signal 10 none "a" 1)
          (.signal 11 (some ⟨[], "comb", 0⟩) "b" 1) none none none false])] [] [])
      1 [(⟨[], "comb", 0⟩, "unknown | comb:expr(b)", "expr")] rfl⟩

/-! ### Aggregation: `merge_stmtcov` / `merge_assertcov` -/

/-- One `AGG_STMT_HITS[sid] += hits` update per item of a run's results
Counter. -/
def counter_add : (CovId → Nat) → List (CovId × Nat) → (CovId → Nat)
  | agg, [] => agg
  | agg, (sid, h) :: rest =>
    counter_add (fun x => if x = sid then agg x + h else agg x) rest

/-- `AGG_STMT_INFO.setdefault(sid, info)` folded over a descriptor dict:
first write wins, new keys are appended in order. -/
def info_setdefault : InfoMap → InfoMap → InfoMap
  | agg, [] => agg
  | agg, e :: rest =>
    info_setdefault (if agg.any (fun x => x.1 == e.1) then agg else agg ++ [e]) rest

/-- `merge_stmtcov(results, stmtid_to_info)` against an explicit aggregate
`(AGG_STMT_HITS, AGG_STMT_INFO)` (`merge_blockcov` is identical). -/
def merge_stmtcov (agg : (CovId → Nat) × InfoMap) (results : List (CovId × Nat))
    (info : InfoMap) : (CovId → Nat) × InfoMap :=
  (counter_add agg.1 results, info_setdefault agg.2 info)

/-- The inner `for outcome, hits in buckets.items(): if hits: AGG[...] += hits`
of `merge_assertcov`. -/
def bucket_add (aid : CovId) : ((CovId × String) → Nat) → List (String × Nat) →
    ((CovId × String) → Nat)
  | agg, [] => agg
  | agg, (outcome, h) :: rest =>
    bucket_add aid
      (if h ≠ 0 then fun x => if x = (aid, outcome) then agg x + h else agg x else agg) rest

def assert_counter_add : ((CovId × String) → Nat) →
    List (CovId × List (String × Nat)) → ((CovId × String) → Nat)
  | agg, [] => agg
  | agg, (aid, buckets) :: rest => assert_counter_add (bucket_add aid agg buckets) rest

/-- `merge_assertcov(results, assertid_to_info)`. -/
def merge_assertcov (agg : ((CovId × String) → Nat) × InfoMap)
    (results : List (CovId × List (String × Nat))) (info : InfoMap) :
    ((CovId × String) → Nat) × InfoMap :=
  (assert_counter_add agg.1 results, info_setdefault agg.2 info)

/-- Total weight a results list contributes to one key. -/
def results_weight (l : List (CovId × Nat)) (x : CovId) : Nat :=
  (l.map (fun e => if x = e.1 then e.2 else 0)).sum

lemma counter_add_eq : ∀ (l : List (CovId × Nat)) (agg : CovId → Nat) (x : CovId),
    counter_add agg l x = agg x + results_weight l x := by
  intro l
  induction l with
  | nil => intro agg x; simp [counter_add, results_weight]
  | cons e rest ih =>
    intro agg x
    obtain ⟨sid, h⟩ := e
    simp only [counter_add, results_weight, List.map_cons, List.sum_cons]
    rw [ih]
    by_cases hx : x = sid
    · subst hx
      simp [results_weight]
      omega
    · simp [results_weight, hx]

def bucket_weight (aid : CovId) (bs : List (String × Nat)) (x : CovId × String) : Nat :=
  (bs.map (fun b => if x = (aid, b.1) then b.2 else 0)).sum

lemma bucket_add_eq : ∀ (bs : List (String × Nat)) (aid : CovId)
    (agg : (CovId × String) → Nat) (x : CovId × String),
    bucket_add aid agg bs x = agg x + bucket_weight aid bs x := by
  intro bs
  induction bs with
  | nil => intro aid agg x; simp [bucket_add, bucket_weight]
  | cons b rest ih =>
    intro aid agg x
    obtain ⟨outcome, h⟩ := b
    simp only [bucket_add, bucket_weight, List.map_cons, List.sum_cons]
    rw [ih]
    by_cases hz : h ≠ 0
    · rw [if_pos hz]
      by_cases hx : x = (aid, outcome)
      · simp [hx, bucket_weight]
        omega
      · simp [hx, bucket_weight]
    · simp only [ne_eq, not_not] at hz
      subst hz
      simp [bucket_weight]

def assert_results_weight (l : List (CovId × List (String × Nat))) (x : CovId × String) : Nat :=
  (l.map (fun e => bucket_weight e.1 e.2 x)).sum

lemma assert_counter_add_eq : ∀ (l : List (CovId × List (String × Nat)))
    (agg : (CovId × String) → Nat) (x : CovId × String),
    assert_counter_add agg l x = agg x + assert_results_weight l x := by
  intro l
  induction l with
  | nil => intro agg x; simp [assert_counter_add, assert_results_weight]
  | cons e rest ih =>
    intro agg x
    obtain ⟨aid, buckets⟩ := e
    simp only [assert_counter_add, assert_results_weight, List.map_cons, List.sum_cons]
    rw [ih, bucket_add_eq]
    simp only [assert_results_weight]
    omega

def info_keys (m : InfoMap) : List CovId := m.map Prod.fst

lemma info_setdefault_step_mem {m : InfoMap} {e : CovId × String × String}
    (h : e.1 ∈ info_keys m) :
    (if m.any (fun x => x.1 == e.1) then m else m ++ [e]) = m := by
  have : m.any (fun x => x.1 == e.1) = true := by
    rw [List.any_eq_true]
    obtain ⟨y, hy, he⟩ := List.mem_map.mp h
    exact ⟨y, hy, by simp [he]⟩
  rw [this]
  simp

lemma info_setdefault_mono : ∀ (ds m : InfoMap) (k : CovId),
    k ∈ info_keys m → k ∈ info_keys (info_setdefault m ds) := by
  intro ds
  induction ds with
  | nil => intro m k h; exact h
  | cons e rest ih =>
    intro m k h
    simp only [info_setdefault]
    apply ih
    split
    · exact h
    · simp only [info_keys, List.map_append, List.mem_append]
      exact Or.inl h

lemma info_setdefault_key_mem : ∀ (ds m : InfoMap) (e : CovId × String × String),
    e ∈ ds → e.1 ∈ info_keys (info_setdefault m ds) := by
  intro ds
  induction ds with
  | nil => intro m e h; simp at h
  | cons d rest ih =>
    intro m e h
    rcases List.mem_cons.mp h with h1 | h1
    · subst h1
      simp only [info_setdefault]
      apply info_setdefault_mono
      split
      · rename_i hany
        rw [List.any_eq_true] at hany
        obtain ⟨y, hy, he⟩ := hany
        simp only [beq_iff_eq] at he
        exact he ▸ List.mem_map_of_mem Prod.fst hy
      · simp [info_keys]
    · exact ih _ e h1

lemma info_setdefault_idem : ∀ (ds m : InfoMap),
    (∀ e ∈ ds, e.1 ∈ info_keys m) → info_setdefault m ds = m := by
  intro ds
  induction ds with
  | nil => intro m _; rfl
  | cons e rest ih =>
    intro m h
    simp only [info_setdefault]
    rw [info_setdefault_step_mem (h e (by simp))]
    exact ih m (fun x hx => h x (by simp [hx]))

lemma info_setdefault_twice (m ds : InfoMap) :
    info_setdefault (info_setdefault m ds) ds = info_setdefault m ds := by
  apply info_setdefault_idem
  intro e he
  exact info_setdefault_key_mem ds m e he

/-- C4: merging two per-run OutcomeCounter snapshots A and B into an empty
aggregate is commutative element-wise for both the statement-facet and the
assertion-facet merge (counters are summed per identity, resp. per
(identity, outcome), the `if hits:` guard of `merge_assertcov` only
skipping zero additions); and descriptors are recorded first-write-wins,
so a repeated merge of the same descriptor set leaves the recorded
descriptor dict unchanged. -/
theorem c4_merge_commutative_first_write_wins
    (A B : List (CovId × Nat)) (iA iB : InfoMap)
    (RA RB : List (CovId × List (String × Nat)))
    (agg : (CovId → Nat) × InfoMap) (aagg : ((CovId × String) → Nat) × InfoMap)
    (ds : InfoMap) (r1 r2 : List (CovId × Nat))
    (ra1 ra2 : List (CovId × List (String × Nat))) :
    (merge_stmtcov (merge_stmtcov (fun _ => 0, []) A iA) B iB).1
      = (merge_stmtcov (merge_stmtcov (fun _ => 0, []) B iB) A iA).1
    ∧ (merge_assertcov (merge_assertcov (fun _ => 0, []) RA iA) RB iB).1
      = (merge_assertcov (merge_assertcov (fun _ => 0, []) RB iB) RA iA).1
    ∧ (merge_stmtcov (merge_stmtcov agg r1 ds) r2 ds).2 = (merge_stmtcov agg r1 ds).2
    ∧ (merge_assertcov (merge_assertcov aagg ra1 ds) ra2 ds).2
      = (merge_assertcov aagg ra1 ds).2 := by
  refine ⟨?_, ?_, ?_, ?_⟩
  · funext x
    simp only [merge_stmtcov]
    rw [counter_add_eq, counter_add_eq, counter_add_eq, counter_add_eq]
    omega
  · funext x
    simp only [merge_assertcov]
    rw [assert_counter_add_eq, assert_counter_add_eq,
      assert_counter_add_eq, assert_counter_add_eq]
    omega
  · simp only [merge_stmtcov]
    exact info_setdefault_twice agg.2 ds
  · simp only [merge_assertcov]
    exact info_setdefault_twice aagg.2 ds

/-! ### Assertion facet injector: `insert_assert_coverage_signals` -/

/-- One entry of `found_nodes`: the node's `_assert_id`, the owning
fragment (by address) and domain it was found under, its `_assert_type`
string, and `_cond_of(node)`. -/
structure FoundAssert where
  fragAddr : Nat
  domain : String
  aid : CovId
  typ : String
  cond : Option Expr

/-- `truthy(expr)`: `expr != Const(0)` (never raises on AST values). -/
def truthy (c : Expr) : Expr := .opNe 0 none c (.econst 0 none 0 1)

/-- `make_sig(aid, typ, outcome)`'s fresh signal. -/
def mk_assert_sig (aid : CovId) (typ outcome : String) : Expr :=
  .signal 0 none (_cov_signal_name "cov" aid.path aid.domain aid.serial [typ, outcome]) 1

/-- `frag_of_node.statements.get(domain, [])`, keyed by (fragment address,
domain). -/
def alGet (m : List ((Nat × String) × List Stmt)) (key : Nat × String) : List Stmt :=
  ((m.find? (fun e => e.1 == key)).map (·.2)).getD []

/-- `frag_of_node.statements[domain] = dom_list` (dict update: replace in
place, or append a new key at the end). -/
def alSet : List ((Nat × String) × List Stmt) → (Nat × String) → List Stmt →
    List ((Nat × String) × List Stmt)
  | [], key, v => [(key, v)]
  | e :: rest, key, v => if e.1 == key then (key, v) :: rest else e :: alSet rest key v

/-- `insert_assert_coverage_signals(fragment, found_nodes)`: for each found
node with a condition, append the auxiliary writes to its fragment's
domain list and record the created signals in the signal map. -/
def insert_assert_coverage_signals :
    List FoundAssert → List ((Nat × String) × List Stmt) →
      List (Expr × CovId × String) × List ((Nat × String) × List Stmt)
  | [], frags => ([], frags)
  | n :: rest, frags =>
    match n.cond with
    | none => insert_assert_coverage_signals rest frags
    | some c =>
      let t := truthy c
      let key := (n.fragAddr, n.domain)
      let domList := alGet frags key
      if n.typ = "assert" ∨ n.typ = "assume" then
        let sT := mk_assert_sig n.aid n.typ "true"
        let sF := mk_assert_sig n.aid n.typ "false"
        let sFail := mk_assert_sig n.aid n.typ "fail"
        let newList := domList ++
          [.assign 0 none sT t none none none false,
           .assign 0 none sF (.opNot 0 none t) none none none false,
           .assign 0 none sFail (.opNot 0 none t) none none none false]
        let r := insert_assert_coverage_signals rest (alSet frags key newList)
        ((sT, n.aid, "true") :: (sF, n.aid, "false") :: (sFail, n.aid, "fail") :: r.1, r.2)
      else if n.typ = "cover" then
        let sT := mk_assert_sig n.aid n.typ "true"
        let newList := domList ++ [.assign 0 none sT t none none none false]
        let r := insert_assert_coverage_signals rest (alSet frags key newList)
        ((sT, n.aid, "true") :: r.1, r.2)
      else
        let r := insert_assert_coverage_signals rest (alSet frags key domList)
        (r.1, r.2)

/-- Spec side of C6: the signal-map entries one directive contributes. -/
def assert_entries_of (n : FoundAssert) : List (Expr × CovId × String) :=
  match n.cond with
  | none => []
  | some _ =>
    if n.typ = "assert" ∨ n.typ = "assume" then
      [(mk_assert_sig n.aid n.typ "true", n.aid, "true"),
       (mk_assert_sig n.aid n.typ "false", n.aid, "false"),
       (mk_assert_sig n.aid n.typ "fail", n.aid, "fail")]
    else if n.typ = "cover" then
      [(mk_assert_sig n.aid n.typ "true", n.aid, "true")]
    else []

/-- Spec side of C6: the shadow writes one directive contributes — exactly
three for assert/assume (`true := C≠0`, `false := ~(C≠0)`,
`fail := ~(C≠0)`), exactly one for cover (`true := C≠0`). -/
def assert_writes_of (n : FoundAssert) : List Stmt :=
  match n.cond with
  | none => []
  | some c =>
    let t := truthy c
    if n.typ = "assert" ∨ n.typ = "assume" then
      [.assign 0 none (mk_assert_sig n.aid n.typ "true") t none none none false,
       .assign 0 none (mk_assert_sig n.aid n.typ "false") (.opNot 0 none t) none none none false,
       .assign 0 none (mk_assert_sig n.aid n.typ "fail") (.opNot 0 none t) none none none false]
    else if n.typ = "cover" then
      [.assign 0 none (mk_assert_sig n.aid n.typ "true") t none none none false]
    else []

lemma alGet_alSet_same (m : List ((Nat × String) × List Stmt)) (key : Nat × String)
    (v : List Stmt) : alGet (alSet m key v) key = v := by
  induction m with
  | nil => simp [alSet, alGet, List.find?]
  | cons e rest ih =>
    simp only [alSet]
    by_cases he : e.1 == key
    · rw [if_pos he]
      simp [alGet, List.find?]
    · rw [if_neg he]
      simp only [alGet, List.find?, he]
      exact ih

lemma alGet_alSet_other (m : List ((Nat × String) × List Stmt)) (key key' : Nat × String)
    (v : List Stmt) (h : key ≠ key') : alGet (alSet m key v) key' = alGet m key' := by
  induction m with
  | nil =>
    simp only [alSet, alGet, List.find?]
    have : ((key, v).1 == key') = false := by simpa using h
    simp [this]
  | cons e rest ih =>
    simp only [alSet]
    by_cases he : e.1 == key
    · rw [if_pos he]
      have hkk : (key == key') = false := by simpa using h
      have hek : (e.1 == key') = false := by
        rw [beq_iff_eq] at he
        rw [he]
        exact hkk
      simp only [alGet, List.find?, hkk, hek]
    · rw [if_neg he]
      by_cases he' : e.1 == key'
      · simp only [alGet, List.find?, he']
      · simp only [alGet, List.find?, he']
        exact ih

lemma insert_assert_cov_spec :
    ∀ (nodes : List FoundAssert) (frags : List ((Nat × String) × List Stmt)),
      (insert_assert_coverage_signals nodes frags).1 = nodes.flatMap assert_entries_of
      ∧ ∀ key, alGet (insert_assert_coverage_signals nodes frags).2 key
          = alGet frags key
            ++ (nodes.filter (fun n => (n.fragAddr, n.domain) == key)).flatMap
                assert_writes_of := by
  intro nodes
  induction nodes with
  | nil =>
    intro frags
    exact ⟨rfl, fun key => by simp [insert_assert_coverage_signals]⟩
  | cons n rest ih =>
    intro frags
    obtain ⟨fa, dm, aid, typ, cond⟩ := n
    cases cond with
    | none =>
      simp only [insert_assert_coverage_signals]
      constructor
      · rw [(ih frags).1]
        simp [assert_entries_of]
      · intro key
        rw [(ih frags).2 key]
        by_cases hk : ((fa, dm) == key) = true
        · simp [List.filter, hk, assert_writes_of]
        · simp only [Bool.not_eq_true] at hk
          simp [List.filter, hk]
    | some c =>
      by_cases ht : typ = "assert" ∨ typ = "assume"
      · simp only [insert_assert_coverage_signals, if_pos ht]
        constructor
        · rw [(ih _).1]
          simp [assert_entries_of, ht]
        · intro key
          rw [(ih _).2 key]
          by_cases hk : ((fa, dm) == key) = true
          · rw [beq_iff_eq] at hk
            subst hk
            rw [alGet_alSet_same]
            simp only [List.filter, List.flatMap_cons, beq_self_eq_true]
            rw [List.append_assoc]
            congr 1
            simp [assert_writes_of, ht]
          · simp only [Bool.not_eq_true] at hk
            rw [alGet_alSet_other _ _ _ _ (by simpa using hk)]
            simp [List.filter, hk]
      · by_cases hc : typ = "cover"
        · simp only [insert_assert_coverage_signals, if_neg ht, if_pos hc]
          constructor
          · rw [(ih _).1]
            simp [assert_entries_of, ht, hc]
          · intro key
            rw [(ih _).2 key]
            by_cases hk : ((fa, dm) == key) = true
            · rw [beq_iff_eq] at hk
              subst hk
              rw [alGet_alSet_same]
              simp only [List.filter, List.flatMap_cons, beq_self_eq_true]
              rw [List.append_assoc]
              congr 1
              simp [assert_writes_of, ht, hc]
            · simp only [Bool.not_eq_true] at hk
              rw [alGet_alSet_other _ _ _ _ (by simpa using hk)]
              simp [List.filter, hk]
        · simp only [insert_assert_coverage_signals, if_neg ht, if_neg hc]
          constructor
          · rw [(ih _).1]
            simp [assert_entries_of, ht, hc]
          · intro key
            rw [(ih _).2 key]
            by_cases hk : ((fa, dm) == key) = true
            · rw [beq_iff_eq] at hk
              subst hk
              rw [alGet_alSet_same]
              simp [List.filter, assert_writes_of, ht, hc]
            · simp only [Bool.not_eq_true] at hk
              rw [alGet_alSet_other _ _ _ _ (by simpa using hk)]
              simp [List.filter, hk]

/-- C6: for every found FormalDirective with condition C, the assertion
injector creates, per directive: for kind assert or assume exactly three
shadow writes `true_shadow := (C != 0)`, `false_shadow := ~(C != 0)` and
`fail_shadow := ~(C != 0)` (fail identical to false but registered under
the distinct outcome label `"fail"`), and for kind cover only the
`true_shadow` write — the per-directive lists `assert_entries_of` /
`assert_writes_of` spell these out, and the injector's signal map and
appended statement lists are exactly their concatenations in traversal
order. -/
theorem c6_assertion_injector_shadow_writes (nodes : List FoundAssert)
    (frags : List ((Nat × String) × List Stmt)) :
    (insert_assert_coverage_signals nodes frags).1 = nodes.flatMap assert_entries_of
    ∧ ∀ key, alGet (insert_assert_coverage_signals nodes frags).2 key
        = alGet frags key
          ++ (nodes.filter (fun n => (n.fragAddr, n.domain) == key)).flatMap
              assert_writes_of :=
  insert_assert_cov_spec nodes frags

/-! ### Expression facet report: `emit_expr_summary` -/

/-- One record of the structured expression report. -/
structure ExprRecord where
  rid : String
  rname : String
  rtype : String
  true_hits : Nat
  false_hits : Nat
  covered : Bool
deriving DecidableEq, Repr

/-- `str` of a path tuple component (`'name'` or `None`). -/
def reprPathComp : Option String → String
  | none => "None"
  | some s => "'" ++ s ++ "'"

/-- Python repr of the path tuple. -/
def reprPathTuple (pp : HPath) : String :=
  match pp with
  | [] => "()"
  | [p] => "(" ++ reprPathComp p ++ ",)"
  | _ => "(" ++ String.intercalate ", " (pp.map reprPathComp) ++ ")"

/-- `str(sid)`: Python repr of the identity tuple. -/
def reprCovId (c : CovId) : String :=
  "(" ++ reprPathTuple c.path ++ ", '" ++ c.domain ++ "', " ++ toString c.serial ++ ")"

/-- `emit_expr_summary` against explicit aggregate state `AGG_EXPR_INFO`
(`info`) and `AGG_EXPR_HITS` (`hits`): returns the summary pair
`(hit, total)` and the report records.  (The printed percentage is
`hit/total*100` in floating point, computed from the returned counts, and
is not modelled.) -/
def emit_expr_summary (info : InfoMap) (hits : CovId × String → Nat) :
    (Nat × Nat) × List ExprRecord :=
  let total := info.length
  let hit := (info.filter
    (fun e => decide (hits (e.1, "T") > 0 ∧ hits (e.1, "F") > 0))).length
  let report := info.map (fun e =>
    { rid := reprCovId e.1
      rname := e.2.1
      rtype := e.2.2
      true_hits := hits (e.1, "T")
      false_hits := hits (e.1, "F")
      covered := decide (hits (e.1, "T") > 0 ∧ hits (e.1, "F") > 0) : ExprRecord })
  ((hit, total), report)

/-- C7: in the expression-facet report an identity is classified covered
iff both its true count and its false count are strictly positive: every
emitted record's `covered` flag is the conjunction of its two counts being
positive, the summary's covered count is exactly the number of covered
records, and an expression observed true but never false yields a record
with `covered := false`. -/
theorem c7_expr_covered_iff_both_polarities (info : InfoMap)
    (hits : CovId × String → Nat) :
    (∀ rec ∈ (emit_expr_summary info hits).2,
        rec.covered = true ↔ (rec.true_hits > 0 ∧ rec.false_hits > 0))
    ∧ (emit_expr_summary info hits).1.1
        = ((emit_expr_summary info hits).2.filter (fun r => r.covered)).length
    ∧ ∀ e ∈ info, hits (e.1, "T") > 0 → hits (e.1, "F") = 0 →
        ({ rid := reprCovId e.1, rname := e.2.1, rtype := e.2.2,
           true_hits := hits (e.1, "T"), false_hits := hits (e.1, "F"),
           covered := false } : ExprRecord) ∈ (emit_expr_summary info hits).2 := by
  refine ⟨?_, ?_, ?_⟩
  · intro rec hrec
    simp only [emit_expr_summary, List.mem_map] at hrec
    obtain ⟨e, _, he⟩ := hrec
    subst he
    simp
  · simp only [emit_expr_summary]
    rw [List.filter_map]
    simp only [List.length_map]
    congr 1
  · intro e he hT hF
    simp only [emit_expr_summary, List.mem_map]
    refine ⟨e, he, ?_⟩
    have : decide (hits (e.1, "T") > 0 ∧ hits (e.1, "F") > 0) = false := by
      simp [hF]
    rw [this]

/-- Witness for `c7_expr_covered_iff_both_polarities`: one identity
observed true once and never false is reported uncovered. -/
theorem c7_expr_covered_iff_both_polarities_witness :
    (fun k => if k = ((⟨[], "comb", 0⟩ : CovId), "T") then 1 else 0) (⟨[], "comb", 0⟩, "T") > 0
    ∧ (fun k => if k = ((⟨[], "comb", 0⟩ : CovId), "T") then 1 else 0) (⟨[], "comb", 0⟩, "F") = 0
    ∧ ({ rid := reprCovId ⟨[], "comb", 0⟩, rname := "nm", rtype := "expr",
         true_hits := 1, false_hits := 0, covered := false } : ExprRecord)
        ∈ (emit_expr_summary [(⟨[], "comb", 0⟩, "nm", "expr")]
            (fun k => if k = ((⟨[], "comb", 0⟩ : CovId), "T") then 1 else 0)).2 := by
  refine ⟨by decide, by decide, ?_⟩
  have h := (c7_expr_covered_iff_both_polarities [(⟨[], "comb", 0⟩, "nm", "expr")]
    (fun k => if k = ((⟨[], "comb", 0⟩ : CovId), "T") then 1 else 0)).2.2
    (⟨[], "comb", 0⟩, "nm", "expr") (by decide) (by decide) (by decide)
  simpa using h

/-! ### Correctness of `_pattern_to_mask_value` (C9) -/

/-- Whether a pattern character constrains its bit position (sets the mask
bit): `0` and `1` do, `-` does not. -/
def maskBitC (c : Char) : Bool := c == '0' || c == '1'

/-- Whether a pattern character requires a one bit. -/
def valueBitC (c : Char) : Bool := c == '1'

lemma maskValueStep_eq (mv : Nat × Nat) (c : Char) :
    maskValueStep mv c
      = (2 * mv.1 + (if maskBitC c then 1 else 0),
         2 * mv.2 + (if valueBitC c then 1 else 0)) := by
  by_cases h0 : c = '-'
  · simp [maskValueStep, maskBitC, valueBitC, h0]
    constructor <;> omega
  · by_cases h1 : c = '0'
    · simp [maskValueStep, maskBitC, valueBitC, h1]
      constructor <;> omega
    · by_cases h2 : c = '1'
      · simp [maskValueStep, maskBitC, valueBitC, h2]
        constructor <;> omega
      · simp [maskValueStep, maskBitC, valueBitC, h0, h1, h2]
        constructor <;> omega

lemma getD_append_lt {α : Type} (d : α) :
    ∀ (l1 l2 : List α) (i : Nat), i < l1.length → (l1 ++ l2).getD i d = l1.getD i d := by
  intro l1
  induction l1 with
  | nil => intro l2 i h; simp at h
  | cons a rest ih =>
    intro l2 i h
    cases i with
    | zero => rfl
    | succ j =>
      simp only [List.cons_append, List.getD_cons_succ]
      exact ih l2 j (by simp only [List.length_cons] at h; omega)

lemma getD_append_len {α : Type} (d a : α) :
    ∀ (l1 : List α), (l1 ++ [a]).getD l1.length d = a := by
  intro l1
  induction l1 with
  | nil => rfl
  | cons b rest ih =>
    simp only [List.cons_append, List.length_cons, List.getD_cons_succ]
    exact ih

lemma two_mul_add_testBit_zero (M b : Nat) (hb : b < 2) :
    (2 * M + b).testBit 0 = decide (b = 1) := by
  rw [Nat.testBit_zero]
  have : (2 * M + b) % 2 = b := by omega
  rw [this]

lemma two_mul_add_testBit_succ (M b j : Nat) (hb : b < 2) :
    (2 * M + b).testBit (j + 1) = M.testBit j := by
  rw [Nat.testBit_succ]
  have : (2 * M + b) / 2 = M := by omega
  rw [this]

lemma mask_value_testBit :
    ∀ (cs : List Char) (j : Nat),
      ((cs.foldl maskValueStep (0, 0)).1.testBit j
        = (decide (j < cs.length) && maskBitC (cs.getD (cs.length - 1 - j) '-')))
      ∧ ((cs.foldl maskValueStep (0, 0)).2.testBit j
        = (decide (j < cs.length) && valueBitC (cs.getD (cs.length - 1 - j) '-'))) := by
  intro cs
  induction cs using List.reverseRecOn with
  | nil => intro j; simp
  | append_singleton cs c ih =>
    intro j
    rw [List.foldl_append]
    simp only [List.foldl_cons, List.foldl_nil]
    rw [maskValueStep_eq]
    cases j with
    | zero =>
      have hidx : (cs ++ [c]).length - 1 - 0 = cs.length := by simp
      rw [hidx, getD_append_len]
      constructor
      · rw [two_mul_add_testBit_zero _ _ (by split <;> omega)]
        simp only [List.length_append, List.length_singleton]
        rw [decide_eq_true (by omega : 0 < cs.length + 1)]
        by_cases hm : maskBitC c <;> simp [hm]
      · rw [two_mul_add_testBit_zero _ _ (by split <;> omega)]
        simp only [List.length_append, List.length_singleton]
        rw [decide_eq_true (by omega : 0 < cs.length + 1)]
        by_cases hm : valueBitC c <;> simp [hm]
    | succ j =>
      have hlen : (cs ++ [c]).length = cs.length + 1 := by simp
      rw [hlen]
      have hd1 : (decide (j + 1 < cs.length + 1)) = (decide (j < cs.length)) := by
        by_cases h : j < cs.length <;> simp [h]
      constructor
      · rw [two_mul_add_testBit_succ _ _ _ (by split <;> omega), (ih j).1, hd1]
        by_cases h : j < cs.length
        · have hidx : cs.length + 1 - 1 - (j + 1) = cs.length - 1 - j := by omega
          rw [hidx, getD_append_lt _ cs [c] (cs.length - 1 - j) (by omega)]
        · simp [h]
      · rw [two_mul_add_testBit_succ _ _ _ (by split <;> omega), (ih j).2, hd1]
        by_cases h : j < cs.length
        · have hidx : cs.length + 1 - 1 - (j + 1) = cs.length - 1 - j := by omega
          rw [hidx, getD_append_lt _ cs [c] (cs.length - 1 - j) (by omega)]
        · simp [h]

/-- Positional constraint of one pattern character on one bit of `t`. -/
def patBitOk (c : Char) (b : Bool) : Prop :=
  (c = '0' → b = false) ∧ (c = '1' → b = true)

/-- `t` matches the pattern positionally: reading the pattern MSB-first,
character `i` constrains bit `width - 1 - i` of `t` (`-` is a don't-care). -/
def patMatchesAt (s : String) (width t : Nat) : Prop :=
  ∀ i, i < s.data.length → patBitOk (s.data.getD i '-') (t.testBit (width - 1 - i))

lemma getD_mem {α : Type} (d : α) :
    ∀ (l : List α) (i : Nat), i < l.length → l.getD i d ∈ l := by
  intro l
  induction l with
  | nil => intro i h; simp at h
  | cons a rest ih =>
    intro i h
    cases i with
    | zero => simp
    | succ j =>
      simp only [List.getD_cons_succ]
      exact List.mem_cons_of_mem a (ih j (by simp only [List.length_cons] at h; omega))

lemma pattern_mask_value_correct (s : String) (width : Nat)
    (hfull : fullmatch01dash s = true) (hlen : s.length = width) :
    ∀ t : Nat,
      ((t &&& (s.data.foldl maskValueStep (0, 0)).1)
          = (s.data.foldl maskValueStep (0, 0)).2)
        ↔ patMatchesAt s width t := by
  intro t
  have hlen' : s.data.length = width := hlen
  have hchars : ∀ c ∈ s.data, c = '0' ∨ c = '1' ∨ c = '-' := by
    intro c hc
    have := (List.all_eq_true.mp ((Bool.and_eq_true _ _).mp hfull).2) c hc
    simp only [Bool.or_eq_true, beq_iff_eq] at this
    tauto
  constructor
  · intro h i hi
    have hbit := congrArg (fun x => x.testBit (s.data.length - 1 - i)) h
    simp only [Nat.testBit_land] at hbit
    rw [(mask_value_testBit s.data (s.data.length - 1 - i)).1,
      (mask_value_testBit s.data (s.data.length - 1 - i)).2] at hbit
    have hj : s.data.length - 1 - i < s.data.length := by omega
    have hidx : s.data.length - 1 - (s.data.length - 1 - i) = i := by omega
    rw [decide_eq_true hj, hidx, Bool.true_and, Bool.true_and] at hbit
    have hw : width - 1 - i = s.data.length - 1 - i := by omega
    rw [hw]
    constructor
    · intro h0
      rw [h0] at hbit
      simp only [maskBitC, valueBitC] at hbit
      simp at hbit
      simpa using hbit
    · intro h1
      rw [h1] at hbit
      simp only [maskBitC, valueBitC] at hbit
      simpa using hbit
  · intro h
    apply Nat.eq_of_testBit_eq
    intro j
    rw [Nat.testBit_land, (mask_value_testBit s.data j).1, (mask_value_testBit s.data j).2]
    by_cases hj : j < s.data.length
    · rw [decide_eq_true hj, Bool.true_and, Bool.true_and]
      have hi : s.data.length - 1 - j < s.data.length := by omega
      have hidx : width - 1 - (s.data.length - 1 - j) = j := by omega
      have hp := h (s.data.length - 1 - j) hi
      rw [hidx] at hp
      rcases hchars (s.data.getD (s.data.length - 1 - j) '-')
          (getD_mem '-' s.data _ hi) with hc | hc | hc
      · rw [hc] at hp ⊢
        rw [hp.1 rfl]
        simp [maskBitC, valueBitC]
      · rw [hc] at hp ⊢
        rw [hp.2 rfl]
        simp [maskBitC, valueBitC]
      · rw [hc]
        simp [maskBitC, valueBitC]
    · rw [decide_eq_false hj]
      simp only [Bool.false_and, Bool.and_false]

/-- C9: the empty pattern string is composed solely of the characters
`0`, `1`, `-` (vacuously) and has length equal to width 0, yet
`_pattern_to_mask_value` raises `ValueError` on it (its regex is
`[01-]+`, requiring at least one character), contradicting the claim that
every such string yields a `(mask, value)` pair. -/
theorem c9_counterexample :
    ("".data.all (fun c => c == '0' || c == '1' || c == '-')) = true
    ∧ "".length = 0
    ∧ _pattern_to_mask_value "" 0 = .error "Unsupported switch pattern string" :=
  ⟨by decide, rfl, rfl⟩

/-- C9 (amended): for every NONEMPTY pattern string composed solely of
`0`, `1` and `-` whose length equals the width (i.e. matching the regex
`[01-]+`), `_pattern_to_mask_value` returns `(mask, value)` such that for
every `t` representable in the width, `t &&& mask = value` holds iff `t`
matches the pattern positionally (`0` forces a zero bit, `1` a one bit,
`-` is unconstrained); for every string failing the regex (including the
empty string) or of a different length it raises `ValueError`. -/
theorem c9_pattern_to_mask_value (s : String) (width : Nat) :
    (fullmatch01dash s = true → s.length = width →
      ∃ mask value, _pattern_to_mask_value s width = .ok (mask, value)
        ∧ ∀ t, t < 2 ^ width → ((t &&& mask) = value ↔ patMatchesAt s width t))
    ∧ ((fullmatch01dash s = false ∨ s.length ≠ width) →
        ∃ msg, _pattern_to_mask_value s width = .error msg) := by
  constructor
  · intro hfull hlen
    refine ⟨(s.data.foldl maskValueStep (0, 0)).1, (s.data.foldl maskValueStep (0, 0)).2,
      ?_, ?_⟩
    · simp only [_pattern_to_mask_value, hfull, Bool.not_true, Bool.false_eq_true,
        if_false, hlen]
      simp
    · intro t _
      exact pattern_mask_value_correct s width hfull hlen t
  · intro h
    rcases h with h | h
    · exact ⟨"Unsupported switch pattern string", by
        simp [_pattern_to_mask_value, h]⟩
    · by_cases hfull : fullmatch01dash s = true
      · exact ⟨"Pattern width mismatch", by
          simp [_pattern_to_mask_value, hfull, h]⟩
      · exact ⟨"Unsupported switch pattern string", by
          simp only [Bool.not_eq_true] at hfull
          simp [_pattern_to_mask_value, hfull]⟩

/-- Witness for `c9_pattern_to_mask_value`: the pattern `"1-0"` at width 3
yields mask 0b101 and value 0b100; `t = 6 = 0b110` matches it. -/
theorem c9_pattern_to_mask_value_witness :
    fullmatch01dash "1-0" = true
    ∧ "1-0".length = 3
    ∧ (∃ mask value, _pattern_to_mask_value "1-0" 3 = .ok (mask, value)
        ∧ ∀ t, t < 2 ^ 3 → ((t &&& mask) = value ↔ patMatchesAt "1-0" 3 t)) :=
  ⟨by decide, by decide, (c9_pattern_to_mask_value "1-0" 3).1 (by decide) (by decide)⟩

/-- C8: the claim says a case pattern string not composed solely of
`0`/`1`/`-` makes the injection step raise.  The pattern `"2"` contains
the character `2`, yet `_match_case` resolves it without error: `int("2")`
succeeds, so the pattern is silently treated as the decimal constant 2
(truncated to the test's width) instead of raising. -/
theorem c8_counterexample :
    ("2".data.all (fun c => c == '0' || c == '1' || c == '-')) = false
    ∧ _match_case (.signal 0 none "t" 1) (.pstr "2")
        = .ok (.opEq 0 none (.signal 0 none "t" 1) (.econst 0 none 0 1)) :=
  ⟨by decide, rfl⟩

/-- C8 (amended): `_match_case` raises an error exactly when the pattern
is a string that does not parse as a Python decimal integer AND either
fails the `[01-]+` regex or has a length different from the test
expression's width; every other pattern — including digit strings
containing characters outside `{0,1,-}` or of the wrong length, which are
silently resolved as decimal constants — is resolved without error. -/
theorem c8_match_case_error_iff (test : Expr) (p : Pat) :
    (∃ msg, _match_case test p = .error msg)
      ↔ (∃ s, p = .pstr s ∧ pyIntParse s = none
          ∧ (fullmatch01dash s = false ∨ s.length ≠ test.width)) := by
  cases p with
  | pconst v w =>
    simp only [_match_case]
    constructor
    · rintro ⟨msg, h⟩
      exact absurd h (by simp)
    · rintro ⟨s, hs, _⟩
      exact absurd hs (by simp)
  | pint n =>
    simp only [_match_case]
    constructor
    · rintro ⟨msg, h⟩
      exact absurd h (by simp)
    · rintro ⟨s, hs, _⟩
      exact absurd hs (by simp)
  | pstr s =>
    simp only [_match_case]
    cases hp : pyIntParse s with
    | some n =>
      constructor
      · rintro ⟨msg, h⟩
        exact absurd h (by simp)
      · rintro ⟨s', hs, hparse, _⟩
        cases hs
        rw [hp] at hparse
        exact absurd hparse (by simp)
    | none =>
      cases hm : _pattern_to_mask_value s test.width with
      | error e =>
        constructor
        · intro _
          refine ⟨s, rfl, hp, ?_⟩
          by_cases hfull : fullmatch01dash s = true
          · by_cases hlen : s.length = test.width
            · exfalso
              have : _pattern_to_mask_value s test.width
                  = .ok (s.data.foldl maskValueStep (0, 0)) := by
                simp [_pattern_to_mask_value, hfull, hlen]
              rw [this] at hm
              exact absurd hm (by simp)
            · exact Or.inr hlen
          · exact Or.inl (by simpa using hfull)
        · intro _
          exact ⟨e, rfl⟩
      | ok mv =>
        constructor
        · rintro ⟨msg, h⟩
          exact absurd h (by simp)
        · rintro ⟨s', hs, _, hcond⟩
          cases hs
          exfalso
          rcases hcond with h | h
          · rw [show _pattern_to_mask_value s test.width
                = .error "Unsupported switch pattern string" by
              simp [_pattern_to_mask_value, h]] at hm
            exact absurd hm (by simp)
          · by_cases hfull : fullmatch01dash s = true
            · rw [show _pattern_to_mask_value s test.width
                  = .error "Pattern width mismatch" by
                simp [_pattern_to_mask_value, hfull, h]] at hm
              exact absurd hm (by simp)
            · rw [show _pattern_to_mask_value s test.width
                  = .error "Unsupported switch pattern string" by
                simp only [Bool.not_eq_true] at hfull
                simp [_pattern_to_mask_value, hfull]] at hm
              exact absurd hm (by simp)

/-- Witness for `c8_match_case_error_iff`: the pattern `"a-"` neither
parses as an integer nor matches `[01-]+`, so matching it against a 1-bit
test raises. -/
theorem c8_match_case_error_iff_witness :
    ∃ msg, _match_case (.signal 0 none "t" 1) (.pstr "a-") = .error msg :=
  (c8_match_case_error_iff (.signal 0 none "t" 1) (.pstr "a-")).mpr
    ⟨"a-", rfl, by decide, Or.inl (by decide)⟩

/-! ### `_walk_stmt` over arbitrary finite object graphs (C10)

`_iter_child_objs` enumerates an object's child objects by reflection, so
the reachable structure is an arbitrary directed graph over object
identities (`id(obj)`), possibly with sharing and cycles.  The graph is
modelled by its adjacency `ch : Nat → List Nat` on ids below a bound `N`.
`_walk_stmt`'s recursion is modelled fuel-indexed (`none` = recursion
still running at that depth); fuel `N + 1` is proven sufficient, which is
the termination claim. -/

mutual

/-- `_walk_stmt(stmt, visit, _seen)`: skip already-seen ids, otherwise add
to `seen`, visit (the returned list is the visit order), and recurse into
the children. -/
def walkStmtFuel : Nat → (Nat → List Nat) → Nat → Finset Nat →
    Option (Finset Nat × List Nat)
  | 0, _, _, _ => none
  | fuel + 1, ch, oid, seen =>
    if oid ∈ seen then some (seen, [])
    else
      match walkChildrenFuel fuel ch (ch oid) (insert oid seen) with
      | none => none
      | some r => some (r.1, oid :: r.2)

/-- The `for child in _iter_child_objs(stmt)` loop, threading the shared
`seen` set. -/
def walkChildrenFuel : Nat → (Nat → List Nat) → List Nat → Finset Nat →
    Option (Finset Nat × List Nat)
  | _, _, [], seen => some (seen, [])
  | fuel, ch, c :: rest, seen =>
    match walkStmtFuel fuel ch c seen with
    | none => none
    | some r1 =>
      match walkChildrenFuel fuel ch rest r1.1 with
      | none => none
      | some r2 => some (r2.1, r1.2 ++ r2.2)

end

mutual

theorem walkStmtFuel_props : ∀ (fuel : Nat) (ch : Nat → List Nat) (oid : Nat)
    (seen s' : Finset Nat) (l : List Nat),
    walkStmtFuel fuel ch oid seen = some (s', l) →
    seen ⊆ s' ∧ (∀ x ∈ l, x ∉ seen) ∧ l.Nodup ∧ (∀ x ∈ l, x ∈ s')
  | 0, ch, oid, seen, s', l, h => by simp [walkStmtFuel] at h
  | fuel + 1, ch, oid, seen, s', l, h => by
    simp only [walkStmtFuel] at h
    by_cases hs : oid ∈ seen
    · rw [if_pos hs] at h
      simp only [Option.some.injEq, Prod.mk.injEq] at h
      obtain ⟨h1, h2⟩ := h
      subst h1
      subst h2
      exact ⟨Finset.Subset.refl _, by simp, by simp, by simp⟩
    · rw [if_neg hs] at h
      cases hc : walkChildrenFuel fuel ch (ch oid) (insert oid seen) with
      | none => rw [hc] at h; exact absurd h (by simp)
      | some r => 
        rw [hc] at h
        simp only [Option.some.injEq, Prod.mk.injEq] at h
        obtain ⟨h1, h2⟩ := h
        subst h1
        subst h2
        obtain ⟨hsub, hdisj, hnd, hmem⟩ :=
          walkChildrenFuel_props fuel ch (ch oid) (insert oid seen) r.1 r.2 hc
        refine ⟨?_, ?_, ?_, ?_⟩
        · exact fun x hx => hsub (Finset.mem_insert_of_mem hx)
        · intro x hx
          rcases List.mem_cons.mp hx with h | h
          · exact h ▸ hs
          · exact fun hxs => hdisj x h (Finset.mem_insert_of_mem hxs)
        · rw [List.nodup_cons]
          exact ⟨fun hin => hdisj oid hin (Finset.mem_insert_self _ _), hnd⟩
        · intro x hx
          rcases List.mem_cons.mp hx with h | h
          · exact h ▸ hsub (Finset.mem_insert_self _ _)
          · exact hmem x h

theorem walkChildrenFuel_props : ∀ (fuel : Nat) (ch : Nat → List Nat) (ws : List Nat)
    (seen s' : Finset Nat) (l : List Nat),
    walkChildrenFuel fuel ch ws seen = some (s', l) →
    seen ⊆ s' ∧ (∀ x ∈ l, x ∉ seen) ∧ l.Nodup ∧ (∀ x ∈ l, x ∈ s')
  | fuel, ch, [], seen, s', l, h => by
    simp only [walkChildrenFuel, Option.some.injEq, Prod.mk.injEq] at h
    obtain ⟨h1, h2⟩ := h
    subst h1
    subst h2
    exact ⟨Finset.Subset.refl _, by simp, by simp, by simp⟩
  | fuel, ch, c :: rest, seen, s', l, h => by
    simp only [walkChildrenFuel] at h
    cases h1 : walkStmtFuel fuel ch c seen with
    | none => rw [h1] at h; exact absurd h (by simp)
    | some r1 =>
      simp only [h1] at h
      cases h2 : walkChildrenFuel fuel ch rest r1.1 with
      | none => simp only [h2] at h; exact absurd h (by simp)
      | some r2 =>
        simp only [h2] at h
        simp only [Option.some.injEq, Prod.mk.injEq] at h
        obtain ⟨h3, h4⟩ := h
        subst h3
        subst h4
        obtain ⟨hsub1, hdisj1, hnd1, hmem1⟩ :=
          walkStmtFuel_props fuel ch c seen r1.1 r1.2 h1
        obtain ⟨hsub2, hdisj2, hnd2, hmem2⟩ :=
          walkChildrenFuel_props fuel ch rest r1.1 r2.1 r2.2 h2
        refine ⟨fun x hx => hsub2 (hsub1 hx), ?_, ?_, ?_⟩
        · intro x hx
          rcases List.mem_append.mp hx with h | h
          · exact hdisj1 x h
          · exact fun hxs => hdisj2 x h (hsub1 hxs)
        · rw [List.nodup_append]
          refine ⟨hnd1, hnd2, ?_⟩
          intro x hx1 hx2
          exact hdisj2 x hx2 (hmem1 x hx1)
        · intro x hx
          rcases List.mem_append.mp hx with h | h
          · exact hsub2 (hmem1 x h)
          · exact hmem2 x h

end

mutual

theorem walkStmtFuel_some : ∀ (fuel : Nat) (ch : Nat → List Nat) (N oid : Nat)
    (seen : Finset Nat),
    oid < N → (∀ i j, j ∈ ch i → j < N) → seen ⊆ Finset.range N →
    N - seen.card < fuel →
    ∃ s' l, walkStmtFuel fuel ch oid seen = some (s', l)
      ∧ seen ⊆ s' ∧ s' ⊆ Finset.range N
  | 0, ch, N, oid, seen, _, _, _, hfuel => by omega
  | fuel + 1, ch, N, oid, seen, hoid, hch, hsub, hfuel => by
    by_cases hs : oid ∈ seen
    · exact ⟨seen, [], by simp only [walkStmtFuel, if_pos hs], Finset.Subset.refl _, hsub⟩
    · have hsub1 : insert oid seen ⊆ Finset.range N := by
        intro x hx
        rcases Finset.mem_insert.mp hx with h | h
        · exact h ▸ Finset.mem_range.mpr hoid
        · exact hsub h
      have hcard : seen.card < N := by
        have hss : seen ⊂ Finset.range N :=
          (Finset.ssubset_iff_of_subset hsub).mpr
            ⟨oid, Finset.mem_range.mpr hoid, hs⟩
        have := Finset.card_lt_card hss
        simpa [Finset.card_range] using this
      have hcard1 : (insert oid seen).card = seen.card + 1 :=
        Finset.card_insert_of_not_mem hs
      obtain ⟨s1, l1, h1, hs1, hr1⟩ :=
        walkChildrenFuel_some fuel ch N (ch oid) (insert oid seen)
          (fun j hj => hch oid j hj) hch hsub1 (by omega)
      refine ⟨s1, oid :: l1, ?_, ?_, hr1⟩
      · simp only [walkStmtFuel, if_neg hs, h1]
      · exact fun x hx => hs1 (Finset.mem_insert_of_mem hx)

theorem walkChildrenFuel_some : ∀ (fuel : Nat) (ch : Nat → List Nat) (N : Nat)
    (ws : List Nat) (seen : Finset Nat),
    (∀ j ∈ ws, j < N) → (∀ i j, j ∈ ch i → j < N) → seen ⊆ Finset.range N →
    N - seen.card < fuel →
    ∃ s' l, walkChildrenFuel fuel ch ws seen = some (s', l)
      ∧ seen ⊆ s' ∧ s' ⊆ Finset.range N
  | fuel, ch, N, [], seen, _, _, hsub, _ =>
    ⟨seen, [], by simp [walkChildrenFuel], Finset.Subset.refl _, hsub⟩
  | fuel, ch, N, c :: rest, seen, hws, hch, hsub, hfuel => by
    obtain ⟨s1, l1, h1, hs1, hr1⟩ :=
      walkStmtFuel_some fuel ch N c seen (hws c (by simp)) hch hsub hfuel
    have hcard : seen.card ≤ s1.card := Finset.card_le_card hs1
    obtain ⟨s2, l2, h2, hs2, hr2⟩ :=
      walkChildrenFuel_some fuel ch N rest s1
        (fun j hj => hws j (by simp [hj])) hch hr1 (by omega)
    refine ⟨s2, l1 ++ l2, ?_, fun x hx => hs2 (hs1 hx), hr2⟩
    simp only [walkChildrenFuel, h1, h2]

end

/-- C10: on every finite object graph reachable from a statement node —
including graphs with shared substructure or cycles — `_walk_stmt`
terminates (fuel `N + 1` suffices for ids bounded by `N`, i.e. the
recursion never exceeds that depth) and the visit order contains no id
twice: the visitor is invoked at most once per distinct object, because
already-seen ids are skipped via the `seen` set. -/
theorem c10_walk_stmt_terminates_visits_once (N : Nat) (ch : Nat → List Nat)
    (oid : Nat) (hoid : oid < N) (hch : ∀ i j, j ∈ ch i → j < N) :
    ∃ seen visits, walkStmtFuel (N + 1) ch oid ∅ = some (seen, visits)
      ∧ visits.Nodup := by
  obtain ⟨s', l, h, _, _⟩ :=
    walkStmtFuel_some (N + 1) ch N oid ∅ hoid hch (by simp) (by simp)
  obtain ⟨_, _, hnd, _⟩ := walkStmtFuel_props (N + 1) ch oid ∅ s' l h
  exact ⟨s', l, h, hnd⟩

/-- Witness for `c10_walk_stmt_terminates_visits_once`: a two-node cyclic
graph (0 → 1 → 0). -/
theorem c10_walk_stmt_terminates_visits_once_witness :
    (0 < 2 ∧ ∀ i j, j ∈ (fun i => if i = 0 then [1] else if i = 1 then [0] else ([] : List Nat)) i → j < 2)
    ∧ ∃ seen visits,
        walkStmtFuel 3 (fun i => if i = 0 then [1] else if i = 1 then [0] else []) 0 ∅
          = some (seen, visits) ∧ visits.Nodup :=
  ⟨⟨by decide, by
      intro i j hj
      by_cases h0 : i = 0
      · simp [h0] at hj
        omega
      · by_cases h1 : i = 1
        · simp [h0, h1] at hj
          omega
        · simp [h0, h1] at hj⟩,
    c10_walk_stmt_terminates_visits_once 2
      (fun i => if i = 0 then [1] else if i = 1 then [0] else []) 0 (by decide)
      (by
        intro i j hj
        by_cases h0 : i = 0
        · simp [h0] at hj
          omega
        · by_cases h1 : i = 1
          · simp [h0, h1] at hj
            omega
          · simp [h0, h1] at hj)⟩

/-! ### Address-independence of the taggers (C3)

Two structurally identical design trees — in particular the same design
elaborated in two separate process invocations — differ only in the
memory addresses (`id(...)`) of their objects and lists.  `readdrE` /
`readdrS` / `readdrF` re-address a tree by an arbitrary function on
addresses; the theorems below show every tagger's (counter, info) output,
i.e. all coverage identities and human-readable descriptors, is invariant
under re-addressing. -/

def readdrE (f : Nat → Nat) : Expr → Expr
  | .signal a ec n w => .signal (f a) ec n w
  | .econst a ec v w => .econst (f a) ec v w
  | .slice a ec v s t => .slice (f a) ec (readdrE f v) s t
  | .opNot a ec x => .opNot (f a) ec (readdrE f x)
  | .opAnd a ec x y => .opAnd (f a) ec (readdrE f x) (readdrE f y)
  | .opOr a ec x y => .opOr (f a) ec (readdrE f x) (readdrE f y)
  | .opEq a ec x y => .opEq (f a) ec (readdrE f x) (readdrE f y)
  | .opNe a ec x y => .opNe (f a) ec (readdrE f x) (readdrE f y)

mutual

def readdrS (f : Nat → Nat) : Stmt → Stmt
  | .assign a sl lhs rhs covId cn ct inj =>
    .assign (f a) sl (readdrE f lhs) (readdrE f rhs) covId cn ct inj
  | .switch a sl test cases covId cn ct caseIds bci inj =>
    .switch (f a) sl (readdrE f test) (readdrC f cases) covId cn ct caseIds
      (bci.map (fun p => (f p.1, p.2))) inj
  | .formal a sl kind cond aid an at_ =>
    .formal (f a) sl kind (readdrE f cond) aid an at_

def readdrL (f : Nat → Nat) : List Stmt → List Stmt
  | [] => []
  | s :: rest => readdrS f s :: readdrL f rest

def readdrC (f : Nat → Nat) : List SwCase → List SwCase
  | [] => []
  | (pats, baddr, body, csl) :: rest =>
    (pats, f baddr, readdrL f body, csl) :: readdrC f rest

end

mutual

def readdrF (f : Nat → Nat) : Fragment → Fragment
  | .mk stmts subs bci =>
    .mk (readdrD f stmts) (readdrSub f subs) (bci.map (fun p => (f p.1, p.2)))

def readdrD (f : Nat → Nat) : List (String × Nat × List Stmt) →
    List (String × Nat × List Stmt)
  | [] => []
  | (dom, la, l) :: rest => (dom, f la, readdrL f l) :: readdrD f rest

def readdrSub (f : Nat → Nat) : List (Fragment × Option String) →
    List (Fragment × Option String)
  | [] => []
  | (fr, nm) :: rest => (readdrF f fr, nm) :: readdrSub f rest

end

lemma width_readdr (f : Nat → Nat) : ∀ e : Expr, (readdrE f e).width = e.width := by
  intro e
  induction e <;> simp_all [readdrE, Expr.width]

lemma reprExpr_readdr (f : Nat → Nat) : ∀ e : Expr, reprExpr (readdrE f e) = reprExpr e := by
  intro e
  induction e <;> simp_all [readdrE, reprExpr]

lemma exprName_readdr (f : Nat → Nat) : ∀ e : Expr, _expr_name (readdrE f e) = _expr_name e := by
  intro e
  induction e with
  | signal a ec n w => rfl
  | econst a ec v w => rfl
  | slice a ec v s t ih => simp [readdrE, _expr_name, ih]
  | opNot a ec x ih =>
    simp only [readdrE, _expr_name]
    exact reprExpr_readdr f (.opNot a ec x)
  | opAnd a ec x y ihx ihy =>
    simp only [readdrE, _expr_name]
    exact reprExpr_readdr f (.opAnd a ec x y)
  | opOr a ec x y ihx ihy =>
    simp only [readdrE, _expr_name]
    exact reprExpr_readdr f (.opOr a ec x y)
  | opEq a ec x y ihx ihy =>
    simp only [readdrE, _expr_name]
    exact reprExpr_readdr f (.opEq a ec x y)
  | opNe a ec x y ihx ihy =>
    simp only [readdrE, _expr_name]
    exact reprExpr_readdr f (.opNe a ec x y)

lemma readdrC_length (f : Nat → Nat) : ∀ cs : List SwCase, (readdrC f cs).length = cs.length
  | [] => rfl
  | (_, _, _, _) :: rest => by simp [readdrC, readdrC_length f rest]

lemma switch_case_infos_readdr (f : Nat → Nat) (pp : HPath) (dom : String)
    (c : Option CovId) (sl : Option SrcLoc) :
    ∀ (k : Nat) (cs : List SwCase),
      switch_case_infos pp dom c sl k (readdrC f cs) = switch_case_infos pp dom c sl k cs
  | _, [] => rfl
  | k, (pats, baddr, body, csl) :: rest => by
    simp only [readdrC, switch_case_infos]
    rw [switch_case_infos_readdr f pp dom c sl (k + 1) rest]

mutual

/-- The statement-facet tagger commutes with re-addressing: tagging a
re-addressed tree yields the re-addressed tagged tree with the same
counter and the same (identity, descriptor) info. -/
theorem tag_stmt_one_readdr : ∀ (f : Nat → Nat) (pp : HPath) (dom : String) (k : Nat) (s : Stmt),
    tag_stmt_one pp dom k (readdrS f s)
      = (readdrS f (tag_stmt_one pp dom k s).1, (tag_stmt_one pp dom k s).2)
  | f, pp, dom, k, .assign a sl lhs rhs covId cn ct inj => by
    cases covId <;>
      simp [tag_stmt_one, readdrS, get_assign_name, exprName_readdr]
  | f, pp, dom, k, .switch a sl test cases covId cn ct caseIds bci inj => by
    cases covId with
    | some cid => simp [tag_stmt_one, readdrS]
    | none =>
      simp only [tag_stmt_one, readdrS]
      rw [switch_case_infos_readdr, readdrC_length,
        tag_case_list_readdr f pp dom (k + 1 + cases.length) cases]
  | f, pp, dom, k, .formal a sl kind cond aid an at_ => by
    simp [tag_stmt_one, readdrS]

theorem tag_stmt_list_readdr : ∀ (f : Nat → Nat) (pp : HPath) (dom : String) (k : Nat)
    (l : List Stmt),
    tag_stmt_list pp dom k (readdrL f l)
      = (readdrL f (tag_stmt_list pp dom k l).1, (tag_stmt_list pp dom k l).2)
  | f, pp, dom, k, [] => by simp [tag_stmt_list, readdrL]
  | f, pp, dom, k, s :: rest => by
    simp only [tag_stmt_list, readdrL]
    rw [tag_stmt_one_readdr f pp dom k s,
      tag_stmt_list_readdr f pp dom (tag_stmt_one pp dom k s).2.1 rest]

theorem tag_case_list_readdr : ∀ (f : Nat → Nat) (pp : HPath) (dom : String) (k : Nat)
    (cs : List SwCase),
    tag_case_list pp dom k (readdrC f cs)
      = (readdrC f (tag_case_list pp dom k cs).1, (tag_case_list pp dom k cs).2)
  | f, pp, dom, k, [] => by simp [tag_case_list, readdrC]
  | f, pp, dom, k, (pats, baddr, body, csl) :: rest => by
    simp only [tag_case_list, readdrC]
    rw [tag_stmt_list_readdr f pp dom k body,
      tag_case_list_readdr f pp dom (tag_stmt_list pp dom k body).2.1 rest]

end

mutual

theorem tag_all_statements_readdr : ∀ (f : Nat → Nat) (fr : Fragment) (k : Nat) (pp : HPath),
    tag_all_statements (readdrF f fr) k pp
      = (readdrF f (tag_all_statements fr k pp).1, (tag_all_statements fr k pp).2)
  | f, .mk stmts subs bci, k, pp => by
    simp only [tag_all_statements, readdrF]
    rw [tag_stmt_domains_readdr f pp k stmts,
      tag_stmt_subfrags_readdr f pp (tag_stmt_domains pp k stmts).2.1 subs]

theorem tag_stmt_domains_readdr : ∀ (f : Nat → Nat) (pp : HPath) (k : Nat)
    (ds : List (String × Nat × List Stmt)),
    tag_stmt_domains pp k (readdrD f ds)
      = (readdrD f (tag_stmt_domains pp k ds).1, (tag_stmt_domains pp k ds).2)
  | f, pp, k, [] => by simp [tag_stmt_domains, readdrD]
  | f, pp, k, (dom, la, l) :: rest => by
    simp only [tag_stmt_domains, readdrD]
    rw [tag_stmt_list_readdr f pp dom k l,
      tag_stmt_domains_readdr f pp (tag_stmt_list pp dom k l).2.1 rest]

theorem tag_stmt_subfrags_readdr : ∀ (f : Nat → Nat) (pp : HPath) (k : Nat)
    (subs : List (Fragment × Option String)),
    tag_stmt_subfrags pp k (readdrSub f subs)
      = (readdrSub f (tag_stmt_subfrags pp k subs).1, (tag_stmt_subfrags pp k subs).2)
  | f, pp, k, [] => by simp [tag_stmt_subfrags, readdrSub]
  | f, pp, k, (fr, nm) :: rest => by
    simp only [tag_stmt_subfrags, readdrSub]
    rw [tag_all_statements_readdr f fr k (pp ++ [nm]),
      tag_stmt_subfrags_readdr f pp (tag_all_statements fr k (pp ++ [nm])).2.1 rest]

end

mutual

/-- The assertion-facet tagger commutes with re-addressing. -/
theorem walk_tag_assert_one_readdr : ∀ (f : Nat → Nat) (pp : HPath) (dom : String)
    (k : Nat) (s : Stmt),
    walk_tag_assert_one pp dom k (readdrS f s)
      = (readdrS f (walk_tag_assert_one pp dom k s).1, (walk_tag_assert_one pp dom k s).2)
  | f, pp, dom, k, .assign a sl lhs rhs covId cn ct inj => by
    simp [walk_tag_assert_one, readdrS]
  | f, pp, dom, k, .switch a sl test cases covId cn ct caseIds bci inj => by
    simp only [walk_tag_assert_one, readdrS]
    rw [walk_tag_assert_cases_readdr f pp dom k cases]
  | f, pp, dom, k, .formal a sl kind cond aid an at_ => by
    cases aid <;>
      simp [walk_tag_assert_one, readdrS, get_assert_name, exprName_readdr]

theorem walk_tag_assert_list_readdr : ∀ (f : Nat → Nat) (pp : HPath) (dom : String)
    (k : Nat) (l : List Stmt),
    walk_tag_assert_list pp dom k (readdrL f l)
      = (readdrL f (walk_tag_assert_list pp dom k l).1, (walk_tag_assert_list pp dom k l).2)
  | f, pp, dom, k, [] => by simp [walk_tag_assert_list, readdrL]
  | f, pp, dom, k, s :: rest => by
    simp only [walk_tag_assert_list, readdrL]
    rw [walk_tag_assert_one_readdr f pp dom k s,
      walk_tag_assert_list_readdr f pp dom (walk_tag_assert_one pp dom k s).2.1 rest]

theorem walk_tag_assert_cases_readdr : ∀ (f : Nat → Nat) (pp : HPath) (dom : String)
    (k : Nat) (cs : List SwCase),
    walk_tag_assert_cases pp dom k (readdrC f cs)
      = (readdrC f (walk_tag_assert_cases pp dom k cs).1, (walk_tag_assert_cases pp dom k cs).2)
  | f, pp, dom, k, [] => by simp [walk_tag_assert_cases, readdrC]
  | f, pp, dom, k, (pats, baddr, body, csl) :: rest => by
    simp only [walk_tag_assert_cases, readdrC]
    rw [walk_tag_assert_list_readdr f pp dom k body,
      walk_tag_assert_cases_readdr f pp dom (walk_tag_assert_list pp dom k body).2.1 rest]

end

mutual

theorem tag_all_asserts_readdr : ∀ (f : Nat → Nat) (fr : Fragment) (k : Nat) (pp : HPath),
    tag_all_asserts (readdrF f fr) k pp
      = (readdrF f (tag_all_asserts fr k pp).1, (tag_all_asserts fr k pp).2)
  | f, .mk stmts subs bci, k, pp => by
    simp only [tag_all_asserts, readdrF]
    rw [tag_assert_domains_readdr f pp k stmts,
      tag_assert_subfrags_readdr f pp (tag_assert_domains pp k stmts).2.1 subs]

theorem tag_assert_domains_readdr : ∀ (f : Nat → Nat) (pp : HPath) (k : Nat)
    (ds : List (String × Nat × List Stmt)),
    tag_assert_domains pp k (readdrD f ds)
      = (readdrD f (tag_assert_domains pp k ds).1, (tag_assert_domains pp k ds).2)
  | f, pp, k, [] => by simp [tag_assert_domains, readdrD]
  | f, pp, k, (dom, la, l) :: rest => by
    simp only [tag_assert_domains, readdrD]
    rw [walk_tag_assert_list_readdr f pp dom k l,
      tag_assert_domains_readdr f pp (walk_tag_assert_list pp dom k l).2.1 rest]

theorem tag_assert_subfrags_readdr : ∀ (f : Nat → Nat) (pp : HPath) (k : Nat)
    (subs : List (Fragment × Option String)),
    tag_assert_subfrags pp k (readdrSub f subs)
      = (readdrSub f (tag_assert_subfrags pp k subs).1, (tag_assert_subfrags pp k subs).2)
  | f, pp, k, [] => by simp [tag_assert_subfrags, readdrSub]
  | f, pp, k, (fr, nm) :: rest => by
    simp only [tag_assert_subfrags, readdrSub]
    rw [tag_all_asserts_readdr f fr k (pp ++ [nm]),
      tag_assert_subfrags_readdr f pp (tag_all_asserts fr k (pp ++ [nm])).2.1 rest]

end

lemma srcLocOf_readdr (f : Nat → Nat) : ∀ s : Stmt, (readdrS f s).srcLocOf = s.srcLocOf := by
  intro s
  cases s <;> simp [readdrS, Stmt.srcLocOf]

lemma tag_root_blocks_readdr (f : Nat → Nat) (pp : HPath) :
    ∀ (k : Nat) (ds : List (String × Nat × List Stmt)),
      tag_root_blocks pp k (readdrD f ds)
        = ((tag_root_blocks pp k ds).1.map (fun p => (f p.1, p.2)), (tag_root_blocks pp k ds).2)
  | k, [] => by simp [tag_root_blocks, readdrD]
  | k, (dom, la, l) :: rest => by
    have hsrc : (match readdrL f l with | [] => none | s :: _ => s.srcLocOf)
        = (match l with | [] => none | s :: _ => s.srcLocOf) := by
      cases l with
      | nil => rfl
      | cons s r => simp [readdrL, srcLocOf_readdr]
    simp only [tag_root_blocks, readdrD]
    rw [hsrc, tag_root_blocks_readdr f pp (k + 1) rest]
    simp [List.map_cons]

lemma case_block_pairs_readdr (f : Nat → Nat) (pp : HPath) (dom : String) :
    ∀ (k : Nat) (cs : List SwCase),
      case_block_pairs pp dom k (readdrC f cs)
        = ((case_block_pairs pp dom k cs).1.map (fun p => (f p.1, p.2)),
            (case_block_pairs pp dom k cs).2)
  | k, [] => by simp [case_block_pairs, readdrC]
  | k, (pats, baddr, body, csl) :: rest => by
    simp only [case_block_pairs, readdrC]
    rw [case_block_pairs_readdr f pp dom (k + 1) rest]
    simp [List.map_cons]

lemma tag_case_blocks_list_readdr (f : Nat → Nat) (pp : HPath) (dom : String) :
    ∀ (k : Nat) (l : List Stmt),
      tag_case_blocks_list pp dom k (readdrL f l)
        = (readdrL f (tag_case_blocks_list pp dom k l).1, (tag_case_blocks_list pp dom k l).2)
  | k, [] => by simp [tag_case_blocks_list, readdrL]
  | k, .assign a sl lhs rhs covId cn ct inj :: rest => by
    simp only [tag_case_blocks_list, readdrL, readdrS]
    rw [tag_case_blocks_list_readdr f pp dom k rest]
  | k, .switch a sl test cases covId cn ct caseIds bci inj :: rest => by
    simp only [tag_case_blocks_list, readdrL, readdrS]
    rw [case_block_pairs_readdr f pp dom k cases,
      tag_case_blocks_list_readdr f pp dom (case_block_pairs pp dom k cases).2.1 rest]
    simp [List.map_append]
  | k, .formal a sl kind cond aid an at_ :: rest => by
    simp only [tag_case_blocks_list, readdrL, readdrS]
    rw [tag_case_blocks_list_readdr f pp dom k rest]

lemma tag_case_blocks_domains_readdr (f : Nat → Nat) (pp : HPath) :
    ∀ (k : Nat) (ds : List (String × Nat × List Stmt)),
      tag_case_blocks_domains pp k (readdrD f ds)
        = (readdrD f (tag_case_blocks_domains pp k ds).1, (tag_case_blocks_domains pp k ds).2)
  | k, [] => by simp [tag_case_blocks_domains, readdrD]
  | k, (dom, la, l) :: rest => by
    simp only [tag_case_blocks_domains, readdrD]
    rw [tag_case_blocks_list_readdr f pp dom k l,
      tag_case_blocks_domains_readdr f pp (tag_case_blocks_list pp dom k l).2.1 rest]

mutual

theorem tag_all_blocks_readdr : ∀ (f : Nat → Nat) (fr : Fragment) (k : Nat) (pp : HPath),
    tag_all_blocks (readdrF f fr) k pp
      = (readdrF f (tag_all_blocks fr k pp).1, (tag_all_blocks fr k pp).2)
  | f, .mk stmts subs bci, k, pp => by
    simp only [tag_all_blocks, readdrF]
    rw [tag_root_blocks_readdr f pp k stmts,
      tag_case_blocks_domains_readdr f pp (tag_root_blocks pp k stmts).2.1 stmts,
      tag_blocks_subfrags_readdr f pp (tag_case_blocks_domains pp
        (tag_root_blocks pp k stmts).2.1 stmts).2.1 subs]
    simp [List.map_append]

theorem tag_blocks_subfrags_readdr : ∀ (f : Nat → Nat) (pp : HPath) (k : Nat)
    (subs : List (Fragment × Option String)),
    tag_blocks_subfrags pp k (readdrSub f subs)
      = (readdrSub f (tag_blocks_subfrags pp k subs).1, (tag_blocks_subfrags pp k subs).2)
  | f, pp, k, [] => by simp [tag_blocks_subfrags, readdrSub]
  | f, pp, k, (fr, nm) :: rest => by
    simp only [tag_blocks_subfrags, readdrSub]
    rw [tag_all_blocks_readdr f fr k (pp ++ [nm]),
      tag_blocks_subfrags_readdr f pp (tag_all_blocks fr k (pp ++ [nm])).2.1 rest]

end

lemma expr_cov_name_readdr (f : Nat → Nat) (src dom : String) (e : Expr) :
    expr_cov_name src dom (readdrE f e) = expr_cov_name src dom e := by
  simp [expr_cov_name, exprName_readdr]

lemma tag_expr_tree_readdr (f : Nat → Nat) (src dom : String) (pp : HPath) :
    ∀ (e : Expr) (k : Nat),
      tag_expr_tree src dom pp k (readdrE f e)
        = (readdrE f (tag_expr_tree src dom pp k e).1, (tag_expr_tree src dom pp k e).2) := by
  intro e
  induction e with
  | signal a ec n w =>
    intro k
    have hname : expr_cov_name src dom (Expr.signal (f a) none n w)
        = expr_cov_name src dom (Expr.signal a none n w) :=
      expr_cov_name_readdr f src dom (Expr.signal a none n w)
    rcases ec with _ | c <;> by_cases hw : (w == 1) = true <;>
      simp [tag_expr_tree, readdrE, hw, hname]
  | econst a ec v w =>
    intro k
    have hname : expr_cov_name src dom (Expr.econst (f a) none v w)
        = expr_cov_name src dom (Expr.econst a none v w) :=
      expr_cov_name_readdr f src dom (Expr.econst a none v w)
    rcases ec with _ | c <;> by_cases hw : (w == 1) = true <;>
      simp [tag_expr_tree, readdrE, hw, hname]
  | slice a ec val s t ih =>
    intro k
    have hname : expr_cov_name src dom (Expr.slice (f a) none (readdrE f val) s t)
        = expr_cov_name src dom (Expr.slice a none val s t) :=
      expr_cov_name_readdr f src dom (Expr.slice a none val s t)
    rcases ec with _ | c <;> by_cases hw : ((t - s) == 1) = true <;>
      simp [tag_expr_tree, readdrE, hw, hname, ih]
  | opNot a ec x ih =>
    intro k
    have hname : expr_cov_name src dom (Expr.opNot (f a) none (readdrE f x))
        = expr_cov_name src dom (Expr.opNot a none x) :=
      expr_cov_name_readdr f src dom (Expr.opNot a none x)
    rcases ec with _ | c <;> by_cases hw : (x.width == 1) = true <;>
      simp [tag_expr_tree, readdrE, width_readdr, hw, hname, ih]
  | opAnd a ec x y ihx ihy =>
    intro k
    have hname : expr_cov_name src dom (Expr.opAnd (f a) none (readdrE f x) (readdrE f y))
        = expr_cov_name src dom (Expr.opAnd a none x y) :=
      expr_cov_name_readdr f src dom (Expr.opAnd a none x y)
    rcases ec with _ | c <;> by_cases hw : ((max x.width y.width) == 1) = true <;>
      simp [tag_expr_tree, readdrE, width_readdr, hw, hname, ihx, ihy]
  | opOr a ec x y ihx ihy =>
    intro k
    have hname : expr_cov_name src dom (Expr.opOr (f a) none (readdrE f x) (readdrE f y))
        = expr_cov_name src dom (Expr.opOr a none x y) :=
      expr_cov_name_readdr f src dom (Expr.opOr a none x y)
    rcases ec with _ | c <;> by_cases hw : ((max x.width y.width) == 1) = true <;>
      simp [tag_expr_tree, readdrE, width_readdr, hw, hname, ihx, ihy]
  | opEq a ec x y ihx ihy =>
    intro k
    have hname : expr_cov_name src dom (Expr.opEq (f a) none (readdrE f x) (readdrE f y))
        = expr_cov_name src dom (Expr.opEq a none x y) :=
      expr_cov_name_readdr f src dom (Expr.opEq a none x y)
    rcases ec with _ | c <;>
      simp [tag_expr_tree, readdrE, hname, ihx, ihy]
  | opNe a ec x y ihx ihy =>
    intro k
    have hname : expr_cov_name src dom (Expr.opNe (f a) none (readdrE f x) (readdrE f y))
        = expr_cov_name src dom (Expr.opNe a none x y) :=
      expr_cov_name_readdr f src dom (Expr.opNe a none x y)
    rcases ec with _ | c <;>
      simp [tag_expr_tree, readdrE, hname, ihx, ihy]

/-- The role and pattern components of the boolean-expression triples (all
that `switch_expr_infos` reads). -/
def stripBex (l : List (String × Expr × Option (List Pat))) :
    List (String × Option (List Pat)) :=
  l.map (fun x => (x.1, x.2.2))

lemma switch_expr_infos_strip (src dom : String) (pp : HPath) :
    ∀ (b1 b2 : List (String × Expr × Option (List Pat))) (k : Nat),
      stripBex b1 = stripBex b2 →
      switch_expr_infos src dom pp k b1 = switch_expr_infos src dom pp k b2 := by
  intro b1
  induction b1 with
  | nil =>
    intro b2 k h
    cases b2 with
    | nil => rfl
    | cons y ys => simp [stripBex] at h
  | cons x xs ih =>
    intro b2 k h
    cases b2 with
    | nil => simp [stripBex] at h
    | cons y ys =>
      simp only [stripBex, List.map_cons, List.cons.injEq, Prod.mk.injEq] at h
      obtain ⟨⟨h1, h2⟩, h3⟩ := h
      simp only [switch_expr_infos, h1, h2]
      rw [ih ys (k + 1) h3]

lemma match_case_readdr (f : Nat → Nat) (test : Expr) (p : Pat) :
    ((∃ e, _match_case test p = .ok e) ∧ (∃ e', _match_case (readdrE f test) p = .ok e'))
    ∨ (∃ msg, _match_case test p = .error msg ∧ _match_case (readdrE f test) p = .error msg) := by
  cases p with
  | pconst v w => exact Or.inl ⟨⟨_, rfl⟩, ⟨_, rfl⟩⟩
  | pint n => exact Or.inl ⟨⟨_, rfl⟩, ⟨_, rfl⟩⟩
  | pstr s =>
    cases hp : pyIntParse s with
    | some n =>
      exact Or.inl ⟨⟨.opEq 0 none test (const_for test n), by simp [_match_case, hp]⟩,
        ⟨.opEq 0 none (readdrE f test) (const_for (readdrE f test) n),
          by simp [_match_case, hp]⟩⟩
    | none =>
      have hw : (readdrE f test).width = test.width := width_readdr f test
      cases hm : _pattern_to_mask_value s test.width with
      | error e =>
        refine Or.inr ⟨e, by simp [_match_case, hp, hm], ?_⟩
        simp [_match_case, hp, hw, hm]
      | ok mv =>
        obtain ⟨m, v⟩ := mv
        refine Or.inl ⟨⟨.opEq 0 none (.opAnd 0 none test (.econst 0 none (m : Int) test.width))
            (.econst 0 none (v : Int) test.width), ?_⟩,
          ⟨.opEq 0 none (.opAnd 0 none (readdrE f test)
              (.econst 0 none (m : Int) (readdrE f test).width))
            (.econst 0 none (v : Int) (readdrE f test).width), ?_⟩⟩
        · simp [_match_case, hp, hm]
        · simp [_match_case, hp, hw, hm]

lemma case_match_expr_go_readdr (f : Nat → Nat) (test : Expr) :
    ∀ (ps : List Pat) (acc acc' : Expr),
      ((∃ e, case_match_expr.go test acc ps = .ok e)
          ∧ (∃ e', case_match_expr.go (readdrE f test) acc' ps = .ok e'))
      ∨ (∃ msg, case_match_expr.go test acc ps = .error msg
          ∧ case_match_expr.go (readdrE f test) acc' ps = .error msg) := by
  intro ps
  induction ps with
  | nil => intro acc acc'; exact Or.inl ⟨⟨_, rfl⟩, ⟨_, rfl⟩⟩
  | cons p rest ih =>
    intro acc acc'
    rcases match_case_readdr f test p with ⟨⟨e, he⟩, ⟨e', he'⟩⟩ | ⟨msg, hm, hm'⟩
    · rcases ih (.opOr 0 none acc e) (.opOr 0 none acc' e') with h | h
      · exact Or.inl (by simpa [case_match_expr.go, he, he'] using h)
      · exact Or.inr (by simpa [case_match_expr.go, he, he'] using h)
    · exact Or.inr ⟨msg, by simp [case_match_expr.go, hm], by simp [case_match_expr.go, hm']⟩

lemma case_match_expr_readdr (f : Nat → Nat) (test : Expr) (ps : List Pat) :
    ((∃ e, case_match_expr test ps = .ok e)
        ∧ (∃ e', case_match_expr (readdrE f test) ps = .ok e'))
    ∨ (∃ msg, case_match_expr test ps = .error msg
        ∧ case_match_expr (readdrE f test) ps = .error msg) := by
  cases ps with
  | nil => exact Or.inr ⟨_, rfl, rfl⟩
  | cons p rest =>
    rcases match_case_readdr f test p with ⟨⟨e, he⟩, ⟨e', he'⟩⟩ | ⟨msg, hm, hm'⟩
    · rcases case_match_expr_go_readdr f test rest e e' with h | h
      · exact Or.inl (by simpa [case_match_expr, he, he'] using h)
      · exact Or.inr (by simpa [case_match_expr, he, he'] using h)
    · exact Or.inr ⟨msg, by simp [case_match_expr, hm], by simp [case_match_expr, hm']⟩

lemma bexprs_go_readdr (f : Nat → Nat) (test : Expr) :
    ∀ (cs : List SwCase) (am am' : Option Expr), am.isSome = am'.isSome →
      ((∃ b b', _boolean_exprs_from_switch.go test cs am = .ok b
          ∧ _boolean_exprs_from_switch.go (readdrE f test) (readdrC f cs) am' = .ok b'
          ∧ stripBex b = stripBex b')
      ∨ (∃ msg, _boolean_exprs_from_switch.go test cs am = .error msg
          ∧ _boolean_exprs_from_switch.go (readdrE f test) (readdrC f cs) am' = .error msg)) := by
  intro cs
  induction cs with
  | nil =>
    intro am am' h
    cases am with
    | none =>
      cases am' with
      | none => exact Or.inl ⟨[], [], rfl, rfl, rfl⟩
      | some x => simp at h
    | some x =>
      cases am' with
      | none => simp at h
      | some x' =>
        exact Or.inl ⟨[("default", .opNot 0 none x, none)],
          [("default", .opNot 0 none x', none)], rfl, rfl, rfl⟩
  | cons c rest ih =>
    obtain ⟨pats, baddr, body, csl⟩ := c
    intro am am' h
    cases pats with
    | none =>
      simpa [_boolean_exprs_from_switch.go, readdrC] using ih am am' h
    | some ps =>
      rcases case_match_expr_readdr f test ps with ⟨⟨ec, hec⟩, ⟨ec', hec'⟩⟩ | ⟨msg, hm, hm'⟩
      · have h2 : (match am with
              | none => some ec
              | some a => some (Expr.opOr 0 none a ec)).isSome
            = (match am' with
              | none => some ec'
              | some a => some (Expr.opOr 0 none a ec')).isSome := by
          cases am <;> cases am' <;> simp_all
        rcases ih _ _ h2 with ⟨b, b', hb, hb', hs⟩ | ⟨msg, hb, hb'⟩
        · refine Or.inl ⟨("case", ec, some ps) :: b, ("case", ec', some ps) :: b', ?_, ?_, ?_⟩
          · simp [_boolean_exprs_from_switch.go, hec, hb, Except.map]
          · simp [readdrC, _boolean_exprs_from_switch.go, hec', hb', Except.map]
          · simp [stripBex] at hs ⊢
            exact hs
        · refine Or.inr ⟨msg, ?_, ?_⟩
          · simp [_boolean_exprs_from_switch.go, hec, hb, Except.map]
          · simp [readdrC, _boolean_exprs_from_switch.go, hec', hb', Except.map]
      · refine Or.inr ⟨msg, ?_, ?_⟩
        · simp [_boolean_exprs_from_switch.go, hm]
        · simp [readdrC, _boolean_exprs_from_switch.go, hm']

lemma bexprs_readdr (f : Nat → Nat) (test : Expr) (cs : List SwCase) :
    ((∃ b b', _boolean_exprs_from_switch test cs = .ok b
        ∧ _boolean_exprs_from_switch (readdrE f test) (readdrC f cs) = .ok b'
        ∧ stripBex b = stripBex b')
    ∨ (∃ msg, _boolean_exprs_from_switch test cs = .error msg
        ∧ _boolean_exprs_from_switch (readdrE f test) (readdrC f cs) = .error msg)) := by
  simpa [_boolean_exprs_from_switch] using bexprs_go_readdr f test cs none none rfl

lemma tag_exprs_list_readdr (f : Nat → Nat) (pp : HPath) (dom : String) :
    ∀ (l : List Stmt) (k : Nat),
      tag_exprs_list pp dom k (readdrL f l)
        = (tag_exprs_list pp dom k l).map (fun r => (readdrL f r.1, r.2))
  | [], k => by simp [tag_exprs_list, readdrL, Except.map]
  | .assign a sl lhs rhs covId cn ct inj :: rest, k => by
    simp only [readdrL, readdrS, tag_exprs_list,
      tag_expr_tree_readdr f (_short_loc sl) dom pp rhs k]
    rw [tag_exprs_list_readdr f pp dom rest]
    cases hr : tag_exprs_list pp dom (tag_expr_tree (_short_loc sl) dom pp k rhs).2.1 rest <;>
      simp [Except.map, readdrL, readdrS]
  | .switch a sl test cases covId cn ct caseIds bci inj :: rest, k => by
    simp only [readdrL, readdrS, tag_exprs_list]
    rcases bexprs_readdr f test cases with ⟨b, b', hb, hb', hs⟩ | ⟨msg, hm, hm'⟩
    · simp only [hb, hb']
      rw [switch_expr_infos_strip (_short_loc sl) dom pp b' b k hs.symm]
      rw [tag_exprs_list_readdr f pp dom rest]
      cases hr : tag_exprs_list pp dom
          (switch_expr_infos (_short_loc sl) dom pp k b).1 rest <;>
        simp [Except.map, readdrL, readdrS]
    · rw [hm, hm']
      simp [Except.map]
  | .formal a sl kind cond aid an at_ :: rest, k => by
    simp only [readdrL, readdrS, tag_exprs_list]
    rw [tag_exprs_list_readdr f pp dom rest]
    cases hr : tag_exprs_list pp dom k rest <;> simp [Except.map, readdrL, readdrS]

mutual

theorem tag_all_expressions_readdr : ∀ (f : Nat → Nat) (fr : Fragment) (k : Nat) (pp : HPath),
    tag_all_expressions (readdrF f fr) k pp
      = (tag_all_expressions fr k pp).map (fun r => (readdrF f r.1, r.2))
  | f, .mk stmts subs bci, k, pp => by
    simp only [tag_all_expressions, readdrF]
    rw [tag_exprs_domains_readdr f pp k stmts]
    cases hd : tag_exprs_domains pp k stmts with
    | error e => simp [Except.map]
    | ok rd =>
      simp only [Except.map]
      rw [tag_exprs_subfrags_readdr f pp rd.2.1 subs]
      cases hs : tag_exprs_subfrags pp rd.2.1 subs <;> simp [Except.map, readdrF]

theorem tag_exprs_domains_readdr : ∀ (f : Nat → Nat) (pp : HPath) (k : Nat)
    (ds : List (String × Nat × List Stmt)),
    tag_exprs_domains pp k (readdrD f ds)
      = (tag_exprs_domains pp k ds).map (fun r => (readdrD f r.1, r.2))
  | f, pp, k, [] => by simp [tag_exprs_domains, readdrD, Except.map]
  | f, pp, k, (dom, la, l) :: rest => by
    simp only [tag_exprs_domains, readdrD]
    rw [tag_exprs_list_readdr f pp dom l k]
    cases h1 : tag_exprs_list pp dom k l with
    | error e => simp [Except.map]
    | ok r1 =>
      simp only [Except.map]
      rw [tag_exprs_domains_readdr f pp r1.2.1 rest]
      cases h2 : tag_exprs_domains pp r1.2.1 rest <;> simp [Except.map, readdrD]

theorem tag_exprs_subfrags_readdr : ∀ (f : Nat → Nat) (pp : HPath) (k : Nat)
    (subs : List (Fragment × Option String)),
    tag_exprs_subfrags pp k (readdrSub f subs)
      = (tag_exprs_subfrags pp k subs).map (fun r => (readdrSub f r.1, r.2))
  | f, pp, k, [] => by simp [tag_exprs_subfrags, readdrSub, Except.map]
  | f, pp, k, (fr, nm) :: rest => by
    simp only [tag_exprs_subfrags, readdrSub]
    rw [tag_all_expressions_readdr f fr k (pp ++ [nm])]
    cases h1 : tag_all_expressions fr k (pp ++ [nm]) with
    | error e => simp [Except.map]
    | ok r1 =>
      simp only [Except.map]
      rw [tag_exprs_subfrags_readdr f pp r1.2.1 rest]
      cases h2 : tag_exprs_subfrags pp r1.2.1 rest <;> simp [Except.map, readdrSub]

end

/-- C3: Tagging is address-independent.  Re-addressing a design tree by an
arbitrary function on object and list addresses (the only process-specific
data in the embedding, standing for two separate process invocations
elaborating the same design) commutes with every facet's tagger: the
statement, block and assertion taggers produce the re-addressed tagged tree
with the exact same counter and the exact same (identity, descriptor, type)
info entries, and the expression tagger produces the same
error-or-(counter, info) outcome — so structurally identical trees yield
identical CoverageIdentity sets and identical descriptor strings. -/
theorem c3_tagging_address_independent (f : Nat → Nat) (fr : Fragment) (k : Nat) (pp : HPath) :
    tag_all_statements (readdrF f fr) k pp
        = (readdrF f (tag_all_statements fr k pp).1, (tag_all_statements fr k pp).2)
    ∧ tag_all_blocks (readdrF f fr) k pp
        = (readdrF f (tag_all_blocks fr k pp).1, (tag_all_blocks fr k pp).2)
    ∧ tag_all_asserts (readdrF f fr) k pp
        = (readdrF f (tag_all_asserts fr k pp).1, (tag_all_asserts fr k pp).2)
    ∧ tag_all_expressions (readdrF f fr) k pp
        = (tag_all_expressions fr k pp).map (fun r => (readdrF f r.1, r.2)) :=
  ⟨tag_all_statements_readdr f fr k pp, tag_all_blocks_readdr f fr k pp,
    tag_all_asserts_readdr f fr k pp, tag_all_expressions_readdr f fr k pp⟩
